import Mathlib

/-!
# UESVON: sparse voxel octree generation and neighbour links

A shallow embedding of `Source/UESVON/Private/SVONVolume.cpp`.

* The volume object is an explicit state record (`ASVONVolume`); every member
  function that mutates it becomes a function returning the new state.
* `TArray::operator[]` is range checked: an index outside the array is the
  result `Except.error Fault.outOfRange`.
* The two `while` loops without a syntactic bound (the parent derivation of
  `FirstPassRasterize`, the climb of `BuildNeighbourLinks`) carry a fuel
  counter; running out of it is `Fault.outOfFuel`.
* The collision world is an `Oracle`: the three kinds of overlap query the
  file issues, indexed by the cell they are issued for.
* `GetNodesInLayer` returns the `int32` that the source converts its
  floating-point power to: the value leaves the `int32` range from
  `myVoxelPower - aLayer = 11` on, the conversion then gives `-2^31`, and the
  loops bounded by it do not run. As a consequence a layer holds a node only
  up to voxel power 10, where node counts, indices and Morton codes are below
  `8^10`.
* The other integers are unbounded naturals or integers. The leaf
  preallocation `Num() * 8 * 0.25f` is twice the number of occupied first-pass
  cells, which is the value of the single-precision product up to `2^24`
  cells.
* Positions, debug drawing, logging and timing are left out.
-/

namespace UESVON

/-! ## Results of range-checked code -/

/-- Ways in which the embedded code can fail to return. -/
inductive Fault where
  | outOfRange
  | outOfFuel
deriving DecidableEq, Repr

/-- Range-checked `TArray::operator[]`. -/
def index {α : Type} (xs : List α) (i : Nat) : Except Fault α :=
  match xs[i]? with
  | some a => .ok a
  | none => .error .outOfRange

/-! ## Data model -/

/-- Modelled from the spec: `Link` (declared in a header that is not part of
the translated file) is a layer index, a node index and a sub-node index, plus
a distinguished invalid value. Validity is kept as a field of its own, so that
no layer index is lost to the invalid value. -/
structure SVONLink where
  myValid : Bool
  myLayerIndex : Nat
  myNodeIndex : Nat
  mySubnodeIndex : Nat
deriving DecidableEq, Repr

namespace SVONLink

/-- Modelled from the spec: the distinguished invalid link. Its layer index
lies outside the range 0..13 of the layers, which is what sends `GetNode` to
its fallback branch. -/
def GetInvalidLink : SVONLink := ⟨false, 15, 0, 0⟩

/-- Modelled from the spec: the link built from a layer index, a node index
and a sub-node index. -/
def make (aLayer aNodeIndex aSubNodeIndex : Nat) : SVONLink :=
  ⟨true, aLayer, aNodeIndex, aSubNodeIndex⟩

/-- Modelled from the spec: a link is valid unless it is the invalid link. -/
def IsValid (l : SVONLink) : Bool := l.myValid

/-- Modelled from the spec: turns a link into the invalid link. -/
def SetInvalid (_ : SVONLink) : SVONLink := GetInvalidLink

/-- Modelled from the spec: a write to the layer index; the link names a layer
from then on. -/
def SetLayerIndex (l : SVONLink) (aLayer : Nat) : SVONLink :=
  { l with myValid := true, myLayerIndex := aLayer }

/-- Modelled from the spec: a write to the node index. -/
def SetNodeIndex (l : SVONLink) (aNodeIndex : Nat) : SVONLink :=
  { l with myNodeIndex := aNodeIndex }

/-- Modelled from the spec: a write to the sub-node index. -/
def SetSubnodeIndex (l : SVONLink) (aSubIndex : Nat) : SVONLink :=
  { l with mySubnodeIndex := aSubIndex }

end SVONLink

/-- Modelled from the spec: `LeafNode` (declared in a header that is not part
of the translated file) is a 64-bit occupancy mask over a 4x4x4 block. -/
structure SVONLeafNode where
  myVoxelGrid : Nat
deriving DecidableEq, Repr

namespace SVONLeafNode

/-- Modelled from the spec: a freshly added leaf has no bit set. -/
def default : SVONLeafNode := ⟨0⟩

/-- Modelled from the spec: "blocked(subcode)", bit `aIndex` of the mask. -/
def GetNode (l : SVONLeafNode) (aIndex : Nat) : Bool := l.myVoxelGrid.testBit aIndex

/-- Modelled from the spec: sets bit `aIndex` of the mask. -/
def SetNode (l : SVONLeafNode) (aIndex : Nat) : SVONLeafNode :=
  ⟨l.myVoxelGrid ||| (1 <<< aIndex)⟩

/-- Modelled from the spec: "completely blocked", all 64 bits set. -/
def IsCompletelyBlocked (l : SVONLeafNode) : Bool := l.myVoxelGrid == 2 ^ 64 - 1

end SVONLeafNode

/-- Modelled from the spec: `Node` (declared in a header that is not part of
the translated file) is a code, a first-child link, a parent link and six
neighbour links. -/
structure SVONNode where
  myCode : Nat
  myFirstChild : SVONLink
  myParent : SVONLink
  myNeighbours : List SVONLink
deriving DecidableEq, Repr

namespace SVONNode

/-- Modelled from the spec: a freshly emplaced node has code 0 and only
invalid links. -/
def default : SVONNode :=
  ⟨0, SVONLink.GetInvalidLink, SVONLink.GetInvalidLink, List.replicate 6 SVONLink.GetInvalidLink⟩

/-- Modelled from the spec: a node has children when its first-child link is
valid. -/
def HasChildren (n : SVONNode) : Bool := n.myFirstChild.IsValid

/-- Reads `myNeighbours[d]`. -/
def neighbour (n : SVONNode) (d : Nat) : SVONLink := n.myNeighbours.getD d SVONLink.GetInvalidLink

end SVONNode

/-- The octree proper: the per-layer node arrays and the flat leaf array. -/
structure SVONData where
  myLayers : List (List SVONNode)
  myLeafNodes : List SVONLeafNode
deriving DecidableEq, Repr

/-- The members of `ASVONVolume` that the generation code reads or writes.
A `TSet` of codes is a duplicate-free list in insertion order. -/
structure ASVONVolume where
  myVoxelPower : Nat
  myNumLayers : Nat
  myBlockedIndices : List (List Nat)
  myData : SVONData
deriving DecidableEq, Repr

/-- The collision world as seen by this file: `firstPass i` answers the overlap
test of `FirstPassRasterize` for the layer-1 cell with code `i`, `voxel i` the
test of `RasterizeLayer` for the layer-0 cell with code `i`, and
`subVoxel i s` the test of `RasterizeLeafNode` for sub-voxel `s` of the leaf
under the layer-0 cell with code `i`. -/
structure Oracle where
  firstPass : Nat → Bool
  voxel : Nat → Bool
  subVoxel : Nat → Nat → Bool

/-- A direction vector with integer components. -/
structure FIntVector where
  X : Int
  Y : Int
  Z : Int
deriving DecidableEq, Repr

/-- Modelled from the spec: the six axis directions `SVONStatics::dirs`
(declared in a header that is not part of the translated file), one unit step
along each axis in each sense. -/
def dirs (d : Nat) : FIntVector :=
  match d with
  | 0 => ⟨1, 0, 0⟩
  | 1 => ⟨-1, 0, 0⟩
  | 2 => ⟨0, 1, 0⟩
  | 3 => ⟨0, -1, 0⟩
  | 4 => ⟨0, 0, 1⟩
  | 5 => ⟨0, 0, -1⟩
  | _ => ⟨0, 0, 0⟩

/-! ## Morton codec -/

/-- Modelled from the spec: dilates the bits of a coordinate with two zero-bit
gaps (bit `k` moves to bit `3k`). The first argument bounds the number of bits
read. -/
def dilateBits : Nat → Nat → Nat
  | 0, _ => 0
  | k + 1, x => if x = 0 then 0 else x % 2 + 8 * dilateBits k (x / 2)

/-- Modelled from the spec: the inverse compaction (bit `3k` moves to bit
`k`, the other bits are dropped). -/
def compactBits : Nat → Nat → Nat
  | 0, _ => 0
  | k + 1, c => if c = 0 then 0 else c % 2 + 2 * compactBits k (c / 8)

/-- Modelled from the spec: `encode3D`, the OR of the three dilated
coordinates shifted by 0, 1 and 2 (the Morton library is not part of the
translated file). -/
def morton3D_64_encode (x y z : Nat) : Nat :=
  dilateBits x x ||| (dilateBits y y <<< 1) ||| (dilateBits z z <<< 2)

/-- Modelled from the spec: `decode3D`, the inverse compaction of each
axis. -/
def morton3D_64_decode (c : Nat) : Nat × Nat × Nat :=
  (compactBits c c, compactBits c (c >>> 1), compactBits c (c >>> 2))

/-! ## State access -/

/-- `GetLayer`: `myData.myLayers[aLayer]`. -/
def GetLayer (v : ASVONVolume) (aLayer : Nat) : Except Fault (List SVONNode) :=
  index v.myData.myLayers aLayer

/-- `GetLeafNode`: `myData.myLeafNodes[aIndex]`. -/
def GetLeafNode (v : ASVONVolume) (aIndex : Nat) : Except Fault SVONLeafNode :=
  index v.myData.myLeafNodes aIndex

/-- Reads `GetLayer(aLayer)[aIndex]`. -/
def nodeAt (v : ASVONVolume) (aLayer aIndex : Nat) : Except Fault SVONNode :=
  GetLayer v aLayer >>= fun layer => index layer aIndex

/-- A write through the reference `GetLayer(aLayer)[aIndex]`. -/
def modifyNode (v : ASVONVolume) (aLayer aIndex : Nat) (f : SVONNode → SVONNode) :
    Except Fault ASVONVolume :=
  GetLayer v aLayer >>= fun layer =>
  index layer aIndex >>= fun n =>
  pure { v with myData := { v.myData with
    myLayers := v.myData.myLayers.set aLayer (layer.set aIndex (f n)) } }

/-- A write through the reference `myData.myLeafNodes[aIndex]`. -/
def modifyLeaf (v : ASVONVolume) (aIndex : Nat) (f : SVONLeafNode → SVONLeafNode) :
    Except Fault ASVONVolume :=
  GetLeafNode v aIndex >>= fun l =>
  pure { v with myData := { v.myData with myLeafNodes := v.myData.myLeafNodes.set aIndex (f l) } }

/-- `GetLayer(aLayer).Emplace()`: appends a default node and returns its
index. -/
def emplaceNode (v : ASVONVolume) (aLayer : Nat) : Except Fault (ASVONVolume × Nat) :=
  GetLayer v aLayer >>= fun layer =>
  pure ({ v with myData := { v.myData with
    myLayers := v.myData.myLayers.set aLayer (layer ++ [SVONNode.default]) } }, layer.length)

/-- `myData.myLeafNodes.AddDefaulted(n)`. -/
def addDefaultedLeaves (v : ASVONVolume) (n : Nat) : ASVONVolume :=
  { v with myData := { v.myData with
    myLeafNodes := v.myData.myLeafNodes ++ List.replicate n SVONLeafNode.default } }

/-- `TSet::Add`: a code already present is not added again. -/
def setAdd (s : List Nat) (c : Nat) : List Nat :=
  if s.contains c then s else s ++ [c]

/-- The statement `myBlockedIndices[k].Add(c)`. -/
def blockedAdd (v : ASVONVolume) (k c : Nat) : Except Fault ASVONVolume :=
  index v.myBlockedIndices k >>= fun s =>
  pure { v with myBlockedIndices := v.myBlockedIndices.set k (setAdd s c) }

/-- `GetNodesInLayer`: the `int32` that `(2^(myVoxelPower - aLayer))^3`,
computed in floating point, is converted to. The power is below one and
truncates to zero when the layer is above the voxel power; it is exact
otherwise, and from `8^11` on it is outside the `int32` range, where the
conversion gives `-2^31`. -/
def GetNodesInLayer (v : ASVONVolume) (aLayer : Nat) : Int :=
  if aLayer ≤ v.myVoxelPower then
    if (2 ^ (v.myVoxelPower - aLayer)) ^ 3 < 2 ^ 31 then
      Int.ofNat ((2 ^ (v.myVoxelPower - aLayer)) ^ 3)
    else -(2 ^ 31)
  else 0

/-- `GetNodesPerSide`: `2^(myVoxelPower - aLayer)`, zero when the layer is
above the voxel power. It is read for a layer that holds a node only, where the
voxel power is at most 10 and the value is within the `int32` range. -/
def GetNodesPerSide (v : ASVONVolume) (aLayer : Nat) : Nat :=
  if aLayer ≤ v.myVoxelPower then 2 ^ (v.myVoxelPower - aLayer) else 0

/-! ## First pass -/

/-- The `while` loop of `FirstPassRasterize`: as long as the current set has
more than one entry, a new set receives the parent code of each entry. -/
def FirstPassRasterize.parents : Nat → ASVONVolume → Nat → Except Fault ASVONVolume
  | fuel, v, layerIndex =>
    index v.myBlockedIndices layerIndex >>= fun cur =>
    if cur.length > 1 then
      match fuel with
      | 0 => .error .outOfFuel
      | fuel + 1 =>
        cur.foldlM (fun w code => blockedAdd w (layerIndex + 1) (code >>> 3))
          { v with myBlockedIndices := v.myBlockedIndices ++ [[]] } >>= fun w =>
        FirstPassRasterize.parents fuel w (layerIndex + 1)
    else pure v

/-- `FirstPassRasterize`: records the occupied layer-1 cells in
`myBlockedIndices[0]`, then derives the parent sets. The `bool` it returns is
always `true` and is dropped by the caller. -/
def FirstPassRasterize (v : ASVONVolume) (o : Oracle) : Except Fault ASVONVolume :=
  (List.range (GetNodesInLayer v 1).toNat).foldlM
    (fun w i => if o.firstPass i then blockedAdd w 0 i else pure w)
    { v with myBlockedIndices := v.myBlockedIndices ++ [[]] } >>= fun w =>
  FirstPassRasterize.parents w.myNumLayers w 0

/-! ## Rasterization -/

/-- `RasterizeLeafNode`: 64 sub-voxel queries; `aOrigin` is the code of the
layer-0 cell whose corner the queries are offset from. -/
def RasterizeLeafNode (v : ASVONVolume) (o : Oracle) (aOrigin aLeafIndex : Nat) :
    Except Fault ASVONVolume :=
  (List.range 64).foldlM
    (fun w i =>
      let w1 := if aLeafIndex + 1 ≥ w.myData.myLeafNodes.length then addDefaultedLeaves w 1 else w
      if o.subVoxel aOrigin i then modifyLeaf w1 aLeafIndex (fun l => l.SetNode i) else pure w1)
    v

/-- `IsAnyMemberBlocked`. -/
def IsAnyMemberBlocked (v : ASVONVolume) (aLayer aCode : Nat) : Except Fault Bool :=
  if aLayer = v.myBlockedIndices.length then pure true
  else
    index v.myBlockedIndices aLayer >>= fun s =>
    if s.contains (aCode >>> 3) then pure true else pure false

/-- The linear search of `GetIndexForCode` from position `i` on. -/
def GetIndexForCode.go (aCode : Nat) : List SVONNode → Nat → Option Nat
  | [], _ => none
  | n :: rest, i => if n.myCode = aCode then some i else GetIndexForCode.go aCode rest (i + 1)

/-- `GetIndexForCode`: `some i` stands for `oIndex = i; return true`, `none`
for `return false` with `oIndex` untouched. -/
def GetIndexForCode (v : ASVONVolume) (aLayer aCode : Nat) : Except Fault (Option Nat) :=
  GetLayer v aLayer >>= fun layer => pure (GetIndexForCode.go aCode layer 0)

/-- One iteration of the layer-0 loop of `RasterizeLayer`; the state is the
volume and the local `leafIndex`. -/
def RasterizeLayer.leafStep (o : Oracle) (st : ASVONVolume × Nat) (i : Nat) :
    Except Fault (ASVONVolume × Nat) :=
  index st.1.myBlockedIndices 0 >>= fun s =>
  if s.contains (i >>> 3) then
    emplaceNode st.1 0 >>= fun r =>
    modifyNode r.1 0 r.2 (fun n => { n with myCode := i }) >>= fun v1 =>
    if o.voxel i then
      RasterizeLeafNode v1 o i st.2 >>= fun v2 =>
      modifyNode v2 0 r.2 (fun n => { n with
        myFirstChild := ((n.myFirstChild.SetLayerIndex 0).SetNodeIndex st.2).SetSubnodeIndex 0 })
        >>= fun v3 =>
      pure (v3, st.2 + 1)
    else
      modifyNode (addDefaultedLeaves v1 1) 0 r.2
          (fun n => { n with myFirstChild := n.myFirstChild.SetInvalid }) >>= fun v3 =>
      pure (v3, st.2 + 1)
  else pure st

/-- One iteration of the loop of `RasterizeLayer` for a layer above 0. -/
def RasterizeLayer.nodeStep (aLayer : Nat) (v : ASVONVolume) (i : Nat) :
    Except Fault ASVONVolume :=
  IsAnyMemberBlocked v aLayer i >>= fun b =>
  if b then
    emplaceNode v aLayer >>= fun r =>
    modifyNode r.1 aLayer r.2 (fun n => { n with myCode := i }) >>= fun v1 =>
    GetIndexForCode v1 (aLayer - 1) (i <<< 3) >>= fun found =>
    match found with
    | some childIndex =>
      modifyNode v1 aLayer r.2 (fun n => { n with
        myFirstChild := (n.myFirstChild.SetLayerIndex (aLayer - 1)).SetNodeIndex childIndex })
        >>= fun v2 =>
      (List.range 8).foldlM
        (fun w iter => modifyNode w (aLayer - 1) (childIndex + iter) (fun c => { c with
          myParent := (c.myParent.SetLayerIndex aLayer).SetNodeIndex r.2 }))
        v2
    | none =>
      modifyNode v1 aLayer r.2 (fun n => { n with myFirstChild := n.myFirstChild.SetInvalid })
  else pure v

/-- `RasterizeLayer`. -/
def RasterizeLayer (v : ASVONVolume) (o : Oracle) (aLayer : Nat) : Except Fault ASVONVolume :=
  if aLayer = 0 then
    (List.range (GetNodesInLayer v aLayer).toNat).foldlM (RasterizeLayer.leafStep o) (v, 0) >>= fun st =>
    pure st.1
  else
    GetLayer v (aLayer - 1) >>= fun below =>
    if below.length > 1 then
      (List.range (GetNodesInLayer v aLayer).toNat).foldlM (RasterizeLayer.nodeStep aLayer) v
    else pure v

/-! ## Neighbour links -/

/-- The scan of `FindLinkInDirection` over the nodes it visits, in visiting
order, `idx` being the array index of the head and `isHigher` telling whether
the index grows. The result is `some (some j)` when the node at index `j` has
the code looked for, `some none` when the scan passes the code, and `none` when
the array is exhausted. -/
def FindLinkInDirection.scan (thisCode : Nat) (isHigher : Bool) :
    List SVONNode → Nat → Option (Option (Nat × SVONNode))
  | [], _ => none
  | n :: rest, idx =>
    if n.myCode = thisCode then some (some (idx, n))
    else if (isHigher && decide (n.myCode > thisCode)) || (!isHigher && decide (n.myCode < thisCode))
    then some none
    else FindLinkInDirection.scan thisCode isHigher rest (if isHigher then idx + 1 else idx - 1)

/-- `FindLinkInDirection`: the returned pair is the `bool` result and the new
value of `oLinkToUpdate`. -/
def FindLinkInDirection (v : ASVONVolume) (aLayer aNodeIndex aDir : Nat) (oLinkToUpdate : SVONLink) :
    Except Fault (Bool × SVONLink) :=
  let maxCoord : Int := GetNodesPerSide v aLayer
  nodeAt v aLayer aNodeIndex >>= fun node =>
  GetLayer v aLayer >>= fun layer =>
  let p := morton3D_64_decode node.myCode
  let sX : Int := p.1 + (dirs aDir).X
  let sY : Int := p.2.1 + (dirs aDir).Y
  let sZ : Int := p.2.2 + (dirs aDir).Z
  if sX < 0 ∨ sX ≥ maxCoord ∨ sY < 0 ∨ sY ≥ maxCoord ∨ sZ < 0 ∨ sZ ≥ maxCoord then
    pure (true, oLinkToUpdate.SetInvalid)
  else
    let thisCode := morton3D_64_encode sX.toNat sY.toNat sZ.toNat
    let isHigher : Bool := decide (thisCode > node.myCode)
    let visited := if isHigher then layer.drop (aNodeIndex + 1) else (layer.take aNodeIndex).reverse
    match FindLinkInDirection.scan thisCode isHigher visited
        (if isHigher then aNodeIndex + 1 else aNodeIndex - 1) with
    | some (some (j, thisNode)) =>
      if aLayer = 0 ∧ thisNode.HasChildren = true then
        GetLeafNode v thisNode.myFirstChild.myNodeIndex >>= fun leaf =>
        if leaf.IsCompletelyBlocked then pure (true, oLinkToUpdate.SetInvalid)
        else pure (true, (oLinkToUpdate.SetLayerIndex aLayer).SetNodeIndex j)
      else pure (true, (oLinkToUpdate.SetLayerIndex aLayer).SetNodeIndex j)
    | _ => pure (false, oLinkToUpdate)

/-- The `while` loop of `BuildNeighbourLinks` for one node and one direction:
`aCode` is the code of the node whose link is computed, `searchLayer` and
`idx` the position searched next, and the result is the final value of
`linkToUpdate`. -/
def BuildNeighbourLinks.climb (v : ASVONVolume) (aLayer aCode aDir : Nat) :
    Nat → Nat → Nat → SVONLink → Except Fault SVONLink
  | fuel, searchLayer, idx, linkToUpdate =>
    FindLinkInDirection v searchLayer idx aDir linkToUpdate >>= fun r =>
    if r.1 = false ∧ aLayer + 2 < v.myData.myLayers.length then
      match fuel with
      | 0 => .error .outOfFuel
      | fuel + 1 =>
        nodeAt v searchLayer idx >>= fun cur =>
        if cur.myParent.IsValid then
          BuildNeighbourLinks.climb v aLayer aCode aDir fuel
            cur.myParent.myLayerIndex cur.myParent.myNodeIndex r.2
        else
          GetIndexForCode v (searchLayer + 1) (aCode >>> 3) >>= fun found =>
          BuildNeighbourLinks.climb v aLayer aCode aDir fuel (searchLayer + 1) (found.getD idx) r.2
    else pure r.2

/-- The body of the direction loop of `BuildNeighbourLinks` for node `i` of
layer `aLayer` and direction `d`: the climb, and the write of its result to
`myNeighbours[d]`. -/
def BuildNeighbourLinks.dirStep (aLayer i : Nat) (v : ASVONVolume) (d : Nat) :
    Except Fault ASVONVolume :=
  nodeAt v aLayer i >>= fun node =>
  BuildNeighbourLinks.climb v aLayer node.myCode d v.myNumLayers aLayer i (node.neighbour d) >>= fun l =>
  modifyNode v aLayer i (fun n => { n with myNeighbours := n.myNeighbours.set d l })

/-- `BuildNeighbourLinks`. -/
def BuildNeighbourLinks (v : ASVONVolume) (aLayer : Nat) : Except Fault ASVONVolume :=
  GetLayer v aLayer >>= fun layer =>
  (List.range layer.length).foldlM
    (fun w i => (List.range 6).foldlM (BuildNeighbourLinks.dirStep aLayer i) w) v

/-! ## Generation -/

/-- The statements of `Generate` up to the allocation of the empty layers:
the reset of the previous octree, the first pass and the leaf allocation. -/
def Generate.prepare (v : ASVONVolume) (o : Oracle) : Except Fault ASVONVolume :=
  let v0 : ASVONVolume :=
    { v with myBlockedIndices := [], myNumLayers := v.myVoxelPower + 1,
             myData := { v.myData with myLayers := [] } }
  FirstPassRasterize v0 o >>= fun v1 =>
  index v1.myBlockedIndices 0 >>= fun s =>
  let v2 := addDefaultedLeaves { v1 with myData := { v1.myData with myLeafNodes := [] } } (s.length * 2)
  pure ((List.range v2.myNumLayers).foldl
    (fun w _ => { w with myData := { w.myData with myLayers := w.myData.myLayers ++ [[]] } }) v2)

/-- The statements of `Generate` up to the end of the loop that rasterizes the
layers bottom up. -/
def Generate.rasterize (v : ASVONVolume) (o : Oracle) : Except Fault ASVONVolume :=
  Generate.prepare v o >>= fun v3 =>
  (List.range v3.myNumLayers).foldlM (fun w i => RasterizeLayer w o i) v3

/-- The state changes of `Generate`: the rasterization, then the loop that
adds the neighbour links from the layer below the root down to layer 0. -/
def Generate.run (v : ASVONVolume) (o : Oracle) : Except Fault ASVONVolume :=
  Generate.rasterize v o >>= fun v4 =>
  (List.range (v4.myNumLayers - 1)).reverse.foldlM (fun w i => BuildNeighbourLinks w i) v4

/-- `Generate`: the `bool` it returns, and the volume it leaves behind. -/
def Generate (v : ASVONVolume) (o : Oracle) : Except Fault (Bool × ASVONVolume) :=
  Generate.run v o >>= fun w => pure (true, w)

/-! ## Queries -/

/-- `GetNode`. -/
def GetNode (v : ASVONVolume) (aLink : SVONLink) : Except Fault SVONNode :=
  if aLink.myLayerIndex < 14 then nodeAt v aLink.myLayerIndex aLink.myNodeIndex
  else if v.myNumLayers = 0 then .error .outOfRange
  else nodeAt v (v.myNumLayers - 1) 0

/-- The body of the direction loop of `GetLeafNeighbours`. -/
def GetLeafNeighbours.dirStep (v : ASVONVolume) (aLink : SVONLink) (node : SVONNode)
    (leaf : SVONLeafNode) (oNeighbours : List SVONLink) (i : Nat) : Except Fault (List SVONLink) :=
  let p := morton3D_64_decode aLink.mySubnodeIndex
  let sX : Int := p.1 + (dirs i).X
  let sY : Int := p.2.1 + (dirs i).Y
  let sZ : Int := p.2.2 + (dirs i).Z
  if sX ≥ 0 ∧ sX < 4 ∧ sY ≥ 0 ∧ sY < 4 ∧ sZ ≥ 0 ∧ sZ < 4 then
    let thisIndex := morton3D_64_encode sX.toNat sY.toNat sZ.toNat
    if leaf.GetNode thisIndex then pure oNeighbours
    else pure (oNeighbours ++ [SVONLink.make 0 aLink.myNodeIndex thisIndex])
  else
    let neighbourLink := node.neighbour i
    GetNode v neighbourLink >>= fun neighbourNode =>
    if !neighbourNode.myFirstChild.IsValid then pure (oNeighbours ++ [neighbourLink])
    else
      GetLeafNode v neighbourNode.myFirstChild.myNodeIndex >>= fun leafNode =>
      if leafNode.IsCompletelyBlocked then pure oNeighbours
      else
        let w : Int × Int × Int :=
          if sX < 0 then (3, sY, sZ)
          else if sX > 3 then (0, sY, sZ)
          else if sY < 0 then (sX, 3, sZ)
          else if sY > 3 then (sX, 0, sZ)
          else if sZ < 0 then (sX, sY, 3)
          else if sZ > 3 then (sX, sY, 0)
          else (sX, sY, sZ)
        let subNodeCode := morton3D_64_encode w.1.toNat w.2.1.toNat w.2.2.toNat
        if !leafNode.GetNode subNodeCode then
          pure (oNeighbours ++ [SVONLink.make 0 neighbourNode.myFirstChild.myNodeIndex subNodeCode])
        else pure oNeighbours

/-- `GetLeafNeighbours`: the links appended to `oNeighbours`. -/
def GetLeafNeighbours (v : ASVONVolume) (aLink : SVONLink) (oNeighbours : List SVONLink) :
    Except Fault (List SVONLink) :=
  GetNode v aLink >>= fun node =>
  GetLeafNode v node.myFirstChild.myNodeIndex >>= fun leaf =>
  (List.range 6).foldlM (GetLeafNeighbours.dirStep v aLink node leaf) oNeighbours

/-! ## Closed forms, invariants and sample inputs

Definitions that the statements below are written with: the state each phase
of `Generate` leaves in closed form, the invariants of its loops, the geometry
of the neighbour search, and the concrete inputs. -/

/-- The sets derived by the first pass form a chain: each set after the first
holds exactly the parent codes of the set before it, without duplicates, and
every set but the last has more than one entry. -/
def Chain (sets : List (List Nat)) : Prop :=
  ∀ k s t, sets[k]? = some s → sets[k + 1]? = some t →
    (∀ x, x ∈ t ↔ ∃ c ∈ s, c >>> 3 = x) ∧ t.Nodup ∧ 1 < s.length

/-- The volume with its layer arrays replaced. -/
def withLayers (v : ASVONVolume) (ls : List (List SVONNode)) : ASVONVolume :=
  { v with myData := { v.myData with myLayers := ls } }

/-- The volume with its leaf array replaced. -/
def withLeaves (v : ASVONVolume) (xs : List SVONLeafNode) : ASVONVolume :=
  { v with myData := { v.myData with myLeafNodes := xs } }

/-- The leaf at a position, a missing one counting as an empty leaf. -/
def leafAt (xs : List SVONLeafNode) (j : Nat) : SVONLeafNode :=
  (xs[j]?).getD SVONLeafNode.default

/-- The predicate of the layer-0 loop: the parent code is in the first set. -/
def inFirstSet (s : List Nat) (i : Nat) : Bool := s.contains (i >>> 3)

/-- The node that the layer-0 loop leaves behind for the code `i` at array
index `k`. -/
def leafLayerNode (o : Oracle) (i k : Nat) : SVONNode :=
  { SVONNode.default with
    myCode := i
    myFirstChild := if o.voxel i then SVONLink.make 0 k 0 else SVONLink.GetInvalidLink }

/-- The state of the layer-0 loop after the codes below `n`: layer 0 holds a
node for each code whose parent is in the first set, the leaf index is the
number of nodes, and the leaf array has a slot for each node, empty when the
cell is not occupied. -/
def LeafLoopInv (o : Oracle) (v : ASVONVolume) (s : List Nat) (n : Nat) (st : ASVONVolume × Nat) :
    Prop :=
  ∃ lay xs, st.1 = withLeaves (withLayers v (v.myData.myLayers.set 0 lay)) xs ∧
    lay.map (·.myCode) = (List.range n).filter (inFirstSet s) ∧
    st.2 = lay.length ∧ lay.length ≤ xs.length ∧
    (∀ k node, lay[k]? = some node →
      k < xs.length ∧ node = leafLayerNode o node.myCode k ∧
      (o.voxel node.myCode = false → leafAt xs k = SVONLeafNode.default) ∧
      (∀ b, (leafAt xs k).GetNode b =
        (o.voxel node.myCode && (decide (b < 64) && o.subVoxel node.myCode b)))) ∧
    (∀ j, lay.length ≤ j → leafAt xs j = SVONLeafNode.default)

/-- A layer after a write through `f` to each of the `cnt` nodes from
index `c` on. -/
def mapRange (f : SVONNode → SVONNode) (c cnt : Nat) (lay : List SVONNode) : List SVONNode :=
  lay.mapIdx (fun j x => if c ≤ j ∧ j < c + cnt then f x else x)

/-- The test of `IsAnyMemberBlocked` on the code `a` of the parent cell. -/
def blockedQ (sets : List (List Nat)) (l a : Nat) : Bool :=
  decide (l = sets.length) || (sets.getD l []).contains a

/-- The write `myParent.SetLayerIndex(l); myParent.SetNodeIndex(idx)`. -/
def setParent (l idx : Nat) (c : SVONNode) : SVONNode :=
  { c with myParent := (c.myParent.SetLayerIndex l).SetNodeIndex idx }

/-- The node that the loop of a layer `l > 0` leaves behind for the code `i`:
its first child is the node of code `8i` of the layer below when that node
exists (`qb i` and `i < N`), at the position given by the number of smaller
codes present there. -/
def upperLayerNode (l : Nat) (qb : Nat → Bool) (N i : Nat) : SVONNode :=
  { SVONNode.default with
    myCode := i
    myFirstChild :=
      if qb i = true ∧ i < N then
        SVONLink.make (l - 1) ((List.range (8 * i)).countP (fun j => qb (j / 8))) 0
      else SVONLink.GetInvalidLink }

/-- The effect of the first `n` iterations of the loop of layer `l` on a node
of the layer below: the parent link is written when the parent code is below
`n` and passes the test. -/
def parentAfter (l : Nat) (p : Nat → Bool) (n : Nat) (c : SVONNode) : SVONNode :=
  if c.myCode / 8 < n ∧ p (c.myCode / 8) = true then
    setParent l ((List.range (c.myCode / 8)).countP p) c
  else c

/-- The state of the loop of layer `l > 0` after the codes below `n`. -/
def upperState (v : ASVONVolume) (l : Nat) (below : List SVONNode) (qb : Nat → Bool) (N : Nat)
    (n : Nat) : ASVONVolume :=
  withLayers v
    ((v.myData.myLayers.set l
        (((List.range n).filter (fun i => blockedQ v.myBlockedIndices l (i >>> 3))).map
          (upperLayerNode l qb N))).set (l - 1)
      (below.map (parentAfter l (fun i => blockedQ v.myBlockedIndices l (i >>> 3)) n)))

/-- The occupied layer-1 codes found by the first pass, in ascending order.
From voxel power 12 on the number of layer-1 cells is outside the `int32`
range and the first pass visits no cell. -/
def firstSet (vp : Nat) (o : Oracle) : List Nat :=
  (List.range (if 1 ≤ vp ∧ vp ≤ 11 then 8 ^ (vp - 1) else 0)).filter o.firstPass

/-- The state in which `Generate` starts the rasterization: `vp + 1` empty
layers, the blocked-index sets of the first pass and two empty leaves for each
code in the first set. -/
def prepared (vp : Nat) (sets : List (List Nat)) : ASVONVolume :=
  ⟨vp, vp + 1, sets,
    ⟨List.replicate (vp + 1) [], List.replicate ((sets.headD []).length * 2) SVONLeafNode.default⟩⟩

/-- The codes of the nodes of each layer after the rasterization: layer 0
holds the codes whose parent is in the first set; a layer above holds nothing
unless the layer below has more than one node, and then the codes that pass
the test of `IsAnyMemberBlocked`. -/
def layerCodes (vp : Nat) (sets : List (List Nat)) : Nat → List Nat
  | 0 => (List.range (8 ^ vp)).filter (fun i => blockedQ sets 0 (i >>> 3))
  | l + 1 =>
    if 1 < (layerCodes vp sets l).length then
      (List.range (8 ^ (vp - (l + 1)))).filter (fun i => blockedQ sets (l + 1) (i >>> 3))
    else []

/-- Whether the loop of a layer runs at all. -/
def built (vp : Nat) (sets : List (List Nat)) : Nat → Bool
  | 0 => true
  | l + 1 => decide (1 < (layerCodes vp sets l).length)

/-- Whether the children of the cell `a` of the layer above are nodes of
layer `l`. -/
def layerQ (vp : Nat) (sets : List (List Nat)) (l a : Nat) : Bool :=
  built vp sets l && blockedQ sets l a

/-- The node of code `i` of layer `l` once the layers below `L` have been
rasterized: the node left by the loop of its own layer, with the parent link
written by the loop of the layer above when that loop has run. -/
def refNode (vp : Nat) (sets : List (List Nat)) (o : Oracle) (L l i : Nat) : SVONNode :=
  let base : SVONNode :=
    match l with
    | 0 => leafLayerNode o i ((List.range i).countP (fun j => layerQ vp sets 0 (j / 8)))
    | k + 1 => upperLayerNode (k + 1) (layerQ vp sets k) (8 ^ (vp - (k + 1))) i
  if l + 1 < L ∧ 1 < (layerCodes vp sets l).length then
    parentAfter (l + 1) (fun j => blockedQ sets (l + 1) (j >>> 3)) (8 ^ (vp - (l + 1))) base
  else base

/-- The layer arrays once the layers below `L` have been rasterized. -/
def refLayers (vp : Nat) (sets : List (List Nat)) (o : Oracle) (L : Nat) : List (List SVONNode) :=
  (List.range (vp + 1)).map
    (fun l => if l < L then (layerCodes vp sets l).map (refNode vp sets o L l) else [])

/-- What the rasterization establishes about the leaf array: every layer-0
node has a slot at its own index, an empty one when its cell is not occupied,
and otherwise one whose bits are the answers for the 64 sub-voxels. -/
def LeafFacts (vp : Nat) (sets : List (List Nat)) (o : Oracle) (xs : List SVONLeafNode) : Prop :=
  ∀ k i, (layerCodes vp sets 0)[k]? = some i →
    k < xs.length ∧ (o.voxel i = false → leafAt xs k = SVONLeafNode.default) ∧
    ∀ b, (leafAt xs k).GetNode b = (o.voxel i && (decide (b < 64) && o.subVoxel i b))

/-- The state once the layers below `L` have been rasterized. -/
def RastInv (vp : Nat) (sets : List (List Nat)) (o : Oracle) (L : Nat) (w : ASVONVolume) : Prop :=
  ∃ xs, w = withLeaves (withLayers (prepared vp sets) (refLayers vp sets o L)) xs ∧
    (0 < L → LeafFacts vp sets o xs) ∧
    (L = 0 → xs = (prepared vp sets).myData.myLeafNodes) ∧
    (∀ l, 1 ≤ l → l < L → 1 < (layerCodes vp sets (l - 1)).length → l ≤ sets.length)

/-- What the first pass guarantees about the blocked-index sets of a build
with voxel power `vp`. -/
def SetsOK (vp : Nat) (o : Oracle) (sets : List (List Nat)) : Prop :=
  sets.head? = some (firstSet vp o) ∧ Chain sets ∧ sets.length ≤ (vp - 1) + 1 ∧
  (∀ t, sets.getLast? = some t → t.length ≤ 1)

/-- A node without its neighbour links. -/
def strip (n : SVONNode) : SVONNode := { n with myNeighbours := [] }

/-- A volume without the neighbour links of its nodes: the part of the state
that the search for neighbour links reads. -/
def skeleton (v : ASVONVolume) : ASVONVolume :=
  withLayers v (v.myData.myLayers.map (fun lay => lay.map strip))

/-- The state of the neighbour-link loops relative to the rasterized volume
`w4`: the skeleton is unchanged, and of the links `(layer, node, direction)`
those in `P` hold the result of the climb while the others are still
invalid. -/
def LinksInv (w4 : ASVONVolume) (P : Nat → Nat → Nat → Prop) (w : ASVONVolume) : Prop :=
  skeleton w = skeleton w4 ∧
  ∀ l k n, nodeAt w l k = .ok n → n.myNeighbours.length = 6 ∧
    ∀ d, d < 6 →
      (P l k d → BuildNeighbourLinks.climb w4 l n.myCode d w4.myNumLayers l k
        SVONLink.GetInvalidLink = .ok (n.neighbour d)) ∧
      (¬ P l k d → n.neighbour d = SVONLink.GetInvalidLink)

/-- The dilation of all bits of a coordinate. -/
def dilate (x : Nat) : Nat := dilateBits x x

/-- The compaction of all bits of a code. -/
def compact (c : Nat) : Nat := compactBits c c

/-- The coordinates of the cell next to the cell of code `c` in direction
`d`; they are integers because the step may leave the volume. -/
def neighbourCoord (c d : Nat) : Int × Int × Int :=
  ((morton3D_64_decode c).1 + (dirs d).X, (morton3D_64_decode c).2.1 + (dirs d).Y,
    (morton3D_64_decode c).2.2 + (dirs d).Z)

/-- Whether integer coordinates lie in the cube of side `side`. -/
def inCube (side : Nat) (s : Int × Int × Int) : Prop :=
  0 ≤ s.1 ∧ s.1 < side ∧ 0 ≤ s.2.1 ∧ s.2.1 < side ∧ 0 ≤ s.2.2 ∧ s.2.2 < side

instance (side : Nat) (s : Int × Int × Int) : Decidable (inCube side s) := by
  unfold inCube; infer_instance

/-- The Morton code of the cell next to the cell of code `c` in direction
`d`. -/
def neighbourCode (c d : Nat) : Nat :=
  morton3D_64_encode (neighbourCoord c d).1.toNat (neighbourCoord c d).2.1.toNat
    (neighbourCoord c d).2.2.toNat

/-- The link that `FindLinkInDirection` stores when the scan has found the
node `thisNode` at index `j` of layer `l`. -/
def foundLink (v : ASVONVolume) (l j : Nat) (thisNode : SVONNode) (link : SVONLink) :
    Except Fault (Bool × SVONLink) :=
  if l = 0 ∧ thisNode.HasChildren = true then
    GetLeafNode v thisNode.myFirstChild.myNodeIndex >>= fun leaf =>
    if leaf.IsCompletelyBlocked then pure (true, link.SetInvalid)
    else pure (true, (link.SetLayerIndex l).SetNodeIndex j)
  else pure (true, (link.SetLayerIndex l).SetNodeIndex j)

/-- The rasterized volume in closed form, with leaf array `xs`. -/
def rasterized (vp : Nat) (sets : List (List Nat)) (o : Oracle) (xs : List SVONLeafNode) :
    ASVONVolume :=
  withLeaves (withLayers (prepared vp sets) (refLayers vp sets o (vp + 1))) xs

/-- The loop of every layer that ran passed a layer index within the number
of blocked-index sets. -/
def Completed (vp : Nat) (sets : List (List Nat)) : Prop :=
  ∀ l, 1 ≤ l → l ≤ vp → 1 < (layerCodes vp sets (l - 1)).length → l ≤ sets.length

deriving instance DecidableEq for Except

/-- A volume with voxel power 1 before `Generate`. -/
def sampleVolume : ASVONVolume := ⟨1, 0, [], ⟨[], []⟩⟩

/-- A volume with voxel power 2 before `Generate`. -/
def faultVolume : ASVONVolume := ⟨2, 0, [], ⟨[], []⟩⟩

/-- Geometry inside the corner sub-voxel: the first-pass cell 0, the voxel 0
and its sub-voxel 0 are occupied, nothing else is. -/
def sampleOracle : Oracle := ⟨fun i => i == 0, fun i => i == 0, fun _ s => s == 0⟩

/-- The layer-0 node with code 0 of the sample build. -/
def sampleNode0 : SVONNode :=
  ⟨0, SVONLink.make 0 0 0, SVONLink.make 1 0 0,
    [SVONLink.make 0 1 0, SVONLink.GetInvalidLink, SVONLink.make 0 2 0,
     SVONLink.GetInvalidLink, SVONLink.make 0 4 0, SVONLink.GetInvalidLink]⟩

/-- The layer-0 node with code 1 of the sample build. -/
def sampleNode1 : SVONNode :=
  ⟨1, SVONLink.GetInvalidLink, SVONLink.make 1 0 0,
    [SVONLink.GetInvalidLink, SVONLink.make 0 0 0, SVONLink.make 0 3 0,
     SVONLink.GetInvalidLink, SVONLink.make 0 5 0, SVONLink.GetInvalidLink]⟩

/-- The root of the sample build. -/
def sampleRoot : SVONNode :=
  ⟨0, SVONLink.make 0 0 0, SVONLink.GetInvalidLink, List.replicate 6 SVONLink.GetInvalidLink⟩

/-- The volume `Generate` leaves for `sampleVolume` and `sampleOracle`. -/
def sampleBuild : ASVONVolume :=
  ⟨1, 2, [[0]],
    ⟨[[sampleNode0, sampleNode1,
       ⟨2, SVONLink.GetInvalidLink, SVONLink.make 1 0 0,
         [SVONLink.make 0 3 0, SVONLink.GetInvalidLink, SVONLink.GetInvalidLink,
          SVONLink.make 0 0 0, SVONLink.make 0 6 0, SVONLink.GetInvalidLink]⟩,
       ⟨3, SVONLink.GetInvalidLink, SVONLink.make 1 0 0,
         [SVONLink.GetInvalidLink, SVONLink.make 0 2 0, SVONLink.GetInvalidLink,
          SVONLink.make 0 1 0, SVONLink.make 0 7 0, SVONLink.GetInvalidLink]⟩,
       ⟨4, SVONLink.GetInvalidLink, SVONLink.make 1 0 0,
         [SVONLink.make 0 5 0, SVONLink.GetInvalidLink, SVONLink.make 0 6 0,
          SVONLink.GetInvalidLink, SVONLink.GetInvalidLink, SVONLink.make 0 0 0]⟩,
       ⟨5, SVONLink.GetInvalidLink, SVONLink.make 1 0 0,
         [SVONLink.GetInvalidLink, SVONLink.make 0 4 0, SVONLink.make 0 7 0,
          SVONLink.GetInvalidLink, SVONLink.GetInvalidLink, SVONLink.make 0 1 0]⟩,
       ⟨6, SVONLink.GetInvalidLink, SVONLink.make 1 0 0,
         [SVONLink.make 0 7 0, SVONLink.GetInvalidLink, SVONLink.GetInvalidLink,
          SVONLink.make 0 4 0, SVONLink.GetInvalidLink, SVONLink.make 0 2 0]⟩,
       ⟨7, SVONLink.GetInvalidLink, SVONLink.make 1 0 0,
         [SVONLink.GetInvalidLink, SVONLink.make 0 6 0, SVONLink.GetInvalidLink,
          SVONLink.make 0 5 0, SVONLink.GetInvalidLink, SVONLink.make 0 3 0]⟩],
      [sampleRoot]],
     ⟨1⟩ :: List.replicate 8 ⟨0⟩⟩⟩

/-- The links `GetLeafNeighbours` returns for sub-voxel 0 of the leaf of node 0
of the sample build. -/
def sampleLeafNeighbours : List SVONLink :=
  [SVONLink.make 0 0 1, SVONLink.make 0 0 9, SVONLink.make 0 0 2, SVONLink.make 0 0 18,
   SVONLink.make 0 0 4, SVONLink.make 0 0 36]

/-- The volume with its octree data replaced. -/
def setData (d : SVONData) (w : ASVONVolume) : ASVONVolume := { w with myData := d }

/-- An oracle that reports nothing occupied. -/
def emptyOracle : Oracle := ⟨fun _ => false, fun _ => false, fun _ _ => false⟩

/-- An oracle that reports everything occupied. -/
def solidOracle : Oracle := ⟨fun _ => true, fun _ => true, fun _ _ => true⟩

/-- A volume with voxel power 2 before `Generate`. -/
def pairVolume : ASVONVolume := ⟨2, 0, [], ⟨[], []⟩⟩

/-- Geometry that touches the first-pass cells 0 and 1 only, and no layer-0
cell at full voxel size. -/
def pairOracle : Oracle := ⟨fun i => decide (i < 2), fun _ => false, fun _ _ => false⟩

/-- A volume with voxel power 11 before `Generate`: the first voxel power at
which the number of layer-0 cells, `8^11`, is outside the `int32` range. -/
def deepVolume : ASVONVolume := ⟨11, 0, [], ⟨[], []⟩⟩

/-- The volume the rasterization leaves for `sampleVolume` and
`sampleOracle`: the sample build before the neighbour pass. -/
def sampleRasterized : ASVONVolume :=
  ⟨1, 2, [[0]],
    ⟨[(List.range 8).map (fun i =>
        ⟨i, if i = 0 then SVONLink.make 0 0 0 else SVONLink.GetInvalidLink, SVONLink.make 1 0 0,
          List.replicate 6 SVONLink.GetInvalidLink⟩),
      [sampleRoot]],
     ⟨1⟩ :: List.replicate 8 ⟨0⟩⟩⟩

/-- The layer-0 node with code 2 of the build of `pairVolume` with
`pairOracle`; the cell above it (direction 2) lies in an unoccupied first-pass
cell. -/
def pairNode2 : SVONNode :=
  let x := SVONLink.GetInvalidLink
  let a (j : Nat) := SVONLink.make 0 j 0
  let b (j : Nat) := SVONLink.make 1 j 0
  ⟨2, x, b 0, [a 3, x, b 2, a 0, a 6, x]⟩

/-- The volume `Generate` leaves for `pairVolume` and `pairOracle`; `x` is
the invalid link, `a j`, `b j` and `r` are the links to node `j` of layer 0,
to node `j` of layer 1 and to the root. -/
def pairBuild : ASVONVolume :=
  let x := SVONLink.GetInvalidLink
  let a (j : Nat) := SVONLink.make 0 j 0
  let b (j : Nat) := SVONLink.make 1 j 0
  let r := SVONLink.make 2 0 0
  ⟨2, 3, [[0, 1], [0]],
    ⟨[[⟨0, x, b 0, [a 1, x, a 2, x, a 4, x]⟩,
      ⟨1, x, b 0, [a 8, a 0, a 3, x, a 5, x]⟩,
      ⟨2, x, b 0, [a 3, x, b 2, a 0, a 6, x]⟩,
      ⟨3, x, b 0, [a 10, a 2, b 2, a 1, a 7, x]⟩,
      ⟨4, x, b 0, [a 5, x, a 6, x, b 4, a 0]⟩,
      ⟨5, x, b 0, [a 12, a 4, a 7, x, b 4, a 1]⟩,
      ⟨6, x, b 0, [a 7, x, b 2, a 4, b 4, a 2]⟩,
      ⟨7, x, b 0, [a 14, a 6, b 2, a 5, b 4, a 3]⟩,
      ⟨8, x, b 1, [a 9, a 1, a 10, x, a 12, x]⟩,
      ⟨9, x, b 1, [x, a 8, a 11, x, a 13, x]⟩,
      ⟨10, x, b 1, [a 11, a 3, b 3, a 8, a 14, x]⟩,
      ⟨11, x, b 1, [x, a 10, b 3, a 9, a 15, x]⟩,
      ⟨12, x, b 1, [a 13, a 5, a 14, x, b 5, a 8]⟩,
      ⟨13, x, b 1, [x, a 12, a 15, x, b 5, a 9]⟩,
      ⟨14, x, b 1, [a 15, a 7, b 3, a 12, b 5, a 10]⟩,
      ⟨15, x, b 1, [x, a 14, b 3, a 13, b 5, a 11]⟩],
     [⟨0, a 0, r, [b 1, x, b 2, x, b 4, x]⟩,
      ⟨1, a 8, r, [x, b 0, b 3, x, b 5, x]⟩,
      ⟨2, x, r, [b 3, x, x, b 0, b 6, x]⟩,
      ⟨3, x, r, [x, b 2, x, b 1, b 7, x]⟩,
      ⟨4, x, r, [b 5, x, b 6, x, x, b 0]⟩,
      ⟨5, x, r, [x, b 4, b 7, x, x, b 1]⟩,
      ⟨6, x, r, [b 7, x, x, b 4, x, b 2]⟩,
      ⟨7, x, r, [x, b 6, x, b 5, x, b 3]⟩],
     [⟨0, b 0, x, [x, x, x, x, x, x]⟩]],
     List.replicate 20 ⟨0⟩⟩⟩

/-- The volume the rasterization leaves for `pairVolume` and `pairOracle`:
`pairBuild` before the neighbour pass, every neighbour link still invalid. -/
def pairRasterized : ASVONVolume :=
  { pairBuild with myData := { pairBuild.myData with
    myLayers := pairBuild.myData.myLayers.map (fun lay => lay.map (fun n =>
      { n with myNeighbours := List.replicate 6 SVONLink.GetInvalidLink })) } }

/-- Geometry inside the corner sub-voxel of a volume with voxel power 2: the
first-pass cells 0 and 1, the voxel 0 and its sub-voxel 0 are occupied. -/
def cornerOracle : Oracle := ⟨fun i => decide (i < 2), fun i => i == 0, fun _ s => s == 0⟩

/-- The layer-0 node with code 0 of the build of `pairVolume` with
`cornerOracle`: its first child is leaf 0, and its neighbour links in the
directions 1, 3 and 5, which leave the volume, are invalid. -/
def cornerNode0 : SVONNode :=
  ⟨0, SVONLink.make 0 0 0, SVONLink.make 1 0 0,
    [SVONLink.make 0 1 0, SVONLink.GetInvalidLink, SVONLink.make 0 2 0,
     SVONLink.GetInvalidLink, SVONLink.make 0 4 0, SVONLink.GetInvalidLink]⟩

/-- The root of the builds of `pairVolume`: the only node of layer 2; its
first child is node 0 of layer 1. -/
def cornerRoot : SVONNode :=
  ⟨0, SVONLink.make 1 0 0, SVONLink.GetInvalidLink, List.replicate 6 SVONLink.GetInvalidLink⟩

/-- The volume `Generate` leaves for `pairVolume` and `cornerOracle`: the
nodes of `pairBuild`, node 0 of layer 0 with its leaf, and 19 leaves of which
leaf 0 has sub-voxel 0 set. -/
def cornerBuild : ASVONVolume :=
  { pairBuild with myData :=
    ⟨pairBuild.myData.myLayers.set 0 ((pairBuild.myData.myLayers.getD 0 []).set 0 cornerNode0),
      ⟨1⟩ :: List.replicate 18 ⟨0⟩⟩ }

/-! ## Basic facts about the result monad and loops -/

section Basics

variable {α β σ : Type}

@[simp] theorem bind_ok (a : α) (f : α → Except Fault β) : (Except.ok a >>= f) = f a := rfl

@[simp] theorem bind_error (e : Fault) (f : α → Except Fault β) :
    ((Except.error e : Except Fault α) >>= f) = .error e := rfl

@[simp] theorem pure_eq_ok (a : α) : (pure a : Except Fault α) = .ok a := rfl

@[simp] theorem bind_ok_right (x : Except Fault α) : (x >>= fun a => Except.ok a) = x := by
  cases x <;> rfl

@[simp] theorem bind_ok_eta (x : Except Fault α) : (x >>= Except.ok) = x := by
  cases x <;> rfl

theorem bind_eq_ok {x : Except Fault α} {f : α → Except Fault β} {b : β} :
    (x >>= f) = .ok b ↔ ∃ a, x = .ok a ∧ f a = .ok b := by
  cases x with
  | error e => simp
  | ok a => simp

theorem index_eq_ok {xs : List α} {i : Nat} {a : α} : index xs i = .ok a ↔ xs[i]? = some a := by
  unfold index
  cases h : xs[i]? <;> simp

theorem index_of_lt {xs : List α} {i : Nat} (h : i < xs.length) : index xs i = .ok xs[i] := by
  rw [index_eq_ok]; exact List.getElem?_eq_getElem h

theorem index_lt {xs : List α} {i : Nat} {a : α} (h : index xs i = .ok a) : i < xs.length := by
  rw [index_eq_ok] at h
  exact (List.getElem?_eq_some.1 h).1

/-- A loop over `0..n-1` establishes an invariant indexed by the number of
iterations done. -/
theorem foldlM_range_inv (f : σ → Nat → Except Fault σ) (Inv : Nat → σ → Prop) (n : Nat)
    (hstep : ∀ i s s', i < n → Inv i s → f s i = .ok s' → Inv (i + 1) s') :
    ∀ s0 s', Inv 0 s0 → (List.range n).foldlM f s0 = .ok s' → Inv n s' := by
  induction n with
  | zero =>
    intro s0 s' h0 h
    simp at h
    subst h; exact h0
  | succ n ih =>
    intro s0 s' h0 h
    rw [List.range_succ, List.foldlM_append, bind_eq_ok] at h
    obtain ⟨s1, h1, h2⟩ := h
    have hn := ih (fun i s s' hi => hstep i s s' (by omega)) s0 s1 h0 h1
    simp at h2
    exact hstep n s1 s' (by omega) hn h2

/-- A loop over `0..n-1` whose body cannot fail under the invariant does not
fail. -/
theorem foldlM_range_total (f : σ → Nat → Except Fault σ) (Inv : Nat → σ → Prop) (n : Nat)
    (hstep : ∀ i s, i < n → Inv i s → ∃ s', f s i = .ok s' ∧ Inv (i + 1) s') :
    ∀ s0, Inv 0 s0 → ∃ s', (List.range n).foldlM f s0 = .ok s' ∧ Inv n s' := by
  induction n with
  | zero =>
    intro s0 h0
    exact ⟨s0, by simp, h0⟩
  | succ n ih =>
    intro s0 h0
    obtain ⟨s1, h1, hn⟩ := ih (fun i s hi => hstep i s (by omega)) s0 h0
    obtain ⟨s2, h2, hn2⟩ := hstep n s1 (by omega) hn
    refine ⟨s2, ?_, hn2⟩
    rw [List.range_succ, List.foldlM_append, h1]
    simp [h2]

/-- A loop over a list establishes an invariant indexed by the part of the
list already visited. -/
theorem foldlM_list_inv {γ : Type} (f : σ → γ → Except Fault σ) (Inv : List γ → σ → Prop) :
    ∀ (done rest : List γ) (s0 s' : σ),
      (∀ pre x s s', Inv pre s → f s x = .ok s' → Inv (pre ++ [x]) s') →
      Inv done s0 → rest.foldlM f s0 = .ok s' → Inv (done ++ rest) s' := by
  intro done rest
  induction rest generalizing done with
  | nil =>
    intro s0 s' _ h0 h
    simp at h
    subst h; simpa using h0
  | cons x rest ih =>
    intro s0 s' hstep h0 h
    rw [List.foldlM_cons, bind_eq_ok] at h
    obtain ⟨s1, h1, h2⟩ := h
    have := ih (done ++ [x]) s1 s' hstep (hstep done x s0 s1 h0 h1) h2
    simpa using this

end Basics

/-! ## Filtered ranges -/

section FilterRange

theorem filter_range_succ (p : Nat → Bool) (n : Nat) :
    (List.range (n + 1)).filter p = (List.range n).filter p ++ (if p n then [n] else []) := by
  rw [List.range_succ, List.filter_append]
  by_cases h : p n <;> simp [h]

theorem length_filter_range (p : Nat → Bool) (n : Nat) :
    ((List.range n).filter p).length = (List.range n).countP p := by
  rw [List.countP_eq_length_filter]

theorem countP_range_succ (p : Nat → Bool) (n : Nat) :
    (List.range (n + 1)).countP p = (List.range n).countP p + (if p n then 1 else 0) := by
  rw [List.range_succ, List.countP_append]
  by_cases h : p n <;> simp [h]

theorem countP_range_mono (p : Nat → Bool) {a b : Nat} (h : a ≤ b) :
    (List.range a).countP p ≤ (List.range b).countP p := by
  induction b with
  | zero => simp at h; subst h; exact Nat.le_refl _
  | succ b ih =>
    by_cases hab : a = b + 1
    · subst hab; exact Nat.le_refl _
    · have := ih (by omega)
      rw [countP_range_succ]; omega

theorem countP_range_lt (p : Nat → Bool) {a b : Nat} (h : a < b) (hp : p a = true) :
    (List.range a).countP p < (List.range b).countP p := by
  have h1 := countP_range_mono p (show a + 1 ≤ b by omega)
  rw [countP_range_succ] at h1
  simp [hp] at h1
  omega

theorem mem_filter_range {p : Nat → Bool} {n x : Nat} :
    x ∈ (List.range n).filter p ↔ x < n ∧ p x = true := by
  simp [List.mem_filter]

theorem getElem?_filter_range (p : Nat → Bool) (n x : Nat) (hx : x < n) (hp : p x = true) :
    ((List.range n).filter p)[(List.range x).countP p]? = some x := by
  induction n with
  | zero => omega
  | succ n ih =>
    rw [filter_range_succ]
    by_cases hxn : x = n
    · subst hxn
      rw [List.getElem?_append_right (by rw [length_filter_range])]
      simp [hp, length_filter_range]
    · have hlt : x < n := by omega
      have h1 := countP_range_lt p hlt hp
      rw [List.getElem?_append_left (by rw [length_filter_range]; omega)]
      exact ih hlt

theorem filter_range_getElem? (p : Nat → Bool) (n k x : Nat)
    (h : ((List.range n).filter p)[k]? = some x) :
    x < n ∧ p x = true ∧ k = (List.range x).countP p := by
  induction n with
  | zero => simp at h
  | succ n ih =>
    rw [filter_range_succ] at h
    by_cases hk : k < ((List.range n).filter p).length
    · rw [List.getElem?_append_left hk] at h
      have := ih h
      exact ⟨by omega, this.2.1, this.2.2⟩
    · rw [List.getElem?_append_right (by omega)] at h
      by_cases hp : p n = true
      · simp only [hp, if_true] at h
        have hk0 : k - ((List.range n).filter p).length = 0 := by
          by_contra hne
          rw [List.getElem?_eq_none (by simp; omega)] at h
          exact Option.noConfusion h
        rw [hk0] at h
        simp at h
        subst h
        refine ⟨by omega, hp, ?_⟩
        rw [length_filter_range] at hk hk0
        omega
      · simp [hp] at h

theorem pairwise_filter_range (p : Nat → Bool) (n : Nat) :
    ((List.range n).filter p).Pairwise (· < ·) :=
  (List.pairwise_lt_range n).filter p

/-- In a filtered range whose predicate only looks at `i / 8`, the eight codes
`8a .. 8a+7` are either all absent or sit at eight consecutive positions. -/
theorem countP_range_block (q : Nat → Bool) (a j : Nat) (hj : j ≤ 8) (hq : q a = true) :
    (List.range (8 * a + j)).countP (fun i => q (i / 8)) =
      (List.range (8 * a)).countP (fun i => q (i / 8)) + j := by
  induction j with
  | zero => rfl
  | succ j ih =>
    rw [show 8 * a + (j + 1) = (8 * a + j) + 1 by omega, countP_range_succ, ih (by omega)]
    have : (8 * a + j) / 8 = a := by omega
    simp [this, hq]
    omega

end FilterRange

/-! ## The first pass -/

section FirstPass

theorem setAdd_of_mem {s : List Nat} {c : Nat} (h : c ∈ s) : setAdd s c = s := by
  simp [setAdd, h]

theorem setAdd_of_not_mem {s : List Nat} {c : Nat} (h : c ∉ s) : setAdd s c = s ++ [c] := by
  simp [setAdd, h]

theorem mem_setAdd {s : List Nat} {c x : Nat} : x ∈ setAdd s c ↔ x ∈ s ∨ x = c := by
  by_cases h : c ∈ s
  · rw [setAdd_of_mem h]
    constructor
    · exact Or.inl
    · rintro (h1 | h1)
      · exact h1
      · subst h1; exact h
  · rw [setAdd_of_not_mem h]; simp

theorem nodup_setAdd {s : List Nat} {c : Nat} (h : s.Nodup) : (setAdd s c).Nodup := by
  by_cases hc : c ∈ s
  · rw [setAdd_of_mem hc]; exact h
  · rw [setAdd_of_not_mem hc, List.nodup_append]
    refine ⟨h, by simp, ?_⟩
    intro a ha hb
    simp at hb
    subst hb
    exact hc ha

theorem blockedAdd_eq_ok {v w : ASVONVolume} {k c : Nat} (h : blockedAdd v k c = .ok w) :
    ∃ s, v.myBlockedIndices[k]? = some s ∧
      w = { v with myBlockedIndices := v.myBlockedIndices.set k (setAdd s c) } := by
  unfold blockedAdd at h
  rw [bind_eq_ok] at h
  obtain ⟨s, hs, h2⟩ := h
  rw [index_eq_ok] at hs
  simp at h2
  exact ⟨s, hs, h2.symm⟩

theorem blockedAdd_of_get {v : ASVONVolume} {k c : Nat} {s : List Nat}
    (h : v.myBlockedIndices[k]? = some s) :
    blockedAdd v k c = .ok { v with myBlockedIndices := v.myBlockedIndices.set k (setAdd s c) } := by
  unfold blockedAdd
  rw [index_eq_ok.2 h]
  rfl

/-- The first loop of `FirstPassRasterize` leaves the occupied layer-1 codes,
in ascending order, in the only set. -/
theorem firstPass_collect (o : Oracle) (v : ASVONVolume) (n : Nat) :
    (List.range n).foldlM
        (fun w i => if o.firstPass i then blockedAdd w 0 i else pure w)
        { v with myBlockedIndices := [[]] } =
      .ok { v with myBlockedIndices := [(List.range n).filter o.firstPass] } := by
  induction n with
  | zero => rfl
  | succ n ih =>
    rw [List.range_succ, List.foldlM_append, ih]
    simp only [bind_ok, List.foldlM_cons, List.foldlM_nil, List.filter_append]
    by_cases h : o.firstPass n = true
    · simp only [h, if_true]
      rw [blockedAdd_of_get (s := (List.range n).filter o.firstPass) (by simp)]
      have hn : ((List.range n).filter o.firstPass).contains n = false := by
        simp [List.mem_filter]
      simp [setAdd, hn, h]
    · simp [h]

/-- The inner loop of the parent derivation: the new last set receives the
parent code of every entry visited. -/
theorem parents_inner (sets : List (List Nat)) (v : ASVONVolume) (cur : List Nat) :
    ∀ (acc : List Nat), acc.Nodup →
    ∃ t, cur.foldlM (fun w code => blockedAdd w sets.length (code >>> 3))
        { v with myBlockedIndices := sets ++ [acc] } =
          .ok { v with myBlockedIndices := sets ++ [t] } ∧
      t.Nodup ∧ ∀ x, x ∈ t ↔ x ∈ acc ∨ ∃ c ∈ cur, c >>> 3 = x := by
  induction cur with
  | nil =>
    intro acc hacc
    exact ⟨acc, rfl, hacc, by simp⟩
  | cons c cur ih =>
    intro acc hacc
    obtain ⟨t, ht, hnd, hmem⟩ := ih (setAdd acc (c >>> 3)) (nodup_setAdd hacc)
    refine ⟨t, ?_, hnd, ?_⟩
    · rw [List.foldlM_cons,
        blockedAdd_of_get (s := acc) (by simp)]
      simpa using ht
    · intro x
      rw [hmem, mem_setAdd]
      simp only [List.mem_cons, exists_eq_or_imp]
      constructor
      · rintro ((h | h) | h)
        · exact Or.inl h
        · exact Or.inr (Or.inl h.symm)
        · exact Or.inr (Or.inr h)
      · rintro (h | h | h)
        · exact Or.inl (Or.inl h)
        · exact Or.inl (Or.inr h.symm)
        · exact Or.inr h

theorem length_le_one_of_lt_one {s : List Nat} (hnd : s.Nodup) (h : ∀ x ∈ s, x < 1) :
    s.length ≤ 1 := by
  match s, hnd, h with
  | [], _, _ => simp
  | [_], _, _ => simp
  | a :: b :: _, hnd, h =>
    have ha := h a (by simp)
    have hb := h b (by simp)
    have : a = b := by omega
    subst this
    simp at hnd

/-- The parent derivation returns when the fuel is at least the number of
octal digits of the codes in the last set, and extends the chain. -/
theorem parents_spec : ∀ (fuel b vp nl : Nat) (d : SVONData) (pre : List (List Nat)) (last : List Nat),
    Chain (pre ++ [last]) → last.Nodup → (∀ x ∈ last, x < 8 ^ b) → b ≤ fuel →
    ∃ sets, FirstPassRasterize.parents fuel ⟨vp, nl, pre ++ [last], d⟩ pre.length =
        .ok ⟨vp, nl, pre ++ [last] ++ sets, d⟩ ∧
      Chain (pre ++ [last] ++ sets) ∧ sets.length ≤ b ∧
      (∀ t, (pre ++ [last] ++ sets).getLast? = some t → t.length ≤ 1) := by
  intro fuel
  induction fuel with
  | zero =>
    intro b vp nl d pre last hch hnd hb hfuel
    have hb0 : b = 0 := by omega
    subst hb0
    have hlen := length_le_one_of_lt_one hnd (by simpa using hb)
    refine ⟨[], ?_, by simpa using hch, by simp, ?_⟩
    · unfold FirstPassRasterize.parents
      simp only
      rw [index_eq_ok.2 (show (pre ++ [last])[pre.length]? = some last by simp)]
      simp [show ¬ 1 < last.length by omega]
    · intro t ht
      simp at ht
      subst ht; exact hlen
  | succ fuel ih =>
    intro b vp nl d pre last hch hnd hb hfuel
    by_cases hlen : 1 < last.length
    · -- one more set
      obtain ⟨t, ht, htnd, htmem⟩ :=
        parents_inner (pre ++ [last]) ⟨vp, nl, pre ++ [last], d⟩ last [] (by simp)
      have hbpos : 0 < b := by
        by_contra hb0
        have hb0 : b = 0 := by omega
        subst hb0
        have := length_le_one_of_lt_one hnd (by simpa using hb)
        omega
      have hch2 : Chain (pre ++ [last] ++ [t]) := by
        intro k s u hs hu
        by_cases hk : k + 1 < (pre ++ [last]).length
        · rw [List.getElem?_append_left (by omega)] at hs
          rw [List.getElem?_append_left hk] at hu
          exact hch k s u hs hu
        · have hk2 : k + 1 < (pre ++ [last] ++ [t]).length :=
            (List.getElem?_eq_some.1 hu).1
          simp at hk hk2
          have hkeq : k = pre.length := by omega
          subst hkeq
          rw [List.getElem?_append_right (by simp)] at hu
          rw [List.getElem?_append_left (by simp)] at hs
          simp at hu
          simp at hs
          subst hs; subst hu
          refine ⟨?_, htnd, hlen⟩
          intro x
          rw [htmem]; simp
      have hbt : ∀ x ∈ t, x < 8 ^ (b - 1) := by
        intro x hx
        rw [htmem] at hx
        simp at hx
        obtain ⟨c, hc, hcx⟩ := hx
        have := hb c hc
        rw [Nat.shiftRight_eq_div_pow] at hcx
        have h8 : 8 ^ b = 8 ^ (b - 1) * 8 := by
          rw [← Nat.pow_succ]; congr 1; omega
        rw [h8] at this
        subst hcx
        exact Nat.div_lt_of_lt_mul (by simpa [Nat.mul_comm] using this)
      obtain ⟨sets, hsets, hch3, hlen3, hlast3⟩ :=
        ih (b - 1) vp nl d (pre ++ [last]) t hch2 htnd hbt (by omega)
      refine ⟨t :: sets, ?_, ?_, ?_, ?_⟩
      · unfold FirstPassRasterize.parents
        simp only
        rw [index_eq_ok.2 (show (pre ++ [last])[pre.length]? = some last by simp)]
        simp only [bind_ok, hlen, if_true]
        simp only [List.length_append, List.length_singleton] at ht hsets
        rw [ht]
        simp only [bind_ok]
        rw [hsets]
        simp
      · simpa using hch3
      · simp; omega
      · simpa using hlast3
    · refine ⟨[], ?_, by simpa using hch, by simp, ?_⟩
      · unfold FirstPassRasterize.parents
        simp only
        rw [index_eq_ok.2 (show (pre ++ [last])[pre.length]? = some last by simp)]
        simp [hlen]
      · intro t ht
        simp at ht
        subst ht; omega

end FirstPass

/-! ## Writes to the state -/

section State

@[simp] theorem withLayers_layers (v : ASVONVolume) (ls : List (List SVONNode)) :
    (withLayers v ls).myData.myLayers = ls := rfl

@[simp] theorem withLayers_leaves (v : ASVONVolume) (ls : List (List SVONNode)) :
    (withLayers v ls).myData.myLeafNodes = v.myData.myLeafNodes := rfl

@[simp] theorem withLayers_blocked (v : ASVONVolume) (ls : List (List SVONNode)) :
    (withLayers v ls).myBlockedIndices = v.myBlockedIndices := rfl

@[simp] theorem withLayers_power (v : ASVONVolume) (ls : List (List SVONNode)) :
    (withLayers v ls).myVoxelPower = v.myVoxelPower := rfl

@[simp] theorem withLayers_num (v : ASVONVolume) (ls : List (List SVONNode)) :
    (withLayers v ls).myNumLayers = v.myNumLayers := rfl

@[simp] theorem withLayers_withLayers (v : ASVONVolume) (a b : List (List SVONNode)) :
    withLayers (withLayers v a) b = withLayers v b := rfl

@[simp] theorem withLeaves_layers (v : ASVONVolume) (xs : List SVONLeafNode) :
    (withLeaves v xs).myData.myLayers = v.myData.myLayers := rfl

@[simp] theorem withLeaves_leaves (v : ASVONVolume) (xs : List SVONLeafNode) :
    (withLeaves v xs).myData.myLeafNodes = xs := rfl

@[simp] theorem withLeaves_blocked (v : ASVONVolume) (xs : List SVONLeafNode) :
    (withLeaves v xs).myBlockedIndices = v.myBlockedIndices := rfl

@[simp] theorem withLeaves_power (v : ASVONVolume) (xs : List SVONLeafNode) :
    (withLeaves v xs).myVoxelPower = v.myVoxelPower := rfl

@[simp] theorem withLeaves_num (v : ASVONVolume) (xs : List SVONLeafNode) :
    (withLeaves v xs).myNumLayers = v.myNumLayers := rfl

@[simp] theorem withLeaves_withLeaves (v : ASVONVolume) (a b : List SVONLeafNode) :
    withLeaves (withLeaves v a) b = withLeaves v b := rfl

theorem withLayers_self (v : ASVONVolume) : withLayers v v.myData.myLayers = v := rfl

theorem withLeaves_self (v : ASVONVolume) : withLeaves v v.myData.myLeafNodes = v := rfl

@[simp] theorem withLayers_withLeaves (v : ASVONVolume) (xs : List SVONLeafNode)
    (ls : List (List SVONNode)) :
    withLayers (withLeaves v xs) ls = withLeaves (withLayers v ls) xs := rfl

theorem GetLayer_eq_ok {v : ASVONVolume} {l : Nat} {layer : List SVONNode} :
    GetLayer v l = .ok layer ↔ v.myData.myLayers[l]? = some layer := index_eq_ok

theorem nodeAt_eq_ok {v : ASVONVolume} {l k : Nat} {n : SVONNode} :
    nodeAt v l k = .ok n ↔ ∃ layer, v.myData.myLayers[l]? = some layer ∧ layer[k]? = some n := by
  unfold nodeAt
  rw [bind_eq_ok]
  simp only [GetLayer_eq_ok, index_eq_ok]

theorem modifyNode_eq_ok {v w : ASVONVolume} {l k : Nat} {f : SVONNode → SVONNode} :
    modifyNode v l k f = .ok w ↔ ∃ layer n, v.myData.myLayers[l]? = some layer ∧ layer[k]? = some n ∧
      w = withLayers v (v.myData.myLayers.set l (layer.set k (f n))) := by
  unfold modifyNode
  simp only [bind_eq_ok, GetLayer_eq_ok, index_eq_ok, pure_eq_ok, Except.ok.injEq]
  constructor
  · rintro ⟨layer, h1, n, h2, h3⟩
    exact ⟨layer, n, h1, h2, h3.symm⟩
  · rintro ⟨layer, n, h1, h2, h3⟩
    exact ⟨layer, h1, n, h2, h3.symm⟩

theorem modifyNode_of_get {v : ASVONVolume} {l k : Nat} {f : SVONNode → SVONNode}
    {layer : List SVONNode} {n : SVONNode}
    (h1 : v.myData.myLayers[l]? = some layer) (h2 : layer[k]? = some n) :
    modifyNode v l k f = .ok (withLayers v (v.myData.myLayers.set l (layer.set k (f n)))) :=
  modifyNode_eq_ok.2 ⟨layer, n, h1, h2, rfl⟩

theorem emplaceNode_eq_ok {v : ASVONVolume} {l : Nat} {r : ASVONVolume × Nat} :
    emplaceNode v l = .ok r ↔ ∃ layer, v.myData.myLayers[l]? = some layer ∧
      r = (withLayers v (v.myData.myLayers.set l (layer ++ [SVONNode.default])), layer.length) := by
  unfold emplaceNode
  simp only [bind_eq_ok, GetLayer_eq_ok, pure_eq_ok, Except.ok.injEq]
  constructor
  · rintro ⟨layer, h1, h3⟩
    exact ⟨layer, h1, h3.symm⟩
  · rintro ⟨layer, h1, h3⟩
    exact ⟨layer, h1, h3.symm⟩

theorem modifyLeaf_eq_ok {v w : ASVONVolume} {k : Nat} {f : SVONLeafNode → SVONLeafNode} :
    modifyLeaf v k f = .ok w ↔ ∃ l, v.myData.myLeafNodes[k]? = some l ∧
      w = withLeaves v (v.myData.myLeafNodes.set k (f l)) := by
  unfold modifyLeaf GetLeafNode
  simp only [bind_eq_ok, index_eq_ok, pure_eq_ok, Except.ok.injEq]
  constructor
  · rintro ⟨l, h1, h3⟩
    exact ⟨l, h1, h3.symm⟩
  · rintro ⟨l, h1, h3⟩
    exact ⟨l, h1, h3.symm⟩

theorem addDefaultedLeaves_eq (v : ASVONVolume) (n : Nat) :
    addDefaultedLeaves v n =
      withLeaves v (v.myData.myLeafNodes ++ List.replicate n SVONLeafNode.default) := rfl

theorem leafAt_append_default (xs : List SVONLeafNode) (n j : Nat) :
    leafAt (xs ++ List.replicate n SVONLeafNode.default) j = leafAt xs j := by
  unfold leafAt
  by_cases h : j < xs.length
  · rw [List.getElem?_append_left h]
  · rw [List.getElem?_append_right (by omega), List.getElem?_replicate,
      List.getElem?_eq_none (by omega)]
    split <;> rfl

theorem leafAt_set_ne (xs : List SVONLeafNode) (k j : Nat) (x : SVONLeafNode) (h : j ≠ k) :
    leafAt (xs.set k x) j = leafAt xs j := by
  unfold leafAt
  rw [List.getElem?_set]
  simp [Ne.symm h]

theorem leafAt_set_self (xs : List SVONLeafNode) (k : Nat) (x : SVONLeafNode) (h : k < xs.length) :
    leafAt (xs.set k x) k = x := by
  unfold leafAt
  rw [List.getElem?_set]
  simp [h]

theorem leafAt_of_get {xs : List SVONLeafNode} {k : Nat} {x : SVONLeafNode} (h : xs[k]? = some x) :
    leafAt xs k = x := by
  unfold leafAt; rw [h]; rfl

theorem get_of_leafAt {xs : List SVONLeafNode} {k : Nat} (h : k < xs.length) :
    xs[k]? = some (leafAt xs k) := by
  unfold leafAt
  rw [List.getElem?_eq_getElem h]; rfl

theorem getNode_setNode (l : SVONLeafNode) (i s : Nat) :
    (l.SetNode i).GetNode s = (l.GetNode s || decide (i = s)) := by
  unfold SVONLeafNode.SetNode SVONLeafNode.GetNode
  simp only [Nat.testBit_or, Nat.one_shiftLeft, Nat.testBit_two_pow]

theorem getNode_default (s : Nat) : SVONLeafNode.default.GetNode s = false := by
  unfold SVONLeafNode.default SVONLeafNode.GetNode
  exact Nat.zero_testBit s

end State

/-! ## Leaf rasterization -/

section Leaf

/-- `RasterizeLeafNode` returns whenever the leaf index is at most the size of
the leaf array: it grows the array past the index, leaves every other leaf as
it was and sets in the leaf at the index the bits of the occupied
sub-voxels. -/
theorem RasterizeLeafNode_spec (v : ASVONVolume) (o : Oracle) (org k : Nat)
    (hk : k ≤ v.myData.myLeafNodes.length) :
    ∃ xs, RasterizeLeafNode v o org k = .ok (withLeaves v xs) ∧
      v.myData.myLeafNodes.length ≤ xs.length ∧ k < xs.length ∧
      (∀ j, j ≠ k → leafAt xs j = leafAt v.myData.myLeafNodes j) ∧
      (∀ s, (leafAt xs k).GetNode s =
        ((leafAt v.myData.myLeafNodes k).GetNode s || (decide (s < 64) && o.subVoxel org s))) := by
  have key := foldlM_range_total
    (fun w i =>
      let w1 := if k + 1 ≥ w.myData.myLeafNodes.length then addDefaultedLeaves w 1 else w
      if o.subVoxel org i then modifyLeaf w1 k (fun l => l.SetNode i) else pure w1)
    (fun n w => ∃ xs, w = withLeaves v xs ∧ v.myData.myLeafNodes.length ≤ xs.length ∧
      k ≤ xs.length ∧ (0 < n → k < xs.length) ∧
      (∀ j, j ≠ k → leafAt xs j = leafAt v.myData.myLeafNodes j) ∧
      (∀ s, (leafAt xs k).GetNode s =
        ((leafAt v.myData.myLeafNodes k).GetNode s || (decide (s < n) && o.subVoxel org s))))
    64 ?_ v ⟨v.myData.myLeafNodes, rfl, Nat.le_refl _, hk, by omega, fun _ _ => rfl, by simp⟩
  · obtain ⟨w, hw, xs, hxs, h1, _, h3, h4, h5⟩ := key
    exact ⟨xs, by rw [← hxs]; exact hw, h1, h3 (by omega), h4, h5⟩
  · rintro i w hi ⟨xs, rfl, h1, h2, _, h4, h5⟩
    -- the array after the optional growth
    obtain ⟨ys, hys, hy1, hy2, hy4, hy5⟩ : ∃ ys,
        (if k + 1 ≥ (withLeaves v xs).myData.myLeafNodes.length
          then addDefaultedLeaves (withLeaves v xs) 1 else withLeaves v xs) = withLeaves v ys ∧
        xs.length ≤ ys.length ∧ k < ys.length ∧ (∀ j, leafAt ys j = leafAt xs j) ∧ True := by
      by_cases hg : k + 1 ≥ xs.length
      · refine ⟨xs ++ List.replicate 1 SVONLeafNode.default, ?_, by simp, by simp; omega, ?_, trivial⟩
        · simp [hg, addDefaultedLeaves_eq]
        · intro j; exact leafAt_append_default xs 1 j
      · refine ⟨xs, ?_, Nat.le_refl _, by omega, fun _ => rfl, trivial⟩
        simp [hg]
    simp only [hys]
    by_cases hb : o.subVoxel org i = true
    · simp only [hb, if_true]
      refine ⟨withLeaves v (ys.set k ((leafAt ys k).SetNode i)), ?_, _, rfl, ?_, ?_, ?_, ?_, ?_⟩
      · rw [modifyLeaf_eq_ok]
        exact ⟨leafAt ys k, get_of_leafAt hy2, rfl⟩
      · simp; omega
      · simp; omega
      · intro _; simp; omega
      · intro j hj
        rw [leafAt_set_ne _ _ _ _ hj, hy4, h4 j hj]
      · intro s
        rw [leafAt_set_self _ _ _ hy2, getNode_setNode, hy4, h5]
        by_cases hs : i = s
        · subst hs; simp [hb]
        · have : (decide (s < i + 1)) = decide (s < i) := by
            apply Bool.decide_congr; omega
          simp [hs, this]
    · simp only [hb]
      refine ⟨withLeaves v ys, rfl, _, rfl, by omega, by omega, fun _ => hy2, ?_, ?_⟩
      · intro j hj; rw [hy4, h4 j hj]
      · intro s
        rw [hy4, h5]
        by_cases hs : i = s
        · subst hs
          simp [hb]
        · have : (decide (s < i + 1)) = decide (s < i) := by
            apply Bool.decide_congr; omega
          simp [this]

end Leaf

/-! ## Layer 0 -/

section LayerZero

theorem set_last {α : Type} (lay : List α) (x y : α) : (lay ++ [x]).set lay.length y = lay ++ [y] := by
  induction lay with
  | nil => rfl
  | cons a lay ih => simp [ih]

theorem get_set_self {α : Type} {ls : List α} {l : Nat} {a b : α} (h : ls[l]? = some a) :
    (ls.set l b)[l]? = some b := by
  rw [List.getElem?_set]
  simp [(List.getElem?_eq_some.1 h).1]

theorem emplaceNode_of_get {v : ASVONVolume} {l : Nat} {lay : List SVONNode}
    (h : v.myData.myLayers[l]? = some lay) :
    emplaceNode v l =
      .ok (withLayers v (v.myData.myLayers.set l (lay ++ [SVONNode.default])), lay.length) :=
  emplaceNode_eq_ok.2 ⟨lay, h, rfl⟩

/-- A write to the node emplaced last. -/
theorem modifyNode_last {v : ASVONVolume} {l : Nat} {lay : List SVONNode} {x : SVONNode}
    (f : SVONNode → SVONNode) (h : v.myData.myLayers[l]? = some (lay ++ [x])) :
    modifyNode v l lay.length f = .ok (withLayers v (v.myData.myLayers.set l (lay ++ [f x]))) := by
  rw [modifyNode_of_get h (n := x) (by simp), set_last]

theorem leafStep_inv (o : Oracle) (v : ASVONVolume) (s : List Nat)
    (hs : v.myBlockedIndices[0]? = some s) (hl : 0 < v.myData.myLayers.length)
    (n : Nat) (st : ASVONVolume × Nat) (h : LeafLoopInv o v s n st) :
    ∃ st', RasterizeLayer.leafStep o st n = .ok st' ∧ LeafLoopInv o v s (n + 1) st' := by
  obtain ⟨w, li⟩ := st
  obtain ⟨lay, xs, hw, hcodes, hli, hlen, hnodes, hfree⟩ := h
  simp only at hw hli
  subst hw; subst hli
  unfold RasterizeLayer.leafStep
  simp only [withLeaves_blocked, withLayers_blocked, index_eq_ok.2 hs, bind_ok]
  have hget : (withLeaves (withLayers v (v.myData.myLayers.set 0 lay)) xs).myData.myLayers[0]? =
      some lay := by
    simp [List.getElem?_set, hl]
  by_cases hp : s.contains (n >>> 3) = true
  · simp only [hp, if_true]
    rw [emplaceNode_of_get hget]
    simp only [bind_ok, withLeaves_layers, withLayers_layers, List.set_set]
    rw [@modifyNode_last _ _ lay SVONNode.default _ (by simp [List.getElem?_set, hl])]
    simp only [bind_ok, withLayers_layers, withLeaves_layers, List.set_set, withLayers_withLeaves,
      withLayers_withLayers]
    have hfilter : (List.range (n + 1)).filter (inFirstSet s) =
        (List.range n).filter (inFirstSet s) ++ [n] := by
      rw [filter_range_succ, show inFirstSet s n = true from hp]; rfl
    by_cases hv : o.voxel n = true
    · simp only [hv, if_true]
      obtain ⟨ys, hys, hy1, hy2, hy3, hy4⟩ := RasterizeLeafNode_spec
        (withLeaves (withLayers v
          (v.myData.myLayers.set 0 (lay ++ [{ SVONNode.default with myCode := n }]))) xs)
        o n lay.length (by simpa using hlen)
      erw [hys]
      simp only [bind_ok, withLeaves_withLeaves]
      rw [@modifyNode_last _ _ lay { SVONNode.default with myCode := n } _
        (by simp [List.getElem?_set, hl])]
      simp only [bind_ok, withLeaves_layers, withLayers_layers, List.set_set, withLayers_withLeaves,
        withLayers_withLayers]
      refine ⟨_, rfl, lay ++ [leafLayerNode o n lay.length], ys, ?_, ?_, by simp, ?_, ?_, ?_⟩
      · simp [leafLayerNode, hv, SVONNode.default, SVONLink.SetLayerIndex, SVONLink.SetNodeIndex,
          SVONLink.SetSubnodeIndex, SVONLink.GetInvalidLink, SVONLink.make]
      · simp [hfilter, hcodes, leafLayerNode]
      · simp; omega
      · intro k node hk
        by_cases hkl : k < lay.length
        · rw [List.getElem?_append_left hkl] at hk
          obtain ⟨h1, h2, h3, h4⟩ := hnodes k node hk
          simp only [withLayers_leaves, withLeaves_leaves] at hy1 hy3 hy4
          refine ⟨by omega, h2, ?_, ?_⟩
          · intro hvox; rw [hy3 k (by omega)]; exact h3 hvox
          · intro b; rw [hy3 k (by omega)]; exact h4 b
        · rw [List.getElem?_append_right (by omega)] at hk
          have hk0 : k = lay.length := by
            by_contra hne
            rw [List.getElem?_eq_none (by simp; omega)] at hk
            exact Option.noConfusion hk
          subst hk0
          simp at hk
          subst hk
          simp only [withLayers_leaves, withLeaves_leaves] at hy4
          refine ⟨hy2, by simp [leafLayerNode], ?_, ?_⟩
          · intro hvox; simp [leafLayerNode, hv] at hvox
          · intro b
            rw [hy4 b, hfree lay.length (Nat.le_refl _), getNode_default]
            simp [leafLayerNode, hv]
      · intro j hj
        simp only [withLayers_leaves, withLeaves_leaves] at hy3
        simp at hj
        rw [hy3 j (by omega)]
        exact hfree j (by omega)
    · simp only [hv]
      rw [addDefaultedLeaves_eq]
      rw [@modifyNode_last _ _ lay { SVONNode.default with myCode := n } _
        (by simp [List.getElem?_set, hl])]
      simp only [bind_ok, withLeaves_layers, withLayers_layers, List.set_set, withLeaves_leaves,
        withLayers_leaves, withLayers_withLeaves, withLayers_withLayers, withLeaves_withLeaves]
      refine ⟨_, rfl, lay ++ [leafLayerNode o n lay.length],
        xs ++ List.replicate 1 SVONLeafNode.default, ?_, ?_, by simp, ?_, ?_, ?_⟩
      · simp [leafLayerNode, hv, SVONNode.default, SVONLink.SetInvalid,
          SVONLink.GetInvalidLink]
      · simp [hfilter, hcodes, leafLayerNode]
      · simp; omega
      · intro k node hk
        by_cases hkl : k < lay.length
        · rw [List.getElem?_append_left hkl] at hk
          obtain ⟨h1, h2, h3, h4⟩ := hnodes k node hk
          refine ⟨by simp; omega, h2, ?_, ?_⟩
          · intro hvox; rw [leafAt_append_default]; exact h3 hvox
          · intro b; rw [leafAt_append_default]; exact h4 b
        · rw [List.getElem?_append_right (by omega)] at hk
          have hk0 : k = lay.length := by
            by_contra hne
            rw [List.getElem?_eq_none (by simp; omega)] at hk
            exact Option.noConfusion hk
          subst hk0
          simp at hk
          subst hk
          refine ⟨by simp; omega, by simp [leafLayerNode], ?_, ?_⟩
          · intro _; rw [leafAt_append_default]; exact hfree _ (Nat.le_refl _)
          · intro b
            rw [leafAt_append_default, hfree lay.length (Nat.le_refl _), getNode_default]
            simp [leafLayerNode, hv]
      · intro j hj
        simp at hj
        rw [leafAt_append_default]
        exact hfree j (by omega)
  · simp only [hp]
    refine ⟨_, rfl, lay, xs, rfl, ?_, rfl, hlen, hnodes, hfree⟩
    rw [filter_range_succ, show inFirstSet s n = false by simpa [inFirstSet] using hp]
    simpa using hcodes

end LayerZero

/-! ## Lookups in a layer -/

section Lookup

theorem go_some (c : Nat) : ∀ (layer : List SVONNode) (s k : Nat),
    GetIndexForCode.go c layer s = some k →
      s ≤ k ∧ ∃ node, layer[k - s]? = some node ∧ node.myCode = c := by
  intro layer
  induction layer with
  | nil => intro s k h; simp [GetIndexForCode.go] at h
  | cons n rest ih =>
    intro s k h
    unfold GetIndexForCode.go at h
    by_cases hn : n.myCode = c
    · simp only [hn, if_true, Option.some.injEq] at h
      subst h
      exact ⟨Nat.le_refl _, n, by simp, hn⟩
    · simp only [hn, if_false] at h
      obtain ⟨h1, node, h2, h3⟩ := ih (s + 1) k h
      refine ⟨by omega, node, ?_, h3⟩
      have : k - s = (k - (s + 1)) + 1 := by omega
      rw [this]
      simpa using h2

theorem go_none (c : Nat) : ∀ (layer : List SVONNode) (s : Nat),
    GetIndexForCode.go c layer s = none → ∀ node ∈ layer, node.myCode ≠ c := by
  intro layer
  induction layer with
  | nil => intro s _ node hn; simp at hn
  | cons n rest ih =>
    intro s h node hnode
    unfold GetIndexForCode.go at h
    by_cases hn : n.myCode = c
    · simp [hn] at h
    · simp only [hn, if_false] at h
      simp at hnode
      rcases hnode with h1 | h1
      · subst h1; exact hn
      · exact ih (s + 1) h node h1

theorem getElem?_codes {layer : List SVONNode} {codes : List Nat}
    (h : layer.map (·.myCode) = codes) (k : Nat) :
    codes[k]? = (layer[k]?).map (·.myCode) := by
  rw [← h, List.getElem?_map]

/-- In a layer whose codes are a filtered range, the lookup of a code returns
the number of smaller codes present, or fails when the code is absent. -/
theorem go_filter_range (layer : List SVONNode) (p : Nat → Bool) (n : Nat)
    (h : layer.map (·.myCode) = (List.range n).filter p) (c : Nat) :
    GetIndexForCode.go c layer 0 =
      if c < n ∧ p c = true then some ((List.range c).countP p) else none := by
  cases hgo : GetIndexForCode.go c layer 0 with
  | none =>
    have hnone := go_none c layer 0 hgo
    by_cases hc : c < n ∧ p c = true
    · exfalso
      have h1 := getElem?_filter_range p n c hc.1 hc.2
      rw [getElem?_codes h] at h1
      cases hl : layer[(List.range c).countP p]? with
      | none => rw [hl] at h1; simp at h1
      | some node =>
        rw [hl] at h1
        simp at h1
        exact hnone node (List.getElem?_mem hl) h1
    · simp [hc]
  | some k =>
    obtain ⟨_, node, h2, h3⟩ := go_some c layer 0 k hgo
    have h4 : ((List.range n).filter p)[k]? = some c := by
      rw [getElem?_codes h]
      simp at h2
      rw [h2]; simp [h3]
    obtain ⟨h5, h6, h7⟩ := filter_range_getElem? p n k c h4
    simp [h5, h6, h7]

theorem go_map_congr (c : Nat) (f : SVONNode → SVONNode) (hf : ∀ n, (f n).myCode = n.myCode) :
    ∀ (layer : List SVONNode) (s : Nat),
      GetIndexForCode.go c (layer.map f) s = GetIndexForCode.go c layer s := by
  intro layer
  induction layer with
  | nil => intro s; rfl
  | cons n rest ih =>
    intro s
    simp only [List.map_cons, GetIndexForCode.go, hf, ih]

end Lookup

/-! ## Parent links of eight children -/

section Parents

theorem set_of_get {α : Type} {ls : List α} {l : Nat} {a : α} (h : ls[l]? = some a) :
    ls.set l a = ls := by
  apply List.ext_getElem?
  intro j
  rw [List.getElem?_set]
  by_cases hj : l = j
  · subst hj; simp [h, (List.getElem?_eq_some.1 h).1]
  · simp [hj]

theorem getElem?_mapRange (f : SVONNode → SVONNode) (c cnt : Nat) (lay : List SVONNode) (j : Nat) :
    (mapRange f c cnt lay)[j]? = (lay[j]?).map (fun x => if c ≤ j ∧ j < c + cnt then f x else x) := by
  unfold mapRange
  rw [List.getElem?_mapIdx]

theorem length_mapRange (f : SVONNode → SVONNode) (c cnt : Nat) (lay : List SVONNode) :
    (mapRange f c cnt lay).length = lay.length := by
  unfold mapRange
  rw [List.length_mapIdx]

/-- Writing through `f` to `cnt` consecutive nodes of a layer changes exactly
those nodes. -/
theorem modifyRange_spec (l c : Nat) (f : SVONNode → SVONNode) (cnt : Nat) (v : ASVONVolume)
    (lay : List SVONNode) (hl : v.myData.myLayers[l]? = some lay) (hc : c + cnt ≤ lay.length) :
    (List.range cnt).foldlM (fun w iter => modifyNode w l (c + iter) f) v =
      .ok (withLayers v (v.myData.myLayers.set l (mapRange f c cnt lay))) := by
  have key := foldlM_range_total (fun w iter => modifyNode w l (c + iter) f)
    (fun n w => w = withLayers v (v.myData.myLayers.set l (mapRange f c n lay)))
    cnt ?_ v ?_
  · obtain ⟨w, hw, h1⟩ := key
    rw [hw, h1]
  · rintro i w hi rfl
    have hlt : c + i < lay.length := by omega
    have hget : (mapRange f c i lay)[c + i]? = some lay[c + i] := by
      rw [getElem?_mapRange, List.getElem?_eq_getElem hlt]
      simp
    refine ⟨_, @modifyNode_of_get _ _ _ _ (mapRange f c i lay) lay[c + i] ?_ hget, ?_⟩
    · simp [List.getElem?_set, (List.getElem?_eq_some.1 hl).1]
    · simp only [withLayers_layers, List.set_set, withLayers_withLayers]
      congr 2
      apply List.ext_getElem?
      intro j
      rw [List.getElem?_set, getElem?_mapRange, getElem?_mapRange, length_mapRange]
      by_cases hj : c + i = j
      · subst hj
        simp [hlt]
      · simp only [hj, if_false]
        cases lay[j]? with
        | none => rfl
        | some x =>
          simp only [Option.map_some']
          by_cases h1 : c ≤ j ∧ j < c + i
          · simp [h1, show c ≤ j ∧ j < c + (i + 1) by omega]
          · simp [h1, show ¬ (c ≤ j ∧ j < c + (i + 1)) by omega]
  · have : mapRange f c 0 lay = lay := by
      apply List.ext_getElem?
      intro j
      rw [getElem?_mapRange]
      cases lay[j]? with
      | none => rfl
      | some x => simp [show ¬ (c ≤ j ∧ j < c) by omega]
    show v = withLayers v (v.myData.myLayers.set l (mapRange f c 0 lay))
    rw [this, set_of_get hl]; rfl

end Parents

/-! ## Layers above layer 0 -/

section Upper

theorem IsAnyMemberBlocked_of_le (v : ASVONVolume) (l i : Nat) (h : l ≤ v.myBlockedIndices.length) :
    IsAnyMemberBlocked v l i = .ok (blockedQ v.myBlockedIndices l (i >>> 3)) := by
  unfold IsAnyMemberBlocked blockedQ
  by_cases hl : l = v.myBlockedIndices.length
  · simp [hl]
  · have hlt : l < v.myBlockedIndices.length := by omega
    simp only [hl, if_false, index_of_lt hlt, bind_ok, decide_False, Bool.false_or]
    rw [List.getD_eq_getElem?_getD, List.getElem?_eq_getElem hlt]
    simp only [Option.getD_some]
    split <;> simp_all

theorem IsAnyMemberBlocked_of_gt (v : ASVONVolume) (l i : Nat) (h : v.myBlockedIndices.length < l) :
    IsAnyMemberBlocked v l i = .error .outOfRange := by
  unfold IsAnyMemberBlocked index
  have hl : l ≠ v.myBlockedIndices.length := by omega
  simp only [hl, if_false]
  rw [List.getElem?_eq_none (by omega)]
  rfl

theorem parentAfter_code (l : Nat) (p : Nat → Bool) (n : Nat) (c : SVONNode) :
    (parentAfter l p n c).myCode = c.myCode := by
  unfold parentAfter setParent
  split <;> rfl

theorem set_set_normalize {α : Type} (ls : List α) (a b : Nat) (x y x1 y1 : α) (_hab : a ≠ b) :
    (((ls.set a x).set b y).set a x1).set b y1 = (ls.set a x1).set b y1 := by
  apply List.ext_getElem?
  intro j
  simp only [List.getElem?_set, List.length_set]
  by_cases h1 : b = j <;> by_cases h2 : a = j <;> simp [h1, h2]

theorem set_set_normalize_left {α : Type} (ls : List α) (a b : Nat) (x y x1 : α) (hab : a ≠ b) :
    ((ls.set a x).set b y).set a x1 = (ls.set a x1).set b y := by
  apply List.ext_getElem?
  intro j
  simp only [List.getElem?_set, List.length_set]
  by_cases h1 : b = j <;> by_cases h2 : a = j <;> simp [h1, h2]
  omega

theorem nodeStep_spec (v : ASVONVolume) (l : Nat) (below : List SVONNode) (qb : Nat → Bool)
    (N : Nat) (hl : 1 ≤ l) (hlen : l < v.myData.myLayers.length)
    (hsets : l ≤ v.myBlockedIndices.length)
    (hbelow : below.map (·.myCode) = (List.range (8 * N)).filter (fun j => qb (j / 8)))
    (n : Nat) (hn : n < N) :
    RasterizeLayer.nodeStep l (upperState v l below qb N n) n =
      .ok (upperState v l below qb N (n + 1)) := by
  have hne : l ≠ l - 1 := by omega
  have hlen1 : l - 1 < v.myData.myLayers.length := by omega
  unfold RasterizeLayer.nodeStep
  rw [IsAnyMemberBlocked_of_le _ _ _ (by simpa [upperState] using hsets)]
  simp only [bind_ok]
  generalize hp : (fun i => blockedQ v.myBlockedIndices l (i >>> 3)) = p
  have hpn : blockedQ (upperState v l below qb N n).myBlockedIndices l (n >>> 3) = p n := by
    rw [← hp]; rfl
  rw [hpn]
  have hst : ∀ m, upperState v l below qb N m = withLayers v
      ((v.myData.myLayers.set l (((List.range m).filter p).map (upperLayerNode l qb N))).set (l - 1)
        (below.map (parentAfter l p m))) := by
    intro m; unfold upperState; rw [hp]
  rw [hst n, hst (n + 1)]
  have hbelow_eq : ∀ (x : SVONNode), x ∈ below → p n = false ∨ x.myCode / 8 ≠ n →
      parentAfter l p (n + 1) x = parentAfter l p n x := by
    intro x _ hx
    unfold parentAfter
    by_cases h1 : x.myCode / 8 < n
    · simp [h1, show x.myCode / 8 < n + 1 by omega]
    · by_cases h2 : x.myCode / 8 = n
      · rcases hx with hx | hx
        · simp [h2, hx]
        · exact absurd h2 hx
      · simp [h1, show ¬ x.myCode / 8 < n + 1 by omega]
  by_cases hpn2 : p n = true
  · simp only [hpn2, if_true]
    have hfilter : (List.range (n + 1)).filter p = (List.range n).filter p ++ [n] := by
      rw [filter_range_succ, hpn2]; rfl
    have hgetl : (withLayers v ((v.myData.myLayers.set l
        (((List.range n).filter p).map (upperLayerNode l qb N))).set (l - 1)
        (below.map (parentAfter l p n)))).myData.myLayers[l]? =
        some (((List.range n).filter p).map (upperLayerNode l qb N)) := by
      simp [List.getElem?_set, hne, hlen, Ne.symm hne]
    rw [emplaceNode_of_get hgetl]
    simp only [bind_ok, withLayers_layers, withLayers_withLayers]
    rw [modifyNode_last (x := SVONNode.default) _ (by
      simp [List.getElem?_set, hne, hlen, Ne.symm hne])]
    simp only [bind_ok, withLayers_layers, withLayers_withLayers, List.set_set]
    unfold GetIndexForCode GetLayer
    rw [index_eq_ok.2 (show _ = some (below.map (parentAfter l p n)) by
      simp [List.getElem?_set, hne, hlen1, Ne.symm hne])]
    simp only [bind_ok, pure_eq_ok]
    rw [go_map_congr _ _ (parentAfter_code l p n),
      go_filter_range below _ _ hbelow, Nat.shiftLeft_eq]
    have h8 : n * 2 ^ 3 = 8 * n := by omega
    have hdiv : 8 * n / 8 = n := by omega
    rw [h8, hdiv]
    have hlaylen : (((List.range n).filter p).map (upperLayerNode l qb N)).length =
        (List.range n).countP p := by
      rw [List.length_map, length_filter_range]
    by_cases hq : qb n = true
    · -- the eight children exist
      simp only [show 8 * n < 8 * N by omega, hq, and_self, if_true]
      rw [modifyNode_last (x := { SVONNode.default with myCode := n }) _ (by
        simp [List.getElem?_set, hne, hlen, Ne.symm hne])]
      simp only [bind_ok, withLayers_layers, withLayers_withLayers, List.set_set]
      have hc8 : (List.range (8 * n)).countP (fun j => qb (j / 8)) + 8 ≤
          (below.map (parentAfter l p n)).length := by
        have h1 := getElem?_filter_range (fun j => qb (j / 8)) (8 * N) (8 * n + 7) (by omega)
          (by simp [show (8 * n + 7) / 8 = n by omega, hq])
        rw [countP_range_block qb n 7 (by omega) hq, ← hbelow] at h1
        have := (List.getElem?_eq_some.1 h1).1
        simp at this
        simp; omega
      rw [modifyRange_spec (l - 1) _ _ 8 _ (below.map (parentAfter l p n))
        (by simp [List.getElem?_set, hne, hlen1, Ne.symm hne]) hc8]
      simp only [withLayers_layers, withLayers_withLayers]
      rw [set_set_normalize _ _ _ _ _ _ _ hne]
      congr 3
      · rw [hfilter, List.map_append]
        simp [upperLayerNode, hq, hn, SVONNode.default, SVONLink.GetInvalidLink,
          SVONLink.SetLayerIndex, SVONLink.SetNodeIndex, SVONLink.make]
      · apply List.ext_getElem?
        intro j
        rw [getElem?_mapRange, List.getElem?_map, List.getElem?_map]
        cases hbj : below[j]? with
        | none => rfl
        | some x =>
          have hx : ((List.range (8 * N)).filter (fun j => qb (j / 8)))[j]? = some x.myCode := by
            rw [getElem?_codes hbelow, hbj]; rfl
          obtain ⟨hx1, hx2, hx3⟩ := filter_range_getElem? _ _ _ _ hx
          simp only [Option.map_some', Option.some.injEq]
          by_cases hxn : x.myCode / 8 = n
          · have hxc : x.myCode = 8 * n + (x.myCode - 8 * n) := by omega
            have hjr : j = (List.range (8 * n)).countP (fun j => qb (j / 8)) + (x.myCode - 8 * n) := by
              rw [hx3]
              conv => lhs; rw [hxc]
              exact countP_range_block qb n _ (by omega) hq
            have hin : (List.range (8 * n)).countP (fun j => qb (j / 8)) ≤ j ∧
                j < (List.range (8 * n)).countP (fun j => qb (j / 8)) + 8 := by omega
            simp only [hin, and_self, if_true]
            have h1 : parentAfter l p n x = x := by
              unfold parentAfter; simp [hxn]
            have h2 : parentAfter l p (n + 1) x = setParent l ((List.range n).countP p) x := by
              unfold parentAfter; simp [hxn, hpn2]
            rw [h1, h2, hlaylen]
            rfl
          · have hout : ¬ ((List.range (8 * n)).countP (fun j => qb (j / 8)) ≤ j ∧
                j < (List.range (8 * n)).countP (fun j => qb (j / 8)) + 8) := by
              intro hin
              -- the code at position j would be one of the eight children
              have h1 := getElem?_filter_range (fun j => qb (j / 8)) (8 * N)
                (8 * n + (j - (List.range (8 * n)).countP (fun j => qb (j / 8)))) (by omega)
                (by simp [show (8 * n + (j - (List.range (8 * n)).countP (fun j => qb (j / 8)))) / 8
                  = n by omega, hq])
              rw [countP_range_block qb n _ (by omega) hq,
                show (List.range (8 * n)).countP (fun j => qb (j / 8)) +
                  (j - (List.range (8 * n)).countP (fun j => qb (j / 8))) = j by omega, hx] at h1
              simp at h1
              omega
            simp only [hout, if_false]
            exact (hbelow_eq x (List.getElem?_mem hbj) (Or.inr hxn)).symm
    · -- no child exists
      simp only [hq, Bool.false_eq_true, and_false, if_false]
      rw [modifyNode_last (x := { SVONNode.default with myCode := n }) _ (by
        simp [List.getElem?_set, hne, hlen, Ne.symm hne])]
      simp only [withLayers_layers, withLayers_withLayers, List.set_set]
      rw [set_set_normalize_left _ _ _ _ _ _ hne]
      congr 3
      · rw [hfilter, List.map_append]
        simp [upperLayerNode, hq, SVONNode.default, SVONLink.GetInvalidLink, SVONLink.SetInvalid]
      · apply List.map_congr_left
        intro x hx
        refine (hbelow_eq x hx (Or.inr ?_)).symm
        intro hxn
        have hmem : x.myCode ∈ (List.range (8 * N)).filter (fun j => qb (j / 8)) := by
          rw [← hbelow]; exact List.mem_map_of_mem _ hx
        rw [mem_filter_range, hxn] at hmem
        exact hq hmem.2
  · simp only [hpn2]
    have hpf : p n = false := by simpa using hpn2
    rw [filter_range_succ, hpf]
    simp only [Bool.false_eq_true, if_false, List.append_nil, pure_eq_ok]
    congr 3
    apply List.map_congr_left
    intro x hx
    exact (hbelow_eq x hx (Or.inl hpf)).symm

end Upper

/-! ## The prepared state -/

section Prepare

theorem two_pow_cube (k : Nat) : (2 ^ k) ^ 3 = 8 ^ k := by
  rw [← pow_mul, mul_comm, pow_mul]; norm_num

theorem cube_lt_int32 (k : Nat) : (2 ^ k) ^ 3 < 2 ^ 31 ↔ k ≤ 10 := by
  rw [← pow_mul, Nat.pow_lt_pow_iff_right (by norm_num : 1 < 2)]
  omega

/-- Within the `int32` range, that is up to ten layers below the top,
`GetNodesInLayer` is the number of cells of the layer. -/
theorem GetNodesInLayer_eq (v : ASVONVolume) (l : Nat) (h : l ≤ v.myVoxelPower)
    (h10 : v.myVoxelPower - l ≤ 10) :
    (GetNodesInLayer v l).toNat = 8 ^ (v.myVoxelPower - l) := by
  unfold GetNodesInLayer
  rw [if_pos h, if_pos ((cube_lt_int32 _).2 h10), two_pow_cube]
  rfl

/-- Eleven layers below the top and further down the count is outside the
`int32` range: the value is negative and a loop bounded by it does not run. -/
theorem GetNodesInLayer_big (v : ASVONVolume) (l : Nat) (h10 : 10 < v.myVoxelPower - l) :
    (GetNodesInLayer v l).toNat = 0 := by
  unfold GetNodesInLayer
  rw [if_pos (by omega), if_neg (by rw [cube_lt_int32]; omega)]
  rfl

theorem firstSet_lt {vp : Nat} {o : Oracle} {x : Nat} (hx : x ∈ firstSet vp o) :
    x < 8 ^ (vp - 1) ∧ o.firstPass x = true := by
  unfold firstSet at hx
  rw [mem_filter_range] at hx
  split at hx
  · exact hx
  · omega

theorem firstSet_eq {vp : Nat} (o : Oracle) (h1 : 1 ≤ vp) (h11 : vp ≤ 11) :
    firstSet vp o = (List.range (8 ^ (vp - 1))).filter o.firstPass := by
  unfold firstSet
  rw [if_pos ⟨h1, h11⟩]

theorem firstSet_big {vp : Nat} (o : Oracle) (h : 11 < vp) : firstSet vp o = [] := by
  unfold firstSet
  rw [if_neg (by omega)]
  rfl

/-- The first pass, started with no blocked-index set and with at least
`vp - 1` units of fuel, returns: the first set holds the occupied layer-1
codes, the sets form a chain of at most `vp` sets (one set when `vp = 0`),
and the last set has at most one entry. -/
theorem FirstPassRasterize_spec (vp nl : Nat) (d : SVONData) (o : Oracle) (hnl : vp ≤ nl + 1) :
    ∃ sets, FirstPassRasterize ⟨vp, nl, [], d⟩ o = .ok ⟨vp, nl, firstSet vp o :: sets, d⟩ ∧
      Chain (firstSet vp o :: sets) ∧ sets.length ≤ vp - 1 ∧
      (∀ t, (firstSet vp o :: sets).getLast? = some t → t.length ≤ 1) := by
  have hcollect := firstPass_collect o ⟨vp, nl, [], d⟩ (GetNodesInLayer ⟨vp, nl, [], d⟩ 1).toNat
  have hn1 : (GetNodesInLayer ⟨vp, nl, [], d⟩ 1).toNat =
      (if 1 ≤ vp ∧ vp ≤ 11 then 8 ^ (vp - 1) else 0) := by
    by_cases h1 : 1 ≤ vp
    · by_cases h11 : vp ≤ 11
      · rw [if_pos ⟨h1, h11⟩]
        exact GetNodesInLayer_eq ⟨vp, nl, [], d⟩ 1 h1 (by simp only; omega)
      · rw [if_neg (by omega)]
        exact GetNodesInLayer_big ⟨vp, nl, [], d⟩ 1 (by simp only; omega)
    · rw [if_neg (by omega)]
      unfold GetNodesInLayer
      rw [if_neg h1]
      rfl
  have hbound : ∀ x ∈ firstSet vp o, x < 8 ^ (vp - 1) := fun x hx => (firstSet_lt hx).1
  have hnd : (firstSet vp o).Nodup := by
    unfold firstSet
    exact ((List.nodup_range _).filter _)
  have hch : Chain ([] ++ [firstSet vp o]) := by
    intro k s t hs ht
    have := (List.getElem?_eq_some.1 ht).1
    simp at this
  obtain ⟨sets, hsets, hch2, hlen, hlast⟩ :=
    parents_spec nl (vp - 1) vp nl d [] (firstSet vp o) hch hnd hbound (by omega)
  refine ⟨sets, ?_, by simpa using hch2, hlen, by simpa using hlast⟩
  unfold FirstPassRasterize
  simp only [List.nil_append] at hcollect ⊢
  rw [hcollect]
  simp only [bind_ok]
  rw [hn1]
  simpa [firstSet] using hsets

theorem emplace_layers (n : Nat) (v : ASVONVolume) :
    (List.range n).foldl
      (fun w _ => { w with myData := { w.myData with myLayers := w.myData.myLayers ++ [[]] } }) v =
    withLayers v (v.myData.myLayers ++ List.replicate n []) := by
  induction n with
  | zero => simp [withLayers]
  | succ n ih =>
    rw [List.range_succ, List.foldl_append, ih]
    simp [withLayers, List.replicate_succ']

/-- `Generate.prepare` always returns, whatever the previous contents of the
volume. -/
theorem prepare_spec (v : ASVONVolume) (o : Oracle) :
    ∃ sets, Generate.prepare v o =
        .ok (prepared v.myVoxelPower (firstSet v.myVoxelPower o :: sets)) ∧
      Chain (firstSet v.myVoxelPower o :: sets) ∧ sets.length ≤ v.myVoxelPower - 1 ∧
      (∀ t, (firstSet v.myVoxelPower o :: sets).getLast? = some t → t.length ≤ 1) := by
  obtain ⟨sets, hfp, hch, hlen, hlast⟩ := FirstPassRasterize_spec v.myVoxelPower
    (v.myVoxelPower + 1) { v.myData with myLayers := [] } o (by omega)
  refine ⟨sets, ?_, hch, hlen, hlast⟩
  unfold Generate.prepare
  simp only
  rw [hfp]
  simp only [bind_ok, index_eq_ok.2 (show (firstSet v.myVoxelPower o :: sets)[0]? =
    some (firstSet v.myVoxelPower o) by simp), pure_eq_ok, emplace_layers]
  simp [prepared, withLayers, addDefaultedLeaves]

end Prepare

/-! ## The rasterized layers in closed form

The closed form describes the builds within the `int32` range, voxel power 10
at most; beyond, no layer receives a node. -/

section Closed

theorem shiftRight_three (i : Nat) : i >>> 3 = i / 8 := by
  rw [Nat.shiftRight_eq_div_pow]

theorem layerCodes_eq (vp : Nat) (sets : List (List Nat)) (l : Nat) :
    layerCodes vp sets l =
      (List.range (8 ^ (vp - l))).filter (fun j => layerQ vp sets l (j / 8)) := by
  cases l with
  | zero =>
    simp only [layerCodes, layerQ, built, Bool.true_and, shiftRight_three, Nat.sub_zero]
  | succ l =>
    simp only [layerCodes, layerQ, built, shiftRight_three]
    by_cases h : 1 < (layerCodes vp sets l).length
    · simp [h]
    · simp [h]

theorem pairwise_layerCodes (vp : Nat) (sets : List (List Nat)) (l : Nat) :
    (layerCodes vp sets l).Pairwise (· < ·) := by
  rw [layerCodes_eq]; exact pairwise_filter_range _ _

theorem refNode_code (vp : Nat) (sets : List (List Nat)) (o : Oracle) (L l i : Nat) :
    (refNode vp sets o L l i).myCode = i := by
  unfold refNode
  simp only
  split
  · rw [parentAfter_code]
    cases l <;> rfl
  · cases l <;> rfl

theorem getElem?_refLayers (vp : Nat) (sets : List (List Nat)) (o : Oracle) (L l : Nat) :
    (refLayers vp sets o L)[l]? =
      if l ≤ vp then
        some (if l < L then (layerCodes vp sets l).map (refNode vp sets o L l) else [])
      else none := by
  unfold refLayers
  rw [List.getElem?_map]
  by_cases h : l ≤ vp
  · rw [List.getElem?_range (by omega)]
    simp [h]
  · rw [List.getElem?_eq_none (by simp; omega)]
    simp [h]

theorem length_refLayers (vp : Nat) (sets : List (List Nat)) (o : Oracle) (L : Nat) :
    (refLayers vp sets o L).length = vp + 1 := by
  simp [refLayers]

end Closed

/-! ## The rasterization loop -/

section Rasterize

theorem foldlM_chain {σ : Type} (f : σ → Nat → Except Fault σ) (S : Nat → σ) (N : Nat)
    (h : ∀ n, n < N → f (S n) n = .ok (S (n + 1))) :
    (List.range N).foldlM f (S 0) = .ok (S N) := by
  obtain ⟨w, hw, h1⟩ := foldlM_range_total f (fun n w => w = S n) N
    (fun i s hi hs => ⟨S (i + 1), by rw [hs]; exact h i hi, rfl⟩) (S 0) rfl
  rw [hw, h1]

theorem foldlM_error {σ : Type} (f : σ → Nat → Except Fault σ) (s : σ) (N : Nat) (e : Fault)
    (hN : 0 < N) (h : f s 0 = .error e) : (List.range N).foldlM f s = .error e := by
  obtain ⟨n, rfl⟩ : ∃ n, N = n + 1 := ⟨N - 1, by omega⟩
  rw [List.range_succ_eq_map, List.foldlM_cons, h]
  rfl

theorem refLayers_zero (vp : Nat) (sets : List (List Nat)) (o : Oracle) :
    refLayers vp sets o 0 = List.replicate (vp + 1) [] := by
  apply List.ext_getElem?
  intro j
  rw [getElem?_refLayers, List.getElem?_replicate]
  by_cases h : j ≤ vp
  · simp [h, show j < vp + 1 by omega]
  · simp [h, show ¬ j < vp + 1 by omega]

theorem RastInv_zero (vp : Nat) (sets : List (List Nat)) (o : Oracle) :
    RastInv vp sets o 0 (prepared vp sets) := by
  refine ⟨_, ?_, by omega, fun _ => rfl, by omega⟩
  rw [refLayers_zero]
  rfl

theorem leafAt_replicate_default (n j : Nat) :
    leafAt (List.replicate n SVONLeafNode.default) j = SVONLeafNode.default := by
  unfold leafAt
  rw [List.getElem?_replicate]
  split <;> rfl

/-- Within the `int32` range, the loop of layer 0 returns and leaves the closed
form of layer 0. -/
theorem RasterizeLayer_zero (vp : Nat) (s : List Nat) (rest : List (List Nat)) (o : Oracle)
    (hvp : vp ≤ 10) :
    ∃ w, RasterizeLayer (prepared vp (s :: rest)) o 0 = .ok w ∧ RastInv vp (s :: rest) o 1 w := by
  have hfun : inFirstSet s = fun i => layerQ vp (s :: rest) 0 (i / 8) := by
    funext i
    simp [inFirstSet, layerQ, built, blockedQ, shiftRight_three]
  have hP0 : (prepared vp (s :: rest)).myData.myLayers[0]? = some [] := by
    simp [prepared, List.getElem?_replicate]
  obtain ⟨st, hst, lay, xs, hw, hcodes, _, _, hnodes, _⟩ := foldlM_range_total
    (RasterizeLayer.leafStep o) (LeafLoopInv o (prepared vp (s :: rest)) s) (8 ^ vp)
    (fun i st _ h => leafStep_inv o (prepared vp (s :: rest)) s (by simp [prepared])
      (by simp [prepared]) i st h)
    (prepared vp (s :: rest), 0)
    ⟨[], (prepared vp (s :: rest)).myData.myLeafNodes, by rw [set_of_get hP0]; rfl, rfl, rfl,
      by simp, by intro k node hk; simp at hk, by
        intro j _; simp only [prepared]; exact leafAt_replicate_default _ _⟩
  have hcodes2 : lay.map (·.myCode) = layerCodes vp (s :: rest) 0 := by
    rw [hcodes, layerCodes_eq, hfun]; rfl
  have hlay : lay = (layerCodes vp (s :: rest) 0).map (refNode vp (s :: rest) o 1 0) := by
    apply List.ext_getElem?
    intro k
    rw [← hcodes2, List.map_map, List.getElem?_map]
    cases hk : lay[k]? with
    | none => rfl
    | some node =>
      simp only [Option.map_some', Option.some.injEq, Function.comp]
      obtain ⟨_, h2, _, _⟩ := hnodes k node hk
      have h3 : ((List.range (8 ^ vp)).filter (inFirstSet s))[k]? = some node.myCode := by
        rw [getElem?_codes hcodes, hk]; rfl
      obtain ⟨_, _, h4⟩ := filter_range_getElem? _ _ _ _ h3
      rw [hfun] at h4
      conv => lhs; rw [h2]
      simp only [refNode]
      rw [if_neg (by omega), h4]
  refine ⟨st.1, ?_, xs, ?_, ?_, by omega, ?_⟩
  · unfold RasterizeLayer
    rw [if_pos rfl, GetNodesInLayer_eq _ _ (Nat.zero_le _) (by simpa [prepared] using hvp)]
    simp only [prepared, Nat.sub_zero] at hst ⊢
    rw [hst]; rfl
  · rw [hw]
    congr 2
    apply List.ext_getElem?
    intro j
    rw [getElem?_refLayers, List.getElem?_set]
    by_cases hj : 0 = j
    · subst hj
      simp [prepared, hlay]
    · simp only [hj, if_false, prepared, List.getElem?_replicate]
      by_cases h : j ≤ vp
      · simp [h, show j < vp + 1 by omega, show ¬ j < 1 by omega]
      · simp [h, show ¬ j < vp + 1 by omega]
  · intro _ k i hki
    rw [← hcodes2, List.getElem?_map] at hki
    cases hk : lay[k]? with
    | none => rw [hk] at hki; simp at hki
    | some node =>
      rw [hk] at hki
      simp at hki
      subst hki
      obtain ⟨h1, _, h3, h4⟩ := hnodes k node hk
      exact ⟨h1, h3, h4⟩
  · intro l h1 h2; omega

/-- The loop of a layer above 0 either faults, or leaves the closed form of
its layer and writes the parent links of the layer below. It can only return
when the layer below has at most one node or the layer index is at most the
number of blocked-index sets. -/
theorem RasterizeLayer_succ (vp : Nat) (sets : List (List Nat)) (o : Oracle) (k : Nat)
    (hvp : vp ≤ 10) (hk : k + 1 ≤ vp) (w w' : ASVONVolume) (h : RastInv vp sets o (k + 1) w)
    (hw' : RasterizeLayer w o (k + 1) = .ok w') : RastInv vp sets o (k + 2) w' := by
  obtain ⟨xs, rfl, hleaf, _, hcompl⟩ := h
  have hne : k + 1 ≠ 0 := by omega
  have hbelow_get : (refLayers vp sets o (k + 1))[k]? =
      some ((layerCodes vp sets k).map (refNode vp sets o (k + 1) k)) := by
    rw [getElem?_refLayers]; simp [show k ≤ vp by omega]
  have hL_get : (refLayers vp sets o (k + 1))[k + 1]? = some [] := by
    rw [getElem?_refLayers]; simp [hk]
  unfold RasterizeLayer at hw'
  rw [if_neg hne] at hw'
  simp only [Nat.add_sub_cancel, GetLayer, withLeaves_layers, withLayers_layers,
    index_eq_ok.2 hbelow_get, bind_ok, List.length_map] at hw'
  have h8 : 8 ^ (vp - k) = 8 * 8 ^ (vp - (k + 1)) := by
    rw [show vp - k = (vp - (k + 1)) + 1 by omega, Nat.pow_succ, Nat.mul_comm]
  by_cases hb : 1 < (layerCodes vp sets k).length
  · rw [if_pos hb, GetNodesInLayer_eq _ _ (by simpa [prepared] using hk)
      (by simp only [withLeaves_power, withLayers_power, prepared]; omega)] at hw'
    simp only [withLeaves_power, withLayers_power, prepared] at hw'
    have hN : 0 < 8 ^ (vp - (k + 1)) := by positivity
    by_cases hs : k + 1 ≤ sets.length
    · have hstart : withLeaves (withLayers (prepared vp sets) (refLayers vp sets o (k + 1))) xs =
          upperState (withLeaves (withLayers (prepared vp sets) (refLayers vp sets o (k + 1))) xs)
            (k + 1) ((layerCodes vp sets k).map (refNode vp sets o (k + 1) k))
            (layerQ vp sets k) (8 ^ (vp - (k + 1))) 0 := by
        unfold upperState
        simp only [withLeaves_layers, withLayers_layers, List.range_zero, List.filter_nil,
          List.map_nil, Nat.add_sub_cancel, withLayers_withLeaves, withLayers_withLayers]
        have hid : ((layerCodes vp sets k).map (refNode vp sets o (k + 1) k)).map
            (parentAfter (k + 1)
              (fun i => blockedQ (withLeaves (withLayers (prepared vp sets)
                (refLayers vp sets o (k + 1))) xs).myBlockedIndices (k + 1) (i >>> 3)) 0) =
            (layerCodes vp sets k).map (refNode vp sets o (k + 1) k) := by
          conv => rhs; rw [← List.map_id ((layerCodes vp sets k).map (refNode vp sets o (k + 1) k))]
          apply List.map_congr_left
          intro x _
          simp [parentAfter]
        rw [hid, set_of_get hL_get, set_of_get hbelow_get]
      have hfold := foldlM_chain (RasterizeLayer.nodeStep (k + 1))
        (upperState (withLeaves (withLayers (prepared vp sets) (refLayers vp sets o (k + 1))) xs)
          (k + 1) ((layerCodes vp sets k).map (refNode vp sets o (k + 1) k))
          (layerQ vp sets k) (8 ^ (vp - (k + 1)))) (8 ^ (vp - (k + 1)))
        (fun n hn => nodeStep_spec _ (k + 1) _ (layerQ vp sets k) _ (by omega)
          (by simp [length_refLayers]; omega) (by simpa [prepared] using hs)
          (by
            rw [List.map_map]
            have : ((fun x => x.myCode) ∘ refNode vp sets o (k + 1) k) = id := by
              funext i; simp [refNode_code]
            rw [this, List.map_id, layerCodes_eq, h8]) n hn)
      rw [← hstart] at hfold
      simp only [prepared] at hfold
      rw [hfold] at hw'
      simp only [Except.ok.injEq] at hw'
      subst hw'
      refine ⟨xs, ?_, fun _ => hleaf (by omega), by omega, ?_⟩
      · unfold upperState
        simp only [withLeaves_layers, withLayers_layers, Nat.add_sub_cancel, withLayers_withLeaves,
          withLayers_withLayers, withLeaves_blocked, withLayers_blocked]
        congr 2
        apply List.ext_getElem?
        intro j
        rw [getElem?_refLayers, List.getElem?_set, List.getElem?_set, List.length_set,
          length_refLayers, getElem?_refLayers]
        by_cases hj1 : k = j
        · subst hj1
          simp only [if_true, show k < vp + 1 by omega, show k ≤ vp by omega,
            show k < k + 1 + 1 by omega, List.map_map]
          congr 1
          apply List.map_congr_left
          intro i _
          simp only [Function.comp, refNode, hb, and_true, show k + 1 < k + 1 + 1 by omega,
            if_true, show ¬ k + 1 < k + 1 by omega, if_false]
        · simp only [hj1, if_false]
          by_cases hj2 : k + 1 = j
          · subst hj2
            simp only [if_true, show k + 1 < vp + 1 by omega, hk,
              show k + 1 < k + 1 + 1 by omega]
            congr 1
            simp only [layerCodes, hb, if_true]
            apply List.map_congr_left
            intro i _
            simp only [refNode, show ¬ (k + 1 + 1 < k + 1 + 1) by omega, false_and, if_false]
          · simp only [hj2, if_false]
            by_cases hjv : j ≤ vp
            · simp only [hjv, if_true]
              by_cases hjl : j < k + 1
              · simp only [hjl, show j < k + 1 + 1 by omega, if_true]
                congr 1
                apply List.map_congr_left
                intro i _
                simp only [refNode, show j + 1 < k + 1 by omega, show j + 1 < k + 1 + 1 by omega]
              · simp [hjl, show ¬ j < k + 1 + 1 by omega]
            · simp [hjv]
      · intro l h1 h2 h3
        by_cases hl : l = k + 1
        · subst hl; exact hs
        · exact hcompl l h1 (by omega) h3
    · exfalso
      rw [foldlM_error _ _ _ .outOfRange hN] at hw'
      · exact Except.noConfusion hw'
      · unfold RasterizeLayer.nodeStep
        rw [IsAnyMemberBlocked_of_gt _ _ _ (by simpa [prepared] using hs)]
        rfl
  · rw [if_neg hb] at hw'
    simp only [pure_eq_ok, Except.ok.injEq] at hw'
    subst hw'
    refine ⟨xs, ?_, fun _ => hleaf (by omega), by omega, ?_⟩
    · congr 2
      apply List.ext_getElem?
      intro j
      rw [getElem?_refLayers, getElem?_refLayers]
      by_cases hjv : j ≤ vp
      · simp only [hjv, if_true]
        by_cases hjl : j < k + 1
        · simp only [hjl, show j < k + 1 + 1 by omega, if_true]
          congr 1
          apply List.map_congr_left
          intro i _
          simp only [refNode]
          by_cases hjk : j = k
          · subst hjk
            simp [hb]
          · simp only [show j + 1 < k + 1 by omega, show j + 1 < k + 1 + 1 by omega]
        · by_cases hjk : j = k + 1
          · subst hjk
            simp [layerCodes, hb]
          · simp [hjl, show ¬ j < k + 1 + 1 by omega]
      · simp [hjv]
    · intro l h1 h2 h3
      by_cases hl : l = k + 1
      · subst hl
        simp at h3
        exact absurd h3 hb
      · exact hcompl l h1 (by omega) h3

end Rasterize

/-! ## The rasterized state -/

section Rasterized

/-- Within the `int32` range, every rasterization that returns leaves the
layers in closed form. -/
theorem rasterize_closed (v : ASVONVolume) (o : Oracle) (w : ASVONVolume)
    (hvp : v.myVoxelPower ≤ 10) (h : Generate.rasterize v o = .ok w) :
    ∃ sets, SetsOK v.myVoxelPower o sets ∧
      Generate.prepare v o = .ok (prepared v.myVoxelPower sets) ∧
      RastInv v.myVoxelPower sets o (v.myVoxelPower + 1) w := by
  obtain ⟨rest, hprep, hch, hlen, hlast⟩ := prepare_spec v o
  refine ⟨firstSet v.myVoxelPower o :: rest, ⟨rfl, hch, by simp; omega, hlast⟩, hprep, ?_⟩
  unfold Generate.rasterize at h
  rw [hprep] at h
  simp only [bind_ok] at h
  refine foldlM_range_inv (fun w i => RasterizeLayer w o i)
    (RastInv v.myVoxelPower (firstSet v.myVoxelPower o :: rest) o) (v.myVoxelPower + 1) ?_
    _ w (RastInv_zero _ _ _) h
  intro i s s' hi hinv hs
  cases i with
  | zero =>
    obtain ⟨xs, hxs, _, hx0, _⟩ := hinv
    have hsP : s = prepared v.myVoxelPower (firstSet v.myVoxelPower o :: rest) := by
      rw [hxs, hx0 rfl, refLayers_zero]; rfl
    obtain ⟨w1, hw1, hinv1⟩ := RasterizeLayer_zero v.myVoxelPower (firstSet v.myVoxelPower o) rest o hvp
    subst hsP
    have hs2 : RasterizeLayer (prepared v.myVoxelPower (firstSet v.myVoxelPower o :: rest)) o 0 =
        .ok s' := hs
    rw [hw1] at hs2
    simp only [Except.ok.injEq] at hs2
    subst hs2
    exact hinv1
  | succ k => exact RasterizeLayer_succ _ _ o k hvp (by omega) s s' hinv hs

end Rasterized

/-! ## The skeleton of a volume -/

section Skeleton

theorem getElem?_skeleton (v : ASVONVolume) (l : Nat) :
    (skeleton v).myData.myLayers[l]? = (v.myData.myLayers[l]?).map (fun lay => lay.map strip) := by
  simp [skeleton, List.getElem?_map]

theorem GetLayer_skeleton (v : ASVONVolume) (l : Nat) :
    GetLayer (skeleton v) l = (GetLayer v l).map (fun lay => lay.map strip) := by
  unfold GetLayer index
  rw [getElem?_skeleton]
  cases v.myData.myLayers[l]? <;> rfl

theorem nodeAt_skeleton (v : ASVONVolume) (l k : Nat) :
    nodeAt (skeleton v) l k = (nodeAt v l k).map strip := by
  unfold nodeAt
  rw [GetLayer_skeleton]
  cases h : GetLayer v l with
  | error e => rfl
  | ok lay =>
    simp only [Except.map, bind_ok]
    unfold index
    rw [List.getElem?_map]
    cases lay[k]? <;> rfl

theorem GetIndexForCode_skeleton (v : ASVONVolume) (l c : Nat) :
    GetIndexForCode (skeleton v) l c = GetIndexForCode v l c := by
  unfold GetIndexForCode
  rw [GetLayer_skeleton]
  cases h : GetLayer v l with
  | error e => rfl
  | ok lay =>
    simp only [Except.map, bind_ok]
    rw [go_map_congr c strip (fun _ => rfl)]

theorem scan_strip (c : Nat) (hi : Bool) : ∀ (lay : List SVONNode) (idx : Nat),
    FindLinkInDirection.scan c hi (lay.map strip) idx =
      (FindLinkInDirection.scan c hi lay idx).map (fun r => r.map (fun jn => (jn.1, strip jn.2))) := by
  intro lay
  induction lay with
  | nil => intro idx; rfl
  | cons n rest ih =>
    intro idx
    simp only [List.map_cons, FindLinkInDirection.scan]
    have hc : (strip n).myCode = n.myCode := rfl
    rw [hc]
    by_cases h1 : n.myCode = c
    · simp [h1]
    · simp only [h1, if_false]
      split
      · rfl
      · exact ih _

theorem FindLinkInDirection_skeleton (v : ASVONVolume) (l k d : Nat) (link : SVONLink) :
    FindLinkInDirection (skeleton v) l k d link = FindLinkInDirection v l k d link := by
  unfold FindLinkInDirection
  rw [nodeAt_skeleton, GetLayer_skeleton]
  cases hn : nodeAt v l k with
  | error e => rfl
  | ok node =>
    cases hl : GetLayer v l with
    | error e => rfl
    | ok lay =>
      simp only [Except.map, bind_ok]
      have hc : (strip node).myCode = node.myCode := rfl
      have hside : GetNodesPerSide (skeleton v) l = GetNodesPerSide v l := rfl
      rw [hc, hside]
      split
      · rfl
      · rw [← List.map_drop, ← List.map_take, ← List.map_reverse]
        have hvis : (if decide (morton3D_64_encode
              (↑(morton3D_64_decode node.myCode).1 + (dirs d).X).toNat
              (↑(morton3D_64_decode node.myCode).2.1 + (dirs d).Y).toNat
              (↑(morton3D_64_decode node.myCode).2.2 + (dirs d).Z).toNat > node.myCode) = true
            then List.map strip (List.drop (k + 1) lay)
            else List.map strip (List.take k lay).reverse) =
            List.map strip (if decide (morton3D_64_encode
              (↑(morton3D_64_decode node.myCode).1 + (dirs d).X).toNat
              (↑(morton3D_64_decode node.myCode).2.1 + (dirs d).Y).toNat
              (↑(morton3D_64_decode node.myCode).2.2 + (dirs d).Z).toNat > node.myCode) = true
            then List.drop (k + 1) lay else (List.take k lay).reverse) := by
          split <;> rfl
        rw [hvis, scan_strip]
        cases FindLinkInDirection.scan _ _ _ _ with
        | none => rfl
        | some r =>
          cases r with
          | none => rfl
          | some jn => rfl

theorem climb_skeleton (v : ASVONVolume) (aLayer aCode d : Nat) :
    ∀ (fuel sl idx : Nat) (link : SVONLink),
      BuildNeighbourLinks.climb (skeleton v) aLayer aCode d fuel sl idx link =
        BuildNeighbourLinks.climb v aLayer aCode d fuel sl idx link := by
  intro fuel
  induction fuel with
  | zero =>
    intro sl idx link
    unfold BuildNeighbourLinks.climb
    rw [FindLinkInDirection_skeleton]
    simp [skeleton]
  | succ fuel ih =>
    intro sl idx link
    unfold BuildNeighbourLinks.climb
    rw [FindLinkInDirection_skeleton]
    have hlen : (skeleton v).myData.myLayers.length = v.myData.myLayers.length := by
      simp [skeleton]
    rw [hlen]
    cases FindLinkInDirection v sl idx d link with
    | error e => rfl
    | ok r =>
      simp only [bind_ok]
      split
      · rw [nodeAt_skeleton]
        cases nodeAt v sl idx with
        | error e => rfl
        | ok cur =>
          simp only [Except.map, bind_ok]
          have hp : (strip cur).myParent = cur.myParent := rfl
          rw [hp, GetIndexForCode_skeleton]
          simp only [ih]
      · rfl

theorem climb_congr {v w : ASVONVolume} (h : skeleton v = skeleton w) (aLayer aCode d : Nat)
    (fuel sl idx : Nat) (link : SVONLink) :
    BuildNeighbourLinks.climb v aLayer aCode d fuel sl idx link =
      BuildNeighbourLinks.climb w aLayer aCode d fuel sl idx link := by
  rw [← climb_skeleton v, ← climb_skeleton w, h]

end Skeleton

/-! ## The loops of `BuildNeighbourLinks` -/

section Links

/-- A loop over a list establishes an invariant indexed by the part of the
list already visited; the step may use the position in the list. -/
theorem foldlM_list_inv_pos {σ γ : Type} (f : σ → γ → Except Fault σ) (Inv : List γ → σ → Prop)
    (xs : List γ)
    (hstep : ∀ pre x post s s', xs = pre ++ x :: post → Inv pre s → f s x = .ok s' →
      Inv (pre ++ [x]) s') :
    ∀ (s0 s' : σ), Inv [] s0 → xs.foldlM f s0 = .ok s' → Inv xs s' := by
  have gen : ∀ (rest done : List γ) (s0 s' : σ), xs = done ++ rest → Inv done s0 →
      rest.foldlM f s0 = .ok s' → Inv xs s' := by
    intro rest
    induction rest with
    | nil =>
      intro done s0 s' hxs h0 h
      simp at h
      subst h
      simp at hxs
      rw [hxs]; exact h0
    | cons x rest ih =>
      intro done s0 s' hxs h0 h
      rw [List.foldlM_cons, bind_eq_ok] at h
      obtain ⟨s1, h1, h2⟩ := h
      exact ih (done ++ [x]) s1 s' (by simp [hxs]) (hstep done x rest s0 s1 hxs h0 h1) h2
  intro s0 s' h0 h
  exact gen xs [] s0 s' rfl h0 h

theorem strip_eq_iff (a b : SVONNode) :
    strip a = strip b ↔ a.myCode = b.myCode ∧ a.myFirstChild = b.myFirstChild ∧
      a.myParent = b.myParent := by
  cases a; cases b
  simp [strip]

theorem skeleton_modifyNode {w w' : ASVONVolume} {l k : Nat} {f : SVONNode → SVONNode}
    (h : modifyNode w l k f = .ok w') (hf : ∀ n, strip (f n) = strip n) :
    skeleton w' = skeleton w := by
  obtain ⟨lay, n, h1, h2, rfl⟩ := modifyNode_eq_ok.1 h
  unfold skeleton
  simp only [withLayers_layers, withLayers_withLayers]
  congr 1
  apply List.ext_getElem?
  intro j
  rw [List.getElem?_map, List.getElem?_map, List.getElem?_set]
  by_cases hj : l = j
  · subst hj
    simp only [if_true, (List.getElem?_eq_some.1 h1).1, h1, Option.map_some', Option.some.injEq]
    apply List.ext_getElem?
    intro i
    rw [List.getElem?_map, List.getElem?_map, List.getElem?_set]
    by_cases hi : k = i
    · subst hi
      simp [(List.getElem?_eq_some.1 h2).1, h2, hf]
    · simp [hi]
  · simp [hj]

theorem nodeAt_modifyNode {w w' : ASVONVolume} {l k : Nat} {f : SVONNode → SVONNode}
    (h : modifyNode w l k f = .ok w') (l' k' : Nat) :
    nodeAt w' l' k' = if l' = l ∧ k' = k then (nodeAt w l k).map f else nodeAt w l' k' := by
  obtain ⟨lay, n, h1, h2, rfl⟩ := modifyNode_eq_ok.1 h
  have hl := (List.getElem?_eq_some.1 h1).1
  have hk := (List.getElem?_eq_some.1 h2).1
  unfold nodeAt GetLayer index
  simp only [withLayers_layers, List.getElem?_set]
  by_cases hl' : l = l'
  · subst hl'
    simp only [if_true, hl, bind_ok, h1, List.getElem?_set, true_and]
    by_cases hk' : k = k'
    · subst hk'
      simp [hk, h2, Except.map]
    · simp [hk', Ne.symm hk']
  · simp [hl', Ne.symm hl']

theorem LinksInv_congr {w4 w : ASVONVolume} {P Q : Nat → Nat → Nat → Prop}
    (h : ∀ l k d, d < 6 → (P l k d ↔ Q l k d)) (hP : LinksInv w4 P w) : LinksInv w4 Q w := by
  refine ⟨hP.1, ?_⟩
  intro l k n hn
  obtain ⟨h1, h2⟩ := hP.2 l k n hn
  refine ⟨h1, ?_⟩
  intro d hd
  obtain ⟨h3, h4⟩ := h2 d hd
  exact ⟨fun hq => h3 ((h l k d hd).2 hq), fun hq => h4 (fun hp => hq ((h l k d hd).1 hp))⟩

theorem neighbour_set (n : SVONNode) (d d' : Nat) (x : SVONLink) (hlen : n.myNeighbours.length = 6)
    (hd : d < 6) :
    ({ n with myNeighbours := n.myNeighbours.set d x } : SVONNode).neighbour d' =
      if d = d' then x else n.neighbour d' := by
  unfold SVONNode.neighbour
  simp only [List.getD_eq_getElem?_getD, List.getElem?_set]
  by_cases h : d = d'
  · subst h; simp [hlen, hd]
  · simp [h]

theorem dirStep_inv (w4 : ASVONVolume) (P : Nat → Nat → Nat → Prop) (L i d : Nat)
    (w w' : ASVONVolume) (hinv : LinksInv w4 P w) (hnot : ¬ P L i d) (hd : d < 6)
    (h : BuildNeighbourLinks.dirStep L i w d = .ok w') :
    LinksInv w4 (fun l k d' => P l k d' ∨ (l = L ∧ k = i ∧ d' = d)) w' := by
  unfold BuildNeighbourLinks.dirStep at h
  rw [bind_eq_ok] at h
  obtain ⟨node, hnode, h⟩ := h
  rw [bind_eq_ok] at h
  obtain ⟨link, hclimb, hmod⟩ := h
  obtain ⟨hlen, hlinks⟩ := hinv.2 L i node hnode
  have hnum : w.myNumLayers = w4.myNumLayers := by
    have := congrArg ASVONVolume.myNumLayers hinv.1
    simpa [skeleton] using this
  rw [(hlinks d hd).2 hnot, climb_congr hinv.1, hnum] at hclimb
  refine ⟨(skeleton_modifyNode hmod (fun _ => rfl)).trans hinv.1, ?_⟩
  intro l k n hn
  rw [nodeAt_modifyNode hmod] at hn
  by_cases hlk : l = L ∧ k = i
  · obtain ⟨rfl, rfl⟩ := hlk
    simp only [and_self, if_true, hnode, Except.map, Except.ok.injEq] at hn
    subst hn
    refine ⟨by simp [hlen], ?_⟩
    intro d' hd'
    rw [neighbour_set node d d' link hlen hd]
    by_cases hdd : d = d'
    · subst hdd
      simp only [if_true]
      exact ⟨fun _ => hclimb, fun hq => (hq (Or.inr (by simp))).elim⟩
    · simp only [hdd, if_false]
      obtain ⟨h3, h4⟩ := hlinks d' hd'
      refine ⟨?_, fun hq => h4 (fun hp => hq (Or.inl hp))⟩
      rintro (hp | ⟨_, _, hp⟩)
      · exact h3 hp
      · exact absurd hp.symm hdd
  · simp only [hlk, if_false] at hn
    obtain ⟨h1, h2⟩ := hinv.2 l k n hn
    refine ⟨h1, ?_⟩
    intro d' hd'
    obtain ⟨h3, h4⟩ := h2 d' hd'
    refine ⟨?_, fun hq => h4 (fun hp => hq (Or.inl hp))⟩
    rintro (hp | ⟨h5, h6, _⟩)
    · exact h3 hp
    · exact absurd ⟨h5, h6⟩ hlk

theorem nodeLoop_inv (w4 : ASVONVolume) (P : Nat → Nat → Nat → Prop) (L i : Nat)
    (hnot : ∀ d, ¬ P L i d) (w w' : ASVONVolume) (hinv : LinksInv w4 P w)
    (h : (List.range 6).foldlM (BuildNeighbourLinks.dirStep L i) w = .ok w') :
    LinksInv w4 (fun l k d' => P l k d' ∨ (l = L ∧ k = i)) w' := by
  have key := foldlM_range_inv (BuildNeighbourLinks.dirStep L i)
    (fun d w => LinksInv w4 (fun l k d' => P l k d' ∨ (l = L ∧ k = i ∧ d' < d)) w) 6 ?_ w w'
    (LinksInv_congr (fun l k d _ => by simp) hinv) h
  · exact LinksInv_congr (fun l k d hd => by simp [hd]) key
  · intro d s s' hd hs hstep
    have := dirStep_inv w4 _ L i d s s' hs (by
      rintro (hp | ⟨_, _, hlt⟩)
      · exact hnot d hp
      · omega) hd hstep
    refine LinksInv_congr (fun l k d' _ => ?_) this
    constructor
    · rintro ((hp | ⟨h1, h2, h3⟩) | ⟨h1, h2, h3⟩)
      · exact Or.inl hp
      · exact Or.inr ⟨h1, h2, by omega⟩
      · exact Or.inr ⟨h1, h2, by omega⟩
    · rintro (hp | ⟨h1, h2, h3⟩)
      · exact Or.inl (Or.inl hp)
      · by_cases h4 : d' = d
        · exact Or.inr ⟨h1, h2, h4⟩
        · exact Or.inl (Or.inr ⟨h1, h2, by omega⟩)

theorem BuildNeighbourLinks_inv (w4 : ASVONVolume) (P : Nat → Nat → Nat → Prop) (L : Nat)
    (hnot : ∀ k d, ¬ P L k d) (w w' : ASVONVolume) (hinv : LinksInv w4 P w)
    (h : BuildNeighbourLinks w L = .ok w') :
    LinksInv w4 (fun l k d' => P l k d' ∨ l = L) w' := by
  unfold BuildNeighbourLinks at h
  rw [bind_eq_ok] at h
  obtain ⟨layer, hlayer, h⟩ := h
  have hbound : ∀ (s : ASVONVolume), skeleton s = skeleton w4 →
      ∀ k n, nodeAt s L k = .ok n → k < layer.length := by
    intro s hs k n hn
    have h1 : nodeAt (skeleton s) L k = .ok (strip n) := by
      rw [nodeAt_skeleton, hn]; rfl
    rw [hs, ← hinv.1, nodeAt_skeleton] at h1
    cases hw : nodeAt w L k with
    | error e => rw [hw] at h1; exact Except.noConfusion h1
    | ok m =>
      rw [nodeAt_eq_ok] at hw
      obtain ⟨lay, h2, h3⟩ := hw
      rw [GetLayer_eq_ok] at hlayer
      rw [hlayer] at h2
      simp only [Option.some.injEq] at h2
      subst h2
      exact (List.getElem?_eq_some.1 h3).1
  have key := foldlM_range_inv
    (fun w i => (List.range 6).foldlM (BuildNeighbourLinks.dirStep L i) w)
    (fun i w => LinksInv w4 (fun l k d' => P l k d' ∨ (l = L ∧ k < i)) w) layer.length ?_ w w'
    (LinksInv_congr (fun l k d _ => by simp) hinv) h
  · refine ⟨key.1, ?_⟩
    intro l k n hn
    obtain ⟨h1, h2⟩ := key.2 l k n hn
    refine ⟨h1, ?_⟩
    intro d hd
    obtain ⟨h3, h4⟩ := h2 d hd
    constructor
    · rintro (hp | hl)
      · exact h3 (Or.inl hp)
      · subst hl
        exact h3 (Or.inr ⟨rfl, hbound w' key.1 k n hn⟩)
    · intro hq
      exact h4 (fun hp => hq (hp.elim Or.inl (fun hh => Or.inr hh.1)))
  · intro i s s' hi hs hstep
    have := nodeLoop_inv w4 _ L i (by
      rintro d (hp | ⟨_, hlt⟩)
      · exact hnot i d hp
      · omega) s s' hs hstep
    refine LinksInv_congr (fun l k d' _ => ?_) this
    constructor
    · rintro ((hp | ⟨h1, h2⟩) | ⟨h1, h2⟩)
      · exact Or.inl hp
      · exact Or.inr ⟨h1, by omega⟩
      · exact Or.inr ⟨h1, by omega⟩
    · rintro (hp | ⟨h1, h2⟩)
      · exact Or.inl (Or.inl hp)
      · by_cases h4 : k = i
        · exact Or.inr ⟨h1, h4⟩
        · exact Or.inl (Or.inr ⟨h1, by omega⟩)

/-- After the loop over the layers below the root, every neighbour link of
every node of those layers holds the result of the climb on the rasterized
volume, started with an invalid link. -/
theorem links_closed (w4 wf : ASVONVolume)
    (hdef : ∀ l k n, nodeAt w4 l k = .ok n →
      n.myNeighbours = List.replicate 6 SVONLink.GetInvalidLink)
    (h : (List.range (w4.myNumLayers - 1)).reverse.foldlM (fun w i => BuildNeighbourLinks w i) w4 =
      .ok wf) :
    skeleton wf = skeleton w4 ∧
    ∀ l k n d, l + 1 < w4.myNumLayers → d < 6 → nodeAt wf l k = .ok n →
      BuildNeighbourLinks.climb w4 l n.myCode d w4.myNumLayers l k SVONLink.GetInvalidLink =
        .ok (n.neighbour d) := by
  have h0 : LinksInv w4 (fun l _ _ => l ∈ ([] : List Nat)) w4 := by
    refine ⟨rfl, ?_⟩
    intro l k n hn
    have := hdef l k n hn
    refine ⟨by rw [this]; simp, ?_⟩
    intro d hd
    refine ⟨by simp, fun _ => ?_⟩
    unfold SVONNode.neighbour
    rw [this, List.getD_eq_getElem?_getD, List.getElem?_replicate]
    simp [hd]
  have key := foldlM_list_inv_pos (fun w i => BuildNeighbourLinks w i)
    (fun done w => LinksInv w4 (fun l _ _ => l ∈ done) w)
    (List.range (w4.myNumLayers - 1)).reverse ?_ w4 wf h0 h
  · refine ⟨key.1, ?_⟩
    intro l k n d hl hd hn
    exact ((key.2 l k n hn).2 d hd).1 (by simp; omega)
  · intro pre x post s s' hxs hs hstep
    have hnd : (pre ++ x :: post).Nodup := by
      rw [← hxs]
      exact List.nodup_reverse.2 (List.nodup_range _)
    have hx : x ∉ pre := by
      intro hmem
      have := List.nodup_append.1 hnd
      exact this.2.2 hmem (by simp)
    have := BuildNeighbourLinks_inv w4 _ x (fun _ _ => hx) s s' hs hstep
    exact LinksInv_congr (fun l k d _ => by simp) this

end Links

/-! ## Morton codes -/

section Morton

theorem dilateBits_zero (k : Nat) : dilateBits k 0 = 0 := by
  cases k <;> simp [dilateBits]

theorem compactBits_zero (k : Nat) : compactBits k 0 = 0 := by
  cases k <;> simp [compactBits]

theorem dilateBits_fuel : ∀ (k j x : Nat), x < 2 ^ k → x < 2 ^ j →
    dilateBits k x = dilateBits j x := by
  intro k
  induction k with
  | zero =>
    intro j x hk _
    have : x = 0 := by simpa using hk
    subst this
    rw [dilateBits_zero, dilateBits_zero]
  | succ k ih =>
    intro j x hk hj
    cases j with
    | zero =>
      have : x = 0 := by simpa using hj
      subst this
      rw [dilateBits_zero, dilateBits_zero]
    | succ j =>
      simp only [dilateBits]
      by_cases hx : x = 0
      · simp [hx]
      · simp only [hx, if_false]
        rw [ih j (x / 2) (by rw [Nat.pow_succ] at hk; omega) (by rw [Nat.pow_succ] at hj; omega)]

theorem compactBits_fuel : ∀ (k j c : Nat), c < 8 ^ k → c < 8 ^ j →
    compactBits k c = compactBits j c := by
  intro k
  induction k with
  | zero =>
    intro j c hk _
    have : c = 0 := by simpa using hk
    subst this
    rw [compactBits_zero, compactBits_zero]
  | succ k ih =>
    intro j c hk hj
    cases j with
    | zero =>
      have : c = 0 := by simpa using hj
      subst this
      rw [compactBits_zero, compactBits_zero]
    | succ j =>
      simp only [compactBits]
      by_cases hc : c = 0
      · simp [hc]
      · simp only [hc, if_false]
        rw [ih j (c / 8) (by rw [Nat.pow_succ] at hk; omega) (by rw [Nat.pow_succ] at hj; omega)]

theorem lt_eight_pow (c : Nat) : c < 8 ^ c :=
  Nat.lt_of_lt_of_le (Nat.lt_two_pow c) (Nat.pow_le_pow_left (by omega) c)

theorem dilate_rec (x : Nat) : dilate x = x % 2 + 8 * dilate (x / 2) := by
  unfold dilate
  cases x with
  | zero => rfl
  | succ n =>
    simp only [dilateBits, Nat.succ_ne_zero, if_false]
    rw [dilateBits_fuel n ((n + 1) / 2) ((n + 1) / 2)
      (Nat.lt_of_le_of_lt (by omega) (Nat.lt_two_pow n)) (Nat.lt_two_pow _)]

theorem compactBits_eq (k c : Nat) (h : c < 8 ^ k) : compactBits k c = compact c :=
  compactBits_fuel k c c h (lt_eight_pow c)

theorem compact_rec (c : Nat) : compact c = c % 2 + 2 * compact (c / 8) := by
  unfold compact
  cases c with
  | zero => rfl
  | succ n =>
    simp only [compactBits, Nat.succ_ne_zero, if_false]
    rw [compactBits_fuel n ((n + 1) / 8) ((n + 1) / 8)
      (Nat.lt_of_le_of_lt (by omega) (lt_eight_pow n)) (lt_eight_pow _)]

theorem decode_eq (c : Nat) :
    morton3D_64_decode c = (compact c, compact (c / 2), compact (c / 4)) := by
  unfold morton3D_64_decode
  rw [Nat.shiftRight_eq_div_pow, Nat.shiftRight_eq_div_pow]
  have h1 : c / 2 ^ 1 < 8 ^ c := Nat.lt_of_le_of_lt (Nat.div_le_self _ _) (lt_eight_pow c)
  have h2 : c / 2 ^ 2 < 8 ^ c := Nat.lt_of_le_of_lt (Nat.div_le_self _ _) (lt_eight_pow c)
  rw [compactBits_eq c _ h1, compactBits_eq c _ h2]
  rfl

theorem or_mod_two (a b : Nat) : (a ||| b) % 2 = if a % 2 = 1 ∨ b % 2 = 1 then 1 else 0 := by
  have h := @Nat.or_mod_two_eq_one a b
  by_cases hc : a % 2 = 1 ∨ b % 2 = 1
  · rw [if_pos hc]; exact h.2 hc
  · rw [if_neg hc]
    have : ¬ (a ||| b) % 2 = 1 := fun h1 => hc (h.1 h1)
    omega

/-- The OR of the three shifted dilations, one octal digit at a time. -/
theorem encode_rec (x y z : Nat) :
    morton3D_64_encode x y z =
      (x % 2 + 2 * (y % 2) + 4 * (z % 2)) + 8 * morton3D_64_encode (x / 2) (y / 2) (z / 2) := by
  unfold morton3D_64_encode
  change dilate x ||| dilate y <<< 1 ||| dilate z <<< 2 =
    (x % 2 + 2 * (y % 2) + 4 * (z % 2)) +
      8 * (dilate (x / 2) ||| dilate (y / 2) <<< 1 ||| dilate (z / 2) <<< 2)
  rw [dilate_rec x, dilate_rec y, dilate_rec z]
  simp only [Nat.shiftLeft_eq]
  generalize dilate (x / 2) = X
  generalize dilate (y / 2) = Y
  generalize dilate (z / 2) = Z
  have hx := Nat.mod_lt x (show 0 < 2 by omega)
  have hy := Nat.mod_lt y (show 0 < 2 by omega)
  have hz := Nat.mod_lt z (show 0 < 2 by omega)
  generalize x % 2 = x0 at hx ⊢
  generalize y % 2 = y0 at hy ⊢
  generalize z % 2 = z0 at hz ⊢
  generalize hA : (x0 + 8 * X ||| (y0 + 8 * Y) * 2 ^ 1 ||| (z0 + 8 * Z) * 2 ^ 2) = A
  have h1 : A % 2 = x0 := by
    rw [← hA, or_mod_two, or_mod_two]
    have e1 : ((y0 + 8 * Y) * 2 ^ 1) % 2 = 0 := by omega
    have e2 : ((z0 + 8 * Z) * 2 ^ 2) % 2 = 0 := by omega
    have e3 : (x0 + 8 * X) % 2 = x0 := by omega
    rw [e1, e2, e3]
    rcases (show x0 = 0 ∨ x0 = 1 by omega) with h | h <;> simp [h]
  have hA2 : A / 2 = (4 * X ||| (y0 + 8 * Y)) ||| (z0 + 8 * Z) * 2 := by
    rw [← hA, Nat.or_div_two, Nat.or_div_two]
    congr 1
    · congr 1 <;> omega
    · omega
  have h2 : (A / 2) % 2 = y0 := by
    rw [hA2, or_mod_two, or_mod_two]
    have e1 : (4 * X) % 2 = 0 := by omega
    have e2 : ((z0 + 8 * Z) * 2) % 2 = 0 := by omega
    have e3 : (y0 + 8 * Y) % 2 = y0 := by omega
    rw [e1, e2, e3]
    rcases (show y0 = 0 ∨ y0 = 1 by omega) with h | h <;> simp [h]
  have hA4 : A / 2 / 2 = (2 * X ||| 4 * Y) ||| (z0 + 8 * Z) := by
    rw [hA2, Nat.or_div_two, Nat.or_div_two]
    congr 1
    · congr 1 <;> omega
    · omega
  have h3 : (A / 2 / 2) % 2 = z0 := by
    rw [hA4, or_mod_two, or_mod_two]
    have e1 : (2 * X) % 2 = 0 := by omega
    have e2 : (4 * Y) % 2 = 0 := by omega
    have e3 : (z0 + 8 * Z) % 2 = z0 := by omega
    rw [e1, e2, e3]
    rcases (show z0 = 0 ∨ z0 = 1 by omega) with h | h <;> simp [h]
  have hA8 : A / 2 / 2 / 2 = (X ||| Y * 2 ^ 1) ||| Z * 2 ^ 2 := by
    rw [hA4, Nat.or_div_two, Nat.or_div_two]
    congr 1
    · congr 1 <;> omega
    · omega
  rw [← hA8]
  omega

theorem encode_zero : morton3D_64_encode 0 0 0 = 0 := by
  rw [encode_rec]
  have : morton3D_64_encode (0 / 2) (0 / 2) (0 / 2) = 0 := by decide
  omega

/-- Decoding an encoded coordinate triple gives the triple back. -/
theorem decode_encode (x y z : Nat) : morton3D_64_decode (morton3D_64_encode x y z) = (x, y, z) := by
  rw [decode_eq]
  have key : ∀ n x y z, x + y + z ≤ n →
      compact (morton3D_64_encode x y z) = x ∧ compact (morton3D_64_encode x y z / 2) = y ∧
        compact (morton3D_64_encode x y z / 4) = z := by
    intro n
    induction n with
    | zero =>
      intro x y z h
      have hx : x = 0 := by omega
      have hy : y = 0 := by omega
      have hz : z = 0 := by omega
      subst hx; subst hy; subst hz
      rw [encode_zero]
      exact ⟨rfl, rfl, rfl⟩
    | succ n ih =>
      intro x y z h
      by_cases h0 : x + y + z = 0
      · exact ih x y z (by omega)
      · obtain ⟨i1, i2, i3⟩ := ih (x / 2) (y / 2) (z / 2) (by omega)
        have hrec := encode_rec x y z
        generalize morton3D_64_encode x y z = c at hrec ⊢
        generalize morton3D_64_encode (x / 2) (y / 2) (z / 2) = c2 at hrec i1 i2 i3
        refine ⟨?_, ?_, ?_⟩
        · rw [compact_rec, show c / 8 = c2 by omega, i1]; omega
        · rw [compact_rec, show c / 2 / 8 = c2 / 2 by omega, i2]; omega
        · rw [compact_rec, show c / 4 / 8 = c2 / 4 by omega, i3]; omega
  obtain ⟨h1, h2, h3⟩ := key (x + y + z) x y z (Nat.le_refl _)
  rw [h1, h2, h3]

/-- Encoding the decoded coordinates of a code gives the code back. -/
theorem encode_decode (c : Nat) :
    morton3D_64_encode (morton3D_64_decode c).1 (morton3D_64_decode c).2.1
      (morton3D_64_decode c).2.2 = c := by
  rw [decode_eq]
  simp only
  induction c using Nat.strong_induction_on with
  | _ c ih =>
    by_cases h0 : c = 0
    · subst h0
      have : compact 0 = 0 := rfl
      simp only [Nat.zero_div, this]
      exact encode_zero
    · rw [encode_rec]
      have i1 := ih (c / 8) (by omega)
      rw [compact_rec c, compact_rec (c / 2), compact_rec (c / 4)]
      have e1 : (c % 2 + 2 * compact (c / 8)) / 2 = compact (c / 8) := by omega
      have e2 : (c / 2 % 2 + 2 * compact (c / 2 / 8)) / 2 = compact (c / 8 / 2) := by
        rw [show c / 2 / 8 = c / 8 / 2 by omega]; omega
      have e3 : (c / 4 % 2 + 2 * compact (c / 4 / 8)) / 2 = compact (c / 8 / 4) := by
        rw [show c / 4 / 8 = c / 8 / 4 by omega]; omega
      rw [e1, e2, e3, i1]
      omega

/-- The coordinates of the parent code are the halved coordinates. -/
theorem decode_div_eight (c : Nat) :
    morton3D_64_decode (c / 8) =
      ((morton3D_64_decode c).1 / 2, (morton3D_64_decode c).2.1 / 2,
        (morton3D_64_decode c).2.2 / 2) := by
  rw [decode_eq, decode_eq]
  simp only
  rw [compact_rec c, compact_rec (c / 2), compact_rec (c / 4),
    show c / 2 / 8 = c / 8 / 2 by omega, show c / 4 / 8 = c / 8 / 4 by omega]
  refine Prod.ext ?_ (Prod.ext ?_ ?_) <;> simp only <;> omega

/-- The parent code of an encoded triple is the code of the halved triple. -/
theorem encode_div_eight (x y z : Nat) :
    morton3D_64_encode x y z / 8 = morton3D_64_encode (x / 2) (y / 2) (z / 2) := by
  have := encode_rec x y z
  omega

end Morton

/-! ## The search in one layer -/

section Search

theorem FindLinkInDirection_eq (v : ASVONVolume) (l k d : Nat) (link : SVONLink)
    (lay : List SVONNode) (n : SVONNode)
    (hlay : v.myData.myLayers[l]? = some lay) (hn : lay[k]? = some n) :
    FindLinkInDirection v l k d link =
      if ¬ inCube (GetNodesPerSide v l) (neighbourCoord n.myCode d) then
        .ok (true, link.SetInvalid)
      else
        match FindLinkInDirection.scan (neighbourCode n.myCode d)
            (decide (neighbourCode n.myCode d > n.myCode))
            (if decide (neighbourCode n.myCode d > n.myCode) = true then lay.drop (k + 1)
              else (lay.take k).reverse)
            (if decide (neighbourCode n.myCode d > n.myCode) = true then k + 1 else k - 1) with
        | some (some (j, thisNode)) => foundLink v l j thisNode link
        | _ => .ok (false, link) := by
  unfold FindLinkInDirection
  rw [nodeAt_eq_ok.2 ⟨lay, hlay, hn⟩, GetLayer_eq_ok.2 hlay]
  simp only [bind_ok]
  by_cases hin : inCube (GetNodesPerSide v l) (neighbourCoord n.myCode d)
  · have hcond : ¬ ((↑(morton3D_64_decode n.myCode).1 + (dirs d).X < 0 ∨
        ↑(morton3D_64_decode n.myCode).1 + (dirs d).X ≥ ↑(GetNodesPerSide v l) ∨
        ↑(morton3D_64_decode n.myCode).2.1 + (dirs d).Y < 0 ∨
        ↑(morton3D_64_decode n.myCode).2.1 + (dirs d).Y ≥ ↑(GetNodesPerSide v l) ∨
        ↑(morton3D_64_decode n.myCode).2.2 + (dirs d).Z < 0 ∨
        ↑(morton3D_64_decode n.myCode).2.2 + (dirs d).Z ≥ ↑(GetNodesPerSide v l))) := by
      unfold inCube neighbourCoord at hin
      simp only at hin
      omega
    rw [if_neg hcond, if_neg (not_not.2 hin)]
    rfl
  · have hcond : (↑(morton3D_64_decode n.myCode).1 + (dirs d).X < 0 ∨
        ↑(morton3D_64_decode n.myCode).1 + (dirs d).X ≥ ↑(GetNodesPerSide v l) ∨
        ↑(morton3D_64_decode n.myCode).2.1 + (dirs d).Y < 0 ∨
        ↑(morton3D_64_decode n.myCode).2.1 + (dirs d).Y ≥ ↑(GetNodesPerSide v l) ∨
        ↑(morton3D_64_decode n.myCode).2.2 + (dirs d).Z < 0 ∨
        ↑(morton3D_64_decode n.myCode).2.2 + (dirs d).Z ≥ ↑(GetNodesPerSide v l)) := by
      unfold inCube neighbourCoord at hin
      simp only at hin
      omega
    rw [if_pos hcond, if_pos hin]
    rfl

/-- A successful scan returns a node of the visited list with the code looked
for. -/
theorem scan_sound (c : Nat) (hi : Bool) : ∀ (lst : List SVONNode) (idx j : Nat) (nd : SVONNode),
    FindLinkInDirection.scan c hi lst idx = some (some (j, nd)) →
      ∃ m, lst[m]? = some nd ∧ nd.myCode = c ∧ j = (if hi then idx + m else idx - m) := by
  intro lst
  induction lst with
  | nil => intro idx j nd h; simp [FindLinkInDirection.scan] at h
  | cons n rest ih =>
    intro idx j nd h
    unfold FindLinkInDirection.scan at h
    by_cases h1 : n.myCode = c
    · simp only [h1, if_true, Option.some.injEq, Prod.mk.injEq] at h
      obtain ⟨rfl, rfl⟩ := h
      exact ⟨0, by simp, h1, by split <;> rfl⟩
    · simp only [h1, if_false] at h
      split at h
      · simp at h
      · obtain ⟨m, hm1, hm2, hm3⟩ := ih _ j nd h
        refine ⟨m + 1, by simpa using hm1, hm2, ?_⟩
        cases hi <;> simp at hm3 ⊢ <;> omega

/-- Scanning upwards through ascending codes finds the code when it is
there. -/
theorem scan_complete_up (c : Nat) : ∀ (lst : List SVONNode) (idx m : Nat) (nd : SVONNode),
    (lst.map (·.myCode)).Pairwise (· < ·) → lst[m]? = some nd → nd.myCode = c →
      FindLinkInDirection.scan c true lst idx = some (some (idx + m, nd)) := by
  intro lst
  induction lst with
  | nil => intro idx m nd _ h; simp at h
  | cons n rest ih =>
    intro idx m nd hs hm hc
    simp only [List.map_cons, List.pairwise_cons] at hs
    unfold FindLinkInDirection.scan
    cases m with
    | zero =>
      simp at hm
      subst hm
      simp [hc]
    | succ m =>
      simp at hm
      have hlt : n.myCode < nd.myCode :=
        hs.1 nd.myCode (List.mem_map_of_mem _ (List.getElem?_mem hm))
      rw [if_neg (by omega)]
      simp only [Bool.true_and, Bool.not_true, Bool.false_and, Bool.or_false, decide_eq_true_eq]
      rw [if_neg (by omega)]
      simp only [if_true]
      rw [ih (idx + 1) m nd hs.2 hm hc]
      congr 3
      omega

/-- Scanning downwards through descending codes finds the code when it is
there. -/
theorem scan_complete_down (c : Nat) : ∀ (lst : List SVONNode) (idx m : Nat) (nd : SVONNode),
    (lst.map (·.myCode)).Pairwise (· > ·) → lst[m]? = some nd → nd.myCode = c →
      FindLinkInDirection.scan c false lst idx = some (some (idx - m, nd)) := by
  intro lst
  induction lst with
  | nil => intro idx m nd _ h; simp at h
  | cons n rest ih =>
    intro idx m nd hs hm hc
    simp only [List.map_cons, List.pairwise_cons] at hs
    unfold FindLinkInDirection.scan
    cases m with
    | zero =>
      simp at hm
      subst hm
      simp [hc]
    | succ m =>
      simp at hm
      have hlt : n.myCode > nd.myCode :=
        hs.1 nd.myCode (List.mem_map_of_mem _ (List.getElem?_mem hm))
      rw [if_neg (by omega)]
      simp only [Bool.false_and, Bool.not_false, Bool.true_and, Bool.false_or, decide_eq_true_eq]
      rw [if_neg (by omega)]
      simp only [Bool.false_eq_true, if_false]
      rw [ih (idx - 1) m nd hs.2 hm hc]
      congr 3
      omega

/-- Stepping in one of the six directions changes the code. -/
theorem neighbourCode_ne (c d side : Nat) (hd : d < 6) (hin : inCube side (neighbourCoord c d)) :
    neighbourCode c d ≠ c := by
  intro h
  have h1 := decode_encode (neighbourCoord c d).1.toNat (neighbourCoord c d).2.1.toNat
    (neighbourCoord c d).2.2.toNat
  unfold neighbourCode at h
  rw [h] at h1
  unfold inCube at hin
  unfold neighbourCoord at h1 hin
  simp only at h1 hin
  have e1 := congrArg Prod.fst h1
  have e2 := congrArg (fun t => t.2.1) h1
  have e3 := congrArg (fun t => t.2.2) h1
  simp only at e1 e2 e3
  have hdir : d = 0 ∨ d = 1 ∨ d = 2 ∨ d = 3 ∨ d = 4 ∨ d = 5 := by omega
  rcases hdir with rfl | rfl | rfl | rfl | rfl | rfl <;> simp only [dirs] at e1 e2 e3 hin <;> omega

/-- In a layer with strictly ascending codes, `FindLinkInDirection` finds the
node with the code of the neighbouring cell whenever the layer has one. -/
theorem FindLinkInDirection_found (v : ASVONVolume) (l k d : Nat) (link : SVONLink)
    (lay : List SVONNode) (n nd : SVONNode) (j : Nat)
    (hlay : v.myData.myLayers[l]? = some lay) (hn : lay[k]? = some n)
    (hs : (lay.map (·.myCode)).Pairwise (· < ·)) (hd : d < 6)
    (hin : inCube (GetNodesPerSide v l) (neighbourCoord n.myCode d))
    (hj : lay[j]? = some nd) (hc : nd.myCode = neighbourCode n.myCode d) :
    FindLinkInDirection v l k d link = foundLink v l j nd link := by
  rw [FindLinkInDirection_eq v l k d link lay n hlay hn, if_neg (not_not.2 hin)]
  have hne := neighbourCode_ne n.myCode d _ hd hin
  have hk := (List.getElem?_eq_some.1 hn).1
  have hjl := (List.getElem?_eq_some.1 hj).1
  have hpw := List.pairwise_iff_getElem.1 hs
  have hcode : ∀ a b (ha : a < lay.length) (hb : b < lay.length), a < b →
      lay[a].myCode < lay[b].myCode := by
    intro a b ha hb hab
    have := hpw a b (by simpa using ha) (by simpa using hb) hab
    simpa using this
  have hnk : lay[k] = n := (List.getElem?_eq_some.1 hn).2
  have hndj : lay[j] = nd := (List.getElem?_eq_some.1 hj).2
  by_cases hhi : neighbourCode n.myCode d > n.myCode
  · have hkj : k < j := by
      by_contra hcon
      rcases Nat.lt_or_ge j k with h1 | h1
      · have := hcode j k hjl hk h1
        rw [hnk, hndj] at this; omega
      · have : j = k := by omega
        subst this
        rw [hnk] at hndj; subst hndj; omega
    simp only [hhi, decide_True, if_true]
    rw [scan_complete_up _ (lay.drop (k + 1)) (k + 1) (j - (k + 1)) nd
      (by rw [List.map_drop]; exact hs.sublist (List.drop_sublist _ _))
      (by rw [List.getElem?_drop, show k + 1 + (j - (k + 1)) = j by omega]; exact hj) hc]
    simp only [show k + 1 + (j - (k + 1)) = j by omega]
  · have hjk : j < k := by
      by_contra hcon
      rcases Nat.lt_or_ge k j with h1 | h1
      · have := hcode k j hk hjl h1
        rw [hnk, hndj] at this; omega
      · have : j = k := by omega
        subst this
        rw [hnk] at hndj; subst hndj; omega
    simp only [hhi, decide_False, Bool.false_eq_true, if_false]
    have hrev : ((lay.take k).reverse)[k - 1 - j]? = some nd := by
      rw [List.getElem?_reverse (by simp; omega)]
      simp only [List.length_take]
      rw [List.getElem?_take_of_lt (by omega)]
      rw [show min k lay.length - 1 - (k - 1 - j) = j by omega]
      exact hj
    rw [scan_complete_down _ ((lay.take k).reverse) (k - 1) (k - 1 - j) nd
      (by
        rw [List.map_reverse, List.pairwise_reverse, List.map_take]
        exact (hs.sublist (List.take_sublist _ _)).imp (fun h => h)) hrev hc]
    simp only [show k - 1 - (k - 1 - j) = j by omega]

/-- When `FindLinkInDirection` reports failure, the layer has no node with
the code of the neighbouring cell, the cell lies in the volume and the link
is untouched; when it reports success, the link is invalid or names a node of
the layer with that code. -/
theorem FindLinkInDirection_result (v : ASVONVolume) (l k d : Nat) (link : SVONLink)
    (lay : List SVONNode) (n : SVONNode) (r : Bool × SVONLink)
    (hlay : v.myData.myLayers[l]? = some lay) (hn : lay[k]? = some n)
    (hs : (lay.map (·.myCode)).Pairwise (· < ·)) (hd : d < 6)
    (h : FindLinkInDirection v l k d link = .ok r) :
    (r.1 = false ∧ r.2 = link ∧ inCube (GetNodesPerSide v l) (neighbourCoord n.myCode d) ∧
      ∀ nd ∈ lay, nd.myCode ≠ neighbourCode n.myCode d) ∨
    (r.1 = true ∧ (r.2 = SVONLink.GetInvalidLink ∨
      (inCube (GetNodesPerSide v l) (neighbourCoord n.myCode d) ∧
        ∃ (j : Nat) (nd : SVONNode), lay[j]? = some nd ∧ nd.myCode = neighbourCode n.myCode d ∧
          r.2 = (link.SetLayerIndex l).SetNodeIndex j))) := by
  by_cases hin : inCube (GetNodesPerSide v l) (neighbourCoord n.myCode d)
  · by_cases hex : ∃ (j : Nat) (nd : SVONNode),
        lay[j]? = some nd ∧ nd.myCode = neighbourCode n.myCode d
    · obtain ⟨j, nd, hj, hc⟩ := hex
      rw [FindLinkInDirection_found v l k d link lay n nd j hlay hn hs hd hin hj hc] at h
      right
      unfold foundLink at h
      split at h
      · rw [bind_eq_ok] at h
        obtain ⟨leaf, _, h2⟩ := h
        split at h2
        · simp only [pure_eq_ok, Except.ok.injEq] at h2
          subst h2
          exact ⟨rfl, Or.inl rfl⟩
        · simp only [pure_eq_ok, Except.ok.injEq] at h2
          subst h2
          exact ⟨rfl, Or.inr ⟨hin, j, nd, hj, hc, rfl⟩⟩
      · simp only [pure_eq_ok, Except.ok.injEq] at h
        subst h
        exact ⟨rfl, Or.inr ⟨hin, j, nd, hj, hc, rfl⟩⟩
    · left
      rw [FindLinkInDirection_eq v l k d link lay n hlay hn, if_neg (not_not.2 hin)] at h
      have hnone : ∀ nd ∈ lay, nd.myCode ≠ neighbourCode n.myCode d := by
        intro nd hnd hc
        obtain ⟨j, hj⟩ := List.mem_iff_getElem?.1 hnd
        exact hex ⟨j, nd, hj, hc⟩
      split at h
      · rename_i j thisNode hscan
        exfalso
        obtain ⟨m, hm1, hm2, _⟩ := scan_sound _ _ _ _ _ _ hscan
        have hmem : thisNode ∈ lay := by
          split at hm1
          · exact List.mem_of_mem_drop (List.getElem?_mem hm1)
          · exact List.mem_of_mem_take (List.mem_reverse.1 (List.getElem?_mem hm1))
        exact hnone thisNode hmem hm2
      · simp only [Except.ok.injEq] at h
        subst h
        exact ⟨rfl, rfl, hin, hnone⟩
  · rw [FindLinkInDirection_eq v l k d link lay n hlay hn, if_pos hin] at h
    simp only [Except.ok.injEq] at h
    subst h
    exact Or.inr ⟨rfl, Or.inl rfl⟩

end Search

/-! ## Facts about the rasterized volume -/

section Facts

theorem rasterized_layer (vp : Nat) (sets : List (List Nat)) (o : Oracle) (xs : List SVONLeafNode)
    (l : Nat) (hl : l ≤ vp) :
    (rasterized vp sets o xs).myData.myLayers[l]? =
      some ((layerCodes vp sets l).map (refNode vp sets o (vp + 1) l)) := by
  simp only [rasterized, withLeaves_layers, withLayers_layers]
  rw [getElem?_refLayers, if_pos hl, if_pos (by omega)]

theorem rasterized_layer_none (vp : Nat) (sets : List (List Nat)) (o : Oracle)
    (xs : List SVONLeafNode) (l : Nat) (hl : vp < l) :
    (rasterized vp sets o xs).myData.myLayers[l]? = none := by
  simp only [rasterized, withLeaves_layers, withLayers_layers]
  rw [getElem?_refLayers, if_neg (by omega)]

theorem nodeAt_rasterized {vp : Nat} {sets : List (List Nat)} {o : Oracle} {xs : List SVONLeafNode}
    {l k : Nat} {n : SVONNode} (h : nodeAt (rasterized vp sets o xs) l k = .ok n) :
    l ≤ vp ∧ (layerCodes vp sets l)[k]? = some n.myCode ∧
      n = refNode vp sets o (vp + 1) l n.myCode := by
  rw [nodeAt_eq_ok] at h
  obtain ⟨lay, h1, h2⟩ := h
  by_cases hl : l ≤ vp
  · rw [rasterized_layer _ _ _ _ _ hl] at h1
    simp only [Option.some.injEq] at h1
    subst h1
    rw [List.getElem?_map] at h2
    cases hk : (layerCodes vp sets l)[k]? with
    | none => rw [hk] at h2; simp at h2
    | some i =>
      rw [hk] at h2
      simp only [Option.map_some', Option.some.injEq] at h2
      subst h2
      rw [refNode_code]
      exact ⟨hl, rfl, rfl⟩
  · rw [rasterized_layer_none _ _ _ _ _ (by omega)] at h1
    exact Option.noConfusion h1

theorem nodeAt_rasterized_of {vp : Nat} {sets : List (List Nat)} {o : Oracle}
    {xs : List SVONLeafNode} {l k i : Nat} (hl : l ≤ vp)
    (h : (layerCodes vp sets l)[k]? = some i) :
    nodeAt (rasterized vp sets o xs) l k = .ok (refNode vp sets o (vp + 1) l i) := by
  rw [nodeAt_eq_ok]
  refine ⟨_, rasterized_layer _ _ _ _ _ hl, ?_⟩
  rw [List.getElem?_map, h]; rfl

theorem codes_rasterized_layer (vp : Nat) (sets : List (List Nat)) (o : Oracle) (l : Nat) :
    ((layerCodes vp sets l).map (refNode vp sets o (vp + 1) l)).map (·.myCode) =
      layerCodes vp sets l := by
  rw [List.map_map]
  have : ((fun x => x.myCode) ∘ refNode vp sets o (vp + 1) l) = id := by
    funext i; simp [refNode_code]
  rw [this, List.map_id]

theorem mem_layerCodes {vp : Nat} {sets : List (List Nat)} {l i : Nat} :
    i ∈ layerCodes vp sets l ↔ i < 8 ^ (vp - l) ∧ layerQ vp sets l (i / 8) = true := by
  rw [layerCodes_eq, mem_filter_range]

/-- Below the root, a layer holds the eight children of a cell or none of
them. -/
theorem siblings_layerCodes {vp : Nat} {sets : List (List Nat)} {l i j : Nat} (hl : l < vp)
    (hi : i ∈ layerCodes vp sets l) (hij : j / 8 = i / 8) : j ∈ layerCodes vp sets l := by
  rw [mem_layerCodes] at hi ⊢
  have h8 : 8 ^ (vp - l) = 8 * 8 ^ (vp - l - 1) := by
    rw [show vp - l = (vp - l - 1) + 1 by omega, Nat.pow_succ, Nat.mul_comm]
    simp
  rw [hij]
  refine ⟨?_, hi.2⟩
  rw [h8] at hi ⊢
  omega

theorem length_gt_one_of_mem {vp : Nat} {sets : List (List Nat)} {l i : Nat} (hl : l < vp)
    (hi : i ∈ layerCodes vp sets l) : 1 < (layerCodes vp sets l).length := by
  have h1 : 8 * (i / 8) ∈ layerCodes vp sets l := siblings_layerCodes hl hi (by omega)
  have h2 : 8 * (i / 8) + 1 ∈ layerCodes vp sets l := siblings_layerCodes hl hi (by omega)
  generalize layerCodes vp sets l = L at h1 h2
  match L, h1, h2 with
  | [], h1, _ => simp at h1
  | [a], h1, h2 =>
    simp at h1 h2
    omega
  | _ :: _ :: _, _, _ => simp

theorem contains_iff_mem (s : List Nat) (a : Nat) : s.contains a = true ↔ a ∈ s := by
  simp

/-- In a completed build every node below the root has its parent in the
layer above, and its parent link names that node. -/
theorem parent_rasterized {vp : Nat} {sets : List (List Nat)} (o : Oracle) {l i : Nat}
    (hch : Chain sets) (hcomp : Completed vp sets) (hl : l < vp)
    (hi : i ∈ layerCodes vp sets l) :
    (layerCodes vp sets (l + 1))[(List.range (i / 8)).countP
        (fun j => blockedQ sets (l + 1) (j >>> 3))]? = some (i / 8) ∧
      (refNode vp sets o (vp + 1) l i).myParent =
        SVONLink.make (l + 1)
          ((List.range (i / 8)).countP (fun j => blockedQ sets (l + 1) (j >>> 3))) 0 := by
  have hlen := length_gt_one_of_mem hl hi
  have hle : l + 1 ≤ sets.length := hcomp (l + 1) (by omega) (by omega) (by simpa using hlen)
  have hmem := mem_layerCodes.1 hi
  have h8 : 8 ^ (vp - l) = 8 * 8 ^ (vp - (l + 1)) := by
    rw [show vp - l = (vp - (l + 1)) + 1 by omega, Nat.pow_succ, Nat.mul_comm]
  have hlt : i / 8 < 8 ^ (vp - (l + 1)) := by
    have := hmem.1
    rw [h8] at this
    omega
  have hP : blockedQ sets (l + 1) ((i / 8) >>> 3) = true := by
    unfold blockedQ
    by_cases hlast : l + 1 = sets.length
    · simp [hlast]
    · have hlt2 : l + 1 < sets.length := by omega
      have hq := hmem.2
      unfold layerQ blockedQ at hq
      simp only [Bool.and_eq_true, Bool.or_eq_true, decide_eq_true_eq] at hq
      have hin : i / 8 ∈ sets.getD l [] := by
        rcases hq.2 with h | h
        · omega
        · exact (contains_iff_mem _ _).1 h
      have hs : sets[l]? = some (sets.getD l []) := by
        rw [List.getD_eq_getElem?_getD, List.getElem?_eq_getElem (by omega)]; rfl
      have ht : sets[l + 1]? = some (sets.getD (l + 1) []) := by
        rw [List.getD_eq_getElem?_getD, List.getElem?_eq_getElem hlt2]; rfl
      have := (hch l _ _ hs ht).1 ((i / 8) >>> 3)
      simp only [Bool.or_eq_true, decide_eq_true_eq]
      right
      exact (contains_iff_mem _ _).2 (this.2 ⟨i / 8, hin, rfl⟩)
  constructor
  · simp only [layerCodes, hlen, if_true]
    exact getElem?_filter_range _ _ _ hlt hP
  · unfold refNode
    simp only [show l + 1 < vp + 1 by omega, hlen, and_self, if_true]
    have hbase : ∀ b : SVONNode, b.myCode = i → b.myParent = SVONLink.GetInvalidLink →
        (parentAfter (l + 1) (fun j => blockedQ sets (l + 1) (j >>> 3)) (8 ^ (vp - (l + 1)))
          b).myParent = SVONLink.make (l + 1)
          ((List.range (i / 8)).countP (fun j => blockedQ sets (l + 1) (j >>> 3))) 0 := by
      intro b hb1 hb2
      unfold parentAfter
      rw [hb1, if_pos ⟨hlt, hP⟩]
      simp [setParent, hb2, SVONLink.SetLayerIndex, SVONLink.SetNodeIndex, SVONLink.make,
        SVONLink.GetInvalidLink]
    cases l with
    | zero => exact hbase _ rfl rfl
    | succ k => exact hbase _ rfl rfl

/-- The root layer has room for the code 0 only, and every step from it
leaves the volume. -/
theorem root_not_inCube {vp : Nat} {sets : List (List Nat)} {i d : Nat}
    (hi : i ∈ layerCodes vp sets vp) (hd : d < 6) : ¬ inCube 1 (neighbourCoord i d) := by
  have := (mem_layerCodes.1 hi).1
  simp at this
  subst this
  have hdir : d = 0 ∨ d = 1 ∨ d = 2 ∨ d = 3 ∨ d = 4 ∨ d = 5 := by omega
  have h0 : morton3D_64_decode 0 = (0, 0, 0) := by decide
  unfold inCube neighbourCoord
  rw [h0]
  rcases hdir with rfl | rfl | rfl | rfl | rfl | rfl <;> simp [dirs]

theorem GetNodesPerSide_rasterized (vp : Nat) (sets : List (List Nat)) (o : Oracle)
    (xs : List SVONLeafNode) (l : Nat) (hl : l ≤ vp) :
    GetNodesPerSide (rasterized vp sets o xs) l = 2 ^ (vp - l) := by
  unfold GetNodesPerSide
  simp [rasterized, prepared, hl]

theorem encode_div_pow (m x y z : Nat) :
    morton3D_64_encode x y z / 8 ^ m = morton3D_64_encode (x / 2 ^ m) (y / 2 ^ m) (z / 2 ^ m) := by
  induction m generalizing x y z with
  | zero => simp
  | succ m ih =>
    rw [Nat.pow_succ, ← Nat.div_div_eq_div_mul, ih, encode_div_eight, Nat.pow_succ,
      ← Nat.div_div_eq_div_mul, ← Nat.div_div_eq_div_mul, ← Nat.div_div_eq_div_mul]

end Facts

/-! ## The climb -/

section Climb

theorem getElem?_rasterized_layer {vp : Nat} {sets : List (List Nat)} {o : Oracle} {l j : Nat}
    {nd : SVONNode}
    (h : ((layerCodes vp sets l).map (refNode vp sets o (vp + 1) l))[j]? = some nd) :
    (layerCodes vp sets l)[j]? = some nd.myCode := by
  rw [getElem?_codes (codes_rasterized_layer vp sets o l), h]; rfl

theorem neighbourCode_of_coord {a d qx qy qz : Nat}
    (h : neighbourCoord a d = ((qx : Int), (qy : Int), (qz : Int))) :
    neighbourCode a d = morton3D_64_encode qx qy qz := by
  unfold neighbourCode
  rw [h]
  simp

/-- The climb on a completed rasterized volume, started at an ancestor of the
node whose link is computed, returns the invalid link or a link to the node
whose code is the code of the neighbouring cell shifted right by three bits
per layer climbed. -/
theorem climb_sound {vp : Nat} {sets : List (List Nat)} (o : Oracle) (xs : List SVONLeafNode)
    (hch : Chain sets) (hcomp : Completed vp sets) (L d c0 qx qy qz : Nat) (hd : d < 6) :
    ∀ (fuel m idx a : Nat) (r : SVONLink), L + m ≤ vp →
      (layerCodes vp sets (L + m))[idx]? = some a →
      neighbourCoord a d = (((qx / 2 ^ m : Nat) : Int), ((qy / 2 ^ m : Nat) : Int),
        ((qz / 2 ^ m : Nat) : Int)) →
      BuildNeighbourLinks.climb (rasterized vp sets o xs) L c0 d fuel (L + m) idx
        SVONLink.GetInvalidLink = .ok r →
      r = SVONLink.GetInvalidLink ∨
        ∃ m' j, m ≤ m' ∧ L + m' ≤ vp ∧ r = SVONLink.make (L + m') j 0 ∧
          (layerCodes vp sets (L + m'))[j]? = some (morton3D_64_encode qx qy qz / 8 ^ m') := by
  intro fuel
  induction fuel with
  | zero =>
    intro m idx a r hm ha hinv h
    unfold BuildNeighbourLinks.climb at h
    rw [bind_eq_ok] at h
    obtain ⟨r1, hf, h⟩ := h
    have hlay := rasterized_layer vp sets o xs (L + m) hm
    have hn : ((layerCodes vp sets (L + m)).map (refNode vp sets o (vp + 1) (L + m)))[idx]? =
        some (refNode vp sets o (vp + 1) (L + m) a) := by
      rw [List.getElem?_map, ha]; rfl
    have hs : (((layerCodes vp sets (L + m)).map (refNode vp sets o (vp + 1) (L + m))).map
        (·.myCode)).Pairwise (· < ·) := by
      rw [codes_rasterized_layer]; exact pairwise_layerCodes _ _ _
    rcases FindLinkInDirection_result _ _ _ _ _ _ _ r1 hlay hn hs hd hf with
      ⟨h1, h2, _, _⟩ | ⟨h1, h2⟩
    · split at h
      · exact Except.noConfusion h
      · simp only [pure_eq_ok, Except.ok.injEq] at h
        left; rw [← h, h2]
    · rw [if_neg (by simp [h1])] at h
      simp only [pure_eq_ok, Except.ok.injEq] at h
      subst h
      rcases h2 with h2 | ⟨_, j, nd, hj, hc, h2⟩
      · exact Or.inl h2
      · right
        refine ⟨m, j, Nat.le_refl _, hm, ?_, ?_⟩
        · rw [h2]; rfl
        · rw [getElem?_rasterized_layer hj, hc, refNode_code, neighbourCode_of_coord hinv,
            encode_div_pow]
  | succ fuel ih =>
    intro m idx a r hm ha hinv h
    unfold BuildNeighbourLinks.climb at h
    rw [bind_eq_ok] at h
    obtain ⟨r1, hf, h⟩ := h
    have hlay := rasterized_layer vp sets o xs (L + m) hm
    have hn : ((layerCodes vp sets (L + m)).map (refNode vp sets o (vp + 1) (L + m)))[idx]? =
        some (refNode vp sets o (vp + 1) (L + m) a) := by
      rw [List.getElem?_map, ha]; rfl
    have hs : (((layerCodes vp sets (L + m)).map (refNode vp sets o (vp + 1) (L + m))).map
        (·.myCode)).Pairwise (· < ·) := by
      rw [codes_rasterized_layer]; exact pairwise_layerCodes _ _ _
    rcases FindLinkInDirection_result _ _ _ _ _ _ _ r1 hlay hn hs hd hf with
      ⟨h1, h2, h3, h4⟩ | ⟨h1, h2⟩
    · split at h
      · -- the search moves to the parent
        rw [refNode_code] at h3 h4
        have hamem : a ∈ layerCodes vp sets (L + m) := List.getElem?_mem ha
        have hlt : L + m < vp := by
          by_contra hcon
          have heq : L + m = vp := by omega
          rw [GetNodesPerSide_rasterized _ _ _ _ _ hm, heq, Nat.sub_self] at h3
          rw [heq] at hamem
          exact root_not_inCube hamem hd h3
        obtain ⟨hp1, hp2⟩ := parent_rasterized o hch hcomp hlt hamem
        simp only at h
        rw [nodeAt_rasterized_of hm ha] at h
        simp only [bind_ok, hp2] at h
        rw [if_pos (by rfl)] at h
        simp only [SVONLink.make] at h
        rw [h2] at h
        -- the neighbouring cell is not a sibling
        have hns : neighbourCode a d / 8 ≠ a / 8 := by
          intro heq
          have hmem := siblings_layerCodes hlt hamem heq
          obtain ⟨j, hj⟩ := List.mem_iff_getElem?.1 hmem
          have : ((layerCodes vp sets (L + m)).map (refNode vp sets o (vp + 1) (L + m)))[j]? =
              some (refNode vp sets o (vp + 1) (L + m) (neighbourCode a d)) := by
            rw [List.getElem?_map, hj]; rfl
          exact h4 _ (List.getElem?_mem this) (refNode_code _ _ _ _ _ _)
        rw [neighbourCode_of_coord hinv, encode_div_eight] at hns
        have hdec := encode_decode a
        have ha8 : a / 8 = morton3D_64_encode ((morton3D_64_decode a).1 / 2)
            ((morton3D_64_decode a).2.1 / 2) ((morton3D_64_decode a).2.2 / 2) := by
          conv => lhs; rw [← hdec]
          rw [encode_div_eight]
        have hinv2 : neighbourCoord (a / 8) d =
            (((qx / 2 ^ (m + 1) : Nat) : Int), ((qy / 2 ^ (m + 1) : Nat) : Int),
              ((qz / 2 ^ (m + 1) : Nat) : Int)) := by
          unfold neighbourCoord at hinv ⊢
          rw [decode_div_eight]
          simp only [Prod.mk.injEq] at hinv ⊢
          rw [Nat.pow_succ, ← Nat.div_div_eq_div_mul, ← Nat.div_div_eq_div_mul,
            ← Nat.div_div_eq_div_mul]
          rw [ha8] at hns
          generalize (morton3D_64_decode a).1 = x at hinv hns ⊢
          generalize (morton3D_64_decode a).2.1 = y at hinv hns ⊢
          generalize (morton3D_64_decode a).2.2 = z at hinv hns ⊢
          generalize qx / 2 ^ m = Qx at hinv hns ⊢
          generalize qy / 2 ^ m = Qy at hinv hns ⊢
          generalize qz / 2 ^ m = Qz at hinv hns ⊢
          have hne : ¬ (Qx / 2 = x / 2 ∧ Qy / 2 = y / 2 ∧ Qz / 2 = z / 2) := by
            rintro ⟨e1, e2, e3⟩
            rw [e1, e2, e3] at hns
            exact hns rfl
          have hdir : d = 0 ∨ d = 1 ∨ d = 2 ∨ d = 3 ∨ d = 4 ∨ d = 5 := by omega
          rcases hdir with rfl | rfl | rfl | rfl | rfl | rfl <;>
            simp only [dirs] at hinv ⊢ <;> omega
        rcases ih (m + 1) _ (a / 8) r (by omega) hp1 hinv2 h with h5 | ⟨m', j, h5, h6, h7, h8⟩
        · exact Or.inl h5
        · exact Or.inr ⟨m', j, by omega, h6, h7, h8⟩
      · simp only [pure_eq_ok, Except.ok.injEq] at h
        left; rw [← h, h2]
    · rw [if_neg (by simp [h1])] at h
      simp only [pure_eq_ok, Except.ok.injEq] at h
      subst h
      rcases h2 with h2 | ⟨_, j, nd, hj, hc, h2⟩
      · exact Or.inl h2
      · right
        refine ⟨m, j, Nat.le_refl _, hm, ?_, ?_⟩
        · rw [h2]; rfl
        · rw [getElem?_rasterized_layer hj, hc, refNode_code, neighbourCode_of_coord hinv,
            encode_div_pow]

/-- When the first search succeeds, the climb returns its link whatever the
fuel. -/
theorem climb_of_found (v : ASVONVolume) (aLayer aCode d fuel sl idx : Nat) (link r : SVONLink)
    (h : FindLinkInDirection v sl idx d link = .ok (true, r)) :
    BuildNeighbourLinks.climb v aLayer aCode d fuel sl idx link = .ok r := by
  unfold BuildNeighbourLinks.climb
  rw [h]
  simp

end Climb

/-! ## Completed builds -/

section Builds

theorem refNode_neighbours (vp : Nat) (sets : List (List Nat)) (o : Oracle) (L l i : Nat) :
    (refNode vp sets o L l i).myNeighbours = List.replicate 6 SVONLink.GetInvalidLink := by
  unfold refNode
  simp only
  have hpa : ∀ (b : SVONNode) (a : Nat) (p : Nat → Bool) (N : Nat),
      (parentAfter a p N b).myNeighbours = b.myNeighbours := by
    intro b a p N
    unfold parentAfter setParent
    split <;> rfl
  split
  · rw [hpa]
    cases l <;> rfl
  · cases l <;> rfl

theorem refNode_firstChild_stage (vp : Nat) (sets : List (List Nat)) (o : Oracle) (L l i : Nat) :
    (refNode vp sets o L l i).myFirstChild = (refNode vp sets o 0 l i).myFirstChild := by
  unfold refNode
  simp only
  have hpa : ∀ (b : SVONNode) (a : Nat) (p : Nat → Bool) (N : Nat),
      (parentAfter a p N b).myFirstChild = b.myFirstChild := by
    intro b a p N
    unfold parentAfter setParent
    split <;> rfl
  rw [if_neg (show ¬ (l + 1 < 0 ∧ 1 < (layerCodes vp sets l).length) by omega)]
  split
  · rw [hpa]
  · rfl

/-- Two volumes with the same skeleton have the same nodes up to the
neighbour links. -/
theorem node_of_skeleton {a b : ASVONVolume} (h : skeleton a = skeleton b) {l k : Nat}
    {n : SVONNode} (hn : nodeAt a l k = .ok n) :
    ∃ n', nodeAt b l k = .ok n' ∧ n'.myCode = n.myCode ∧ n'.myFirstChild = n.myFirstChild ∧
      n'.myParent = n.myParent := by
  have h1 : nodeAt (skeleton a) l k = .ok (strip n) := by
    rw [nodeAt_skeleton, hn]; rfl
  rw [h, nodeAt_skeleton] at h1
  cases hb : nodeAt b l k with
  | error e => rw [hb] at h1; exact Except.noConfusion h1
  | ok n' =>
    rw [hb] at h1
    simp only [Except.map, Except.ok.injEq] at h1
    exact ⟨n', rfl, (strip_eq_iff _ _).1 h1⟩

theorem leaves_of_skeleton {a b : ASVONVolume} (h : skeleton a = skeleton b) :
    a.myData.myLeafNodes = b.myData.myLeafNodes := by
  have := congrArg (fun v => v.myData.myLeafNodes) h
  simpa [skeleton] using this

theorem power_of_skeleton {a b : ASVONVolume} (h : skeleton a = skeleton b) :
    a.myVoxelPower = b.myVoxelPower := by
  have := congrArg (fun v => v.myVoxelPower) h
  simpa [skeleton] using this

theorem numLayers_of_skeleton {a b : ASVONVolume} (h : skeleton a = skeleton b) :
    a.myNumLayers = b.myNumLayers := by
  have := congrArg (fun v => v.myNumLayers) h
  simpa [skeleton] using this

/-- Within the `int32` range, every rasterization that returns leaves the
rasterized volume in closed form. -/
theorem rasterize_eq (v : ASVONVolume) (o : Oracle) (w : ASVONVolume)
    (hvp : v.myVoxelPower ≤ 10) (h : Generate.rasterize v o = .ok w) :
    ∃ sets xs, SetsOK v.myVoxelPower o sets ∧ Completed v.myVoxelPower sets ∧
      LeafFacts v.myVoxelPower sets o xs ∧ w = rasterized v.myVoxelPower sets o xs := by
  obtain ⟨sets, hsets, _, xs, hw, hleaf, _, hcomp⟩ := rasterize_closed v o w hvp h
  exact ⟨sets, xs, hsets, fun l h1 h2 h3 => hcomp l h1 (by omega) h3, hleaf (by omega), hw⟩

/-- Every build that returns, within the `int32` range: the rasterized volume
has the closed form, the final volume has the same skeleton, and each
neighbour link of a node below the root is the result of the climb on the
rasterized volume. -/
theorem run_eq (v : ASVONVolume) (o : Oracle) (w : ASVONVolume) (hvp : v.myVoxelPower ≤ 10)
    (h : Generate.run v o = .ok w) :
    ∃ sets xs, SetsOK v.myVoxelPower o sets ∧ Completed v.myVoxelPower sets ∧
      LeafFacts v.myVoxelPower sets o xs ∧
      Generate.rasterize v o = .ok (rasterized v.myVoxelPower sets o xs) ∧
      skeleton w = skeleton (rasterized v.myVoxelPower sets o xs) ∧
      ∀ l k n d, l < v.myVoxelPower → d < 6 → nodeAt w l k = .ok n →
        BuildNeighbourLinks.climb (rasterized v.myVoxelPower sets o xs) l n.myCode d
          (v.myVoxelPower + 1) l k SVONLink.GetInvalidLink = .ok (n.neighbour d) := by
  unfold Generate.run at h
  rw [bind_eq_ok] at h
  obtain ⟨w4, hr, h⟩ := h
  obtain ⟨sets, xs, hsets, hcomp, hleaf, rfl⟩ := rasterize_eq v o w4 hvp hr
  have hdef : ∀ l k n, nodeAt (rasterized v.myVoxelPower sets o xs) l k = .ok n →
      n.myNeighbours = List.replicate 6 SVONLink.GetInvalidLink := by
    intro l k n hn
    rw [(nodeAt_rasterized hn).2.2, refNode_neighbours]
  obtain ⟨hskel, hlinks⟩ := links_closed _ w hdef h
  refine ⟨sets, xs, hsets, hcomp, hleaf, hr, hskel, ?_⟩
  intro l k n d hl hd hn
  exact hlinks l k n d (by simp [rasterized, prepared]; omega) hd hn

end Builds

/-! ## Voxel powers beyond the `int32` range

From voxel power 11 on the number of layer-0 cells is outside the `int32`
range: the loop of layer 0 does not run, no layer receives a node, and
`Generate` returns the prepared state. -/

section Beyond

theorem foldlM_fixed {α : Type} (f : ASVONVolume → α → Except Fault ASVONVolume) (s : ASVONVolume)
    (l : List α) (h : ∀ x ∈ l, f s x = .ok s) : l.foldlM f s = .ok s := by
  induction l with
  | nil => rfl
  | cons x l ih =>
    rw [List.foldlM_cons, h x (List.mem_cons_self _ _)]
    exact ih (fun y hy => h y (List.mem_cons_of_mem _ hy))

theorem GetLayer_prepared (vp : Nat) (sets : List (List Nat)) (l : Nat) (hl : l ≤ vp) :
    GetLayer (prepared vp sets) l = .ok [] := by
  rw [GetLayer_eq_ok]
  simp [prepared, List.getElem?_replicate]
  omega

/-- The prepared state has no node. -/
theorem nodeAt_prepared (vp : Nat) (sets : List (List Nat)) (l k : Nat) (n : SVONNode) :
    nodeAt (prepared vp sets) l k ≠ .ok n := by
  intro h
  obtain ⟨layer, h1, h2⟩ := nodeAt_eq_ok.1 h
  simp only [prepared, List.getElem?_replicate] at h1
  split at h1
  · simp only [Option.some.injEq] at h1
    subst h1
    simp at h2
  · exact Option.noConfusion h1

/-- Beyond the `int32` range the loop of no layer runs: that of layer 0
because of its bound, those above because the layer below is empty. -/
theorem RasterizeLayer_beyond (vp : Nat) (sets : List (List Nat)) (o : Oracle) (l : Nat)
    (hvp : 10 < vp) (hl : l ≤ vp) :
    RasterizeLayer (prepared vp sets) o l = .ok (prepared vp sets) := by
  unfold RasterizeLayer
  cases l with
  | zero =>
    rw [if_pos rfl, GetNodesInLayer_big _ _ (by simpa [prepared] using hvp)]
    rfl
  | succ k =>
    rw [if_neg (by omega), GetLayer_prepared vp sets _ (by omega)]
    rfl

/-- In the prepared state `BuildNeighbourLinks` has no node to visit. -/
theorem BuildNeighbourLinks_prepared (vp : Nat) (sets : List (List Nat)) (L : Nat) (hL : L ≤ vp) :
    BuildNeighbourLinks (prepared vp sets) L = .ok (prepared vp sets) := by
  unfold BuildNeighbourLinks
  rw [GetLayer_prepared vp sets L hL]
  rfl

/-- Beyond the `int32` range `Generate` returns, whatever the oracle, and
leaves the prepared state: `voxelPower + 1` layers without a node. -/
theorem run_beyond (v : ASVONVolume) (o : Oracle) (hvp : 10 < v.myVoxelPower) :
    ∃ sets, sets.head? = some (firstSet v.myVoxelPower o) ∧
      Generate.prepare v o = .ok (prepared v.myVoxelPower sets) ∧
      Generate.rasterize v o = .ok (prepared v.myVoxelPower sets) ∧
      Generate.run v o = .ok (prepared v.myVoxelPower sets) := by
  obtain ⟨rest, hprep, _, _, _⟩ := prepare_spec v o
  have hrast : Generate.rasterize v o =
      .ok (prepared v.myVoxelPower (firstSet v.myVoxelPower o :: rest)) := by
    unfold Generate.rasterize
    rw [hprep]
    simp only [bind_ok]
    apply foldlM_fixed
    intro l hl
    exact RasterizeLayer_beyond _ _ o l hvp (by simpa [prepared, Nat.lt_succ_iff] using hl)
  refine ⟨firstSet v.myVoxelPower o :: rest, rfl, hprep, hrast, ?_⟩
  unfold Generate.run
  rw [hrast]
  simp only [bind_ok]
  apply foldlM_fixed
  intro L hL
  have := List.mem_range.1 (List.mem_reverse.1 hL)
  exact BuildNeighbourLinks_prepared _ _ L (by simp [prepared] at this; omega)

/-- Beyond the `int32` range the rasterized volume and the final volume are
the prepared state. -/
theorem eq_prepared_beyond (v : ASVONVolume) (o : Oracle) (w : ASVONVolume)
    (hvp : 10 < v.myVoxelPower)
    (h : Generate.rasterize v o = .ok w ∨ Generate.run v o = .ok w) :
    ∃ sets, w = prepared v.myVoxelPower sets := by
  obtain ⟨sets, _, _, hrast, hrun⟩ := run_beyond v o hvp
  refine ⟨sets, ?_⟩
  rcases h with h | h
  · rw [hrast] at h
    exact (Except.ok.inj h).symm
  · rw [hrun] at h
    exact (Except.ok.inj h).symm

/-- A build with a node is a build within the `int32` range. -/
theorem power_le_of_node (v : ASVONVolume) (o : Oracle) (w : ASVONVolume)
    (h : Generate.rasterize v o = .ok w ∨ Generate.run v o = .ok w) (l k : Nat) (n : SVONNode)
    (hn : nodeAt w l k = .ok n) : v.myVoxelPower ≤ 10 := by
  by_contra hvp
  obtain ⟨sets, rfl⟩ := eq_prepared_beyond v o w (by omega) h
  exact nodeAt_prepared _ _ l k n hn

end Beyond

/-! ## Order of the layers and links between parents and children -/

section Structure

theorem layer_of_skeleton {a b : ASVONVolume} (h : skeleton a = skeleton b) {l : Nat}
    {lay : List SVONNode} (hl : a.myData.myLayers[l]? = some lay) :
    ∃ lay', b.myData.myLayers[l]? = some lay' ∧ lay'.map (·.myCode) = lay.map (·.myCode) := by
  have h1 := getElem?_skeleton a l
  rw [h, getElem?_skeleton, hl] at h1
  cases hb : b.myData.myLayers[l]? with
  | none => rw [hb] at h1; simp at h1
  | some lay' =>
    rw [hb] at h1
    simp only [Option.map_some', Option.some.injEq] at h1
    refine ⟨lay', rfl, ?_⟩
    have := congrArg (List.map (·.myCode)) h1
    simpa [List.map_map, Function.comp, strip] using this

theorem sorted_rasterized (vp : Nat) (sets : List (List Nat)) (o : Oracle) (xs : List SVONLeafNode)
    (l : Nat) (lay : List SVONNode)
    (h : (rasterized vp sets o xs).myData.myLayers[l]? = some lay) :
    (lay.map (·.myCode)).Pairwise (· < ·) := by
  by_cases hl : l ≤ vp
  · rw [rasterized_layer _ _ _ _ _ hl] at h
    simp only [Option.some.injEq] at h
    subst h
    rw [codes_rasterized_layer]
    exact pairwise_layerCodes _ _ _
  · rw [rasterized_layer_none _ _ _ _ _ (by omega)] at h
    exact Option.noConfusion h

/-- C2. Once `RasterizeLayer` has run for every layer, and likewise at the end
of a build that returns, the codes of the nodes of every layer are strictly
ascending along the array: no two nodes of a layer share a code. -/
theorem layers_strictly_ascending (v : ASVONVolume) (o : Oracle) (w : ASVONVolume)
    (h : Generate.rasterize v o = .ok w ∨ Generate.run v o = .ok w) :
    ∀ layer ∈ w.myData.myLayers, ∀ (a b : Nat) (na nb : SVONNode), a < b →
      layer[a]? = some na → layer[b]? = some nb → na.myCode < nb.myCode := by
  have key : ∀ layer ∈ w.myData.myLayers, (layer.map (·.myCode)).Pairwise (· < ·) := by
    intro layer hmem
    obtain ⟨l, hl⟩ := List.mem_iff_getElem?.1 hmem
    by_cases hvp : v.myVoxelPower ≤ 10
    · rcases h with h | h
      · obtain ⟨sets, xs, _, _, _, rfl⟩ := rasterize_eq v o w hvp h
        exact sorted_rasterized _ _ _ _ l layer hl
      · obtain ⟨sets, xs, _, _, _, _, hskel, _⟩ := run_eq v o w hvp h
        obtain ⟨lay2, h1, h2⟩ := layer_of_skeleton hskel hl
        rw [← h2]
        exact sorted_rasterized _ _ _ _ l lay2 h1
    · obtain ⟨sets, rfl⟩ := eq_prepared_beyond v o w (by omega) h
      have hnil : layer = [] := by simpa [prepared] using hmem
      rw [hnil]
      exact List.Pairwise.nil
  intro layer hmem a b na nb hab ha hb
  obtain ⟨ha1, ha2⟩ := List.getElem?_eq_some.1 ha
  obtain ⟨hb1, hb2⟩ := List.getElem?_eq_some.1 hb
  have := List.pairwise_iff_getElem.1 (key layer hmem) a b (by simpa using ha1)
    (by simpa using hb1) hab
  simpa [ha2, hb2] using this

theorem layerCodes_succ_of_mem {vp : Nat} {sets : List (List Nat)} {l i : Nat}
    (hi : i ∈ layerCodes vp sets (l + 1)) :
    layerCodes vp sets (l + 1) =
      (List.range (8 ^ (vp - (l + 1)))).filter (fun j => blockedQ sets (l + 1) (j >>> 3)) := by
  simp only [layerCodes] at hi ⊢
  split
  · rfl
  · rename_i h
    rw [if_neg h] at hi
    simp at hi

/-- The parent link of a node whose parent cell is a node of the layer
above. -/
theorem parent_of_mem {vp : Nat} {sets : List (List Nat)} (o : Oracle) {l i : Nat} (hl : l < vp)
    (hi : i ∈ layerCodes vp sets l) (hp : i / 8 ∈ layerCodes vp sets (l + 1)) :
    (refNode vp sets o (vp + 1) l i).myParent =
      SVONLink.make (l + 1)
        ((List.range (i / 8)).countP (fun j => blockedQ sets (l + 1) (j >>> 3))) 0 := by
  have hlen := length_gt_one_of_mem hl hi
  rw [layerCodes_succ_of_mem hp, mem_filter_range] at hp
  unfold refNode
  simp only [show l + 1 < vp + 1 by omega, hlen, and_self, if_true]
  have hbase : ∀ b : SVONNode, b.myCode = i → b.myParent = SVONLink.GetInvalidLink →
      (parentAfter (l + 1) (fun j => blockedQ sets (l + 1) (j >>> 3)) (8 ^ (vp - (l + 1)))
        b).myParent = SVONLink.make (l + 1)
        ((List.range (i / 8)).countP (fun j => blockedQ sets (l + 1) (j >>> 3))) 0 := by
    intro b hb1 hb2
    unfold parentAfter
    rw [hb1, if_pos hp]
    simp [setParent, hb2, SVONLink.SetLayerIndex, SVONLink.SetNodeIndex, SVONLink.make,
      SVONLink.GetInvalidLink]
  cases l with
  | zero => exact hbase _ rfl rfl
  | succ k => exact hbase _ rfl rfl

/-- C3. In a build that returns, a node at index `k` of a layer `L > 0` whose
first-child link is valid links to layer `L - 1`; the eight nodes from the
linked index on exist, carry the codes `(code << 3) + 0 .. (code << 3) + 7`
in that order, and each of them has a valid parent link to `(L, k)`. -/
theorem children_contiguous (v : ASVONVolume) (o : Oracle) (w : ASVONVolume)
    (h : Generate.run v o = .ok w) (L k : Nat) (p : SVONNode) (hL : 0 < L)
    (hp : nodeAt w L k = .ok p) (hvalid : p.myFirstChild.IsValid = true) :
    p.myFirstChild.myLayerIndex = L - 1 ∧
    ∀ j, j < 8 → ∃ ch, nodeAt w (L - 1) (p.myFirstChild.myNodeIndex + j) = .ok ch ∧
      ch.myCode = (p.myCode <<< 3) + j ∧ ch.myParent.IsValid = true ∧
      ch.myParent.myLayerIndex = L ∧ ch.myParent.myNodeIndex = k := by
  obtain ⟨sets, xs, _, _, _, _, hskel, _⟩ :=
    run_eq v o w (power_le_of_node v o w (Or.inr h) L k p hp) h
  obtain ⟨p4, hp4, hc, hfc, _⟩ := node_of_skeleton hskel hp
  obtain ⟨hLvp, hk, hp4eq⟩ := nodeAt_rasterized hp4
  obtain ⟨l, rfl⟩ : ∃ l, L = l + 1 := ⟨L - 1, by omega⟩
  rw [hc] at hk hp4eq
  have hfc2 : p.myFirstChild = (upperLayerNode (l + 1) (layerQ v.myVoxelPower sets l)
      (8 ^ (v.myVoxelPower - (l + 1))) p.myCode).myFirstChild := by
    rw [← hfc, hp4eq, refNode_firstChild_stage]
    unfold refNode
    simp
  have hcond : layerQ v.myVoxelPower sets l p.myCode = true ∧
      p.myCode < 8 ^ (v.myVoxelPower - (l + 1)) := by
    by_contra hcon
    rw [hfc2] at hvalid
    simp [upperLayerNode, hcon, SVONLink.IsValid, SVONLink.GetInvalidLink] at hvalid
  have hfc3 : p.myFirstChild = SVONLink.make l
      ((List.range (8 * p.myCode)).countP (fun j => layerQ v.myVoxelPower sets l (j / 8))) 0 := by
    rw [hfc2]
    simp [upperLayerNode, hcond]
  have hpmem : p.myCode ∈ layerCodes v.myVoxelPower sets (l + 1) := List.getElem?_mem hk
  have hkidx := hk
  rw [layerCodes_succ_of_mem hpmem] at hkidx
  have hkeq := (filter_range_getElem? _ _ _ _ hkidx).2.2
  have h8 : 8 ^ (v.myVoxelPower - l) = 8 * 8 ^ (v.myVoxelPower - (l + 1)) := by
    rw [show v.myVoxelPower - l = (v.myVoxelPower - (l + 1)) + 1 by omega, Nat.pow_succ,
      Nat.mul_comm]
  refine ⟨by rw [hfc3]; rfl, ?_⟩
  intro j hj
  have hdiv : (8 * p.myCode + j) / 8 = p.myCode := by omega
  have hchild : (layerCodes v.myVoxelPower sets l)[(List.range (8 * p.myCode)).countP
      (fun j => layerQ v.myVoxelPower sets l (j / 8)) + j]? = some (8 * p.myCode + j) := by
    rw [← countP_range_block (layerQ v.myVoxelPower sets l) p.myCode j (by omega) hcond.1,
      layerCodes_eq]
    exact getElem?_filter_range _ _ _ (by rw [h8]; omega) (by simp only [hdiv]; exact hcond.1)
  have hnode := @nodeAt_rasterized_of _ _ o xs _ _ _ (show l ≤ v.myVoxelPower by omega) hchild
  -- the same node in the final volume
  obtain ⟨ch, hch, hcc, _, hcp⟩ := node_of_skeleton hskel.symm hnode
  refine ⟨ch, ?_, ?_, ?_, ?_, ?_⟩
  · rw [hfc3]; simpa [SVONLink.make] using hch
  · rw [hcc, refNode_code, Nat.shiftLeft_eq]; omega
  all_goals
    rw [hcp, parent_of_mem o (by omega) (List.getElem?_mem hchild) (by rw [hdiv]; exact hpmem), hdiv]
  · rfl
  · rfl
  · exact hkeq.symm

end Structure

/-! ## Layer 0 and the leaf array -/

section LayerZeroClaims

theorem countP_range_block_false (q : Nat → Bool) (a j : Nat) (hj : j ≤ 8) (hq : q a = false) :
    (List.range (8 * a + j)).countP (fun i => q (i / 8)) =
      (List.range (8 * a)).countP (fun i => q (i / 8)) := by
  induction j with
  | zero => rfl
  | succ j ih =>
    rw [show 8 * a + (j + 1) = (8 * a + j) + 1 by omega, countP_range_succ, ih (by omega)]
    have : (8 * a + j) / 8 = a := by omega
    simp [this, hq]

theorem countP_blocks (q : Nat → Bool) (n : Nat) :
    (List.range (8 * n)).countP (fun i => q (i / 8)) = 8 * (List.range n).countP q := by
  induction n with
  | zero => rfl
  | succ n ih =>
    rw [show 8 * (n + 1) = 8 * n + 8 by omega, countP_range_succ q n]
    by_cases hq : q n = true
    · rw [countP_range_block q n 8 (by omega) hq, ih]
      simp [hq]; omega
    · have hq2 : q n = false := by simpa using hq
      rw [countP_range_block_false q n 8 (by omega) hq2, ih]
      simp [hq2]

theorem mem_firstSet {vp : Nat} {o : Oracle} {a : Nat} (hvp : 1 ≤ vp) (h11 : vp ≤ 11) :
    a ∈ firstSet vp o ↔ a < 8 ^ (vp - 1) ∧ o.firstPass a = true := by
  rw [firstSet_eq o hvp h11, mem_filter_range]

theorem layerQ_zero (vp : Nat) (s : List Nat) (rest : List (List Nat)) (a : Nat) :
    layerQ vp (s :: rest) 0 a = decide (a ∈ s) := by
  simp [layerQ, built, blockedQ]

/-- The state after the rasterization of layer 0 within the `int32` range,
whatever the volume held before. -/
theorem rasterize_zero_spec (v : ASVONVolume) (o : Oracle) (h10 : v.myVoxelPower ≤ 10) :
    ∃ rest xs, Generate.prepare v o =
        .ok (prepared v.myVoxelPower (firstSet v.myVoxelPower o :: rest)) ∧
      RasterizeLayer (prepared v.myVoxelPower (firstSet v.myVoxelPower o :: rest)) o 0 =
        .ok (withLeaves (withLayers (prepared v.myVoxelPower (firstSet v.myVoxelPower o :: rest))
          (refLayers v.myVoxelPower (firstSet v.myVoxelPower o :: rest) o 1)) xs) ∧
      LeafFacts v.myVoxelPower (firstSet v.myVoxelPower o :: rest) o xs := by
  obtain ⟨rest, hprep, _, _, _⟩ := prepare_spec v o
  obtain ⟨w, hw, xs, hxs, hleaf, _, _⟩ :=
    RasterizeLayer_zero v.myVoxelPower (firstSet v.myVoxelPower o) rest o h10
  exact ⟨rest, xs, hprep, by rw [hw, hxs], hleaf (by omega)⟩

/-- C4. For a voxel power from 1 to 10, after `RasterizeLayer(0)` layer 0 has
a node with code `i` exactly when `i < 8^voxelPower` and the first pass found
the layer-1 cell with code `i >> 3` occupied; the number of layer-0 nodes is
eight times the number of occupied layer-1 cells, whatever the oracle answers
for the layer-0 cells. Up to voxel power 10 the number of layer-0 cells is
within the `int32` range. -/
theorem layer_zero_nodes (v : ASVONVolume) (o : Oracle) (hvp : 1 ≤ v.myVoxelPower)
    (h10 : v.myVoxelPower ≤ 10) :
    ∃ v3 w layer0, Generate.prepare v o = .ok v3 ∧ RasterizeLayer v3 o 0 = .ok w ∧
      w.myData.myLayers[0]? = some layer0 ∧
      (∀ i, (∃ n ∈ layer0, n.myCode = i) ↔
        (i < 8 ^ v.myVoxelPower ∧ o.firstPass (i >>> 3) = true)) ∧
      layer0.length =
        8 * ((List.range (8 ^ (v.myVoxelPower - 1))).filter o.firstPass).length := by
  obtain ⟨rest, xs, hprep, hrast, _⟩ := rasterize_zero_spec v o h10
  have h11 : v.myVoxelPower ≤ 11 := by omega
  have h8 : 8 ^ v.myVoxelPower = 8 * 8 ^ (v.myVoxelPower - 1) := by
    rw [show v.myVoxelPower = (v.myVoxelPower - 1) + 1 by omega, Nat.pow_succ, Nat.mul_comm]
    simp
  refine ⟨_, _, (layerCodes v.myVoxelPower (firstSet v.myVoxelPower o :: rest) 0).map
    (refNode v.myVoxelPower (firstSet v.myVoxelPower o :: rest) o 1 0), hprep, hrast, ?_, ?_, ?_⟩
  · simp only [withLeaves_layers, withLayers_layers]
    rw [getElem?_refLayers, if_pos (Nat.zero_le _), if_pos (by omega)]
  · intro i
    constructor
    · rintro ⟨n, hn, rfl⟩
      rw [List.mem_map] at hn
      obtain ⟨i, hi, rfl⟩ := hn
      rw [refNode_code]
      rw [mem_layerCodes, layerQ_zero] at hi
      simp only [decide_eq_true_eq] at hi
      exact ⟨by simpa using hi.1, by rw [shiftRight_three]; exact ((mem_firstSet hvp h11).1 hi.2).2⟩
    · rintro ⟨h1, h2⟩
      refine ⟨refNode v.myVoxelPower (firstSet v.myVoxelPower o :: rest) o 1 0 i,
        List.mem_map_of_mem _ ?_, refNode_code _ _ _ _ _ _⟩
      rw [mem_layerCodes, layerQ_zero]
      simp only [decide_eq_true_eq]
      refine ⟨by simpa using h1, (mem_firstSet hvp h11).2 ⟨?_, by rw [← shiftRight_three]; exact h2⟩⟩
      rw [h8] at h1
      omega
  · rw [List.length_map, layerCodes_eq, length_filter_range, Nat.sub_zero, h8, countP_blocks,
      length_filter_range]
    congr 1
    apply List.countP_congr
    intro a ha
    rw [layerQ_zero]
    simp only [decide_eq_true_eq]
    rw [mem_firstSet hvp h11]
    simp only [List.mem_range] at ha
    simp [ha]

end LayerZeroClaims

/-! ## Neighbour links -/

section NeighbourClaims

theorem FindLinkInDirection_congr {a b : ASVONVolume} (h : skeleton a = skeleton b)
    (l k d : Nat) (link : SVONLink) :
    FindLinkInDirection a l k d link = FindLinkInDirection b l k d link := by
  rw [← FindLinkInDirection_skeleton a, ← FindLinkInDirection_skeleton b, h]

theorem GetNodesPerSide_of_power {a b : ASVONVolume} (h : a.myVoxelPower = b.myVoxelPower)
    (l : Nat) : GetNodesPerSide a l = GetNodesPerSide b l := by
  unfold GetNodesPerSide; rw [h]

/-- What a build that returns provides for a node below the root: the
rasterized volume in closed form, with the same skeleton as the final volume,
the node in it, and the stored link as the result of the climb. -/
theorem node_context (v : ASVONVolume) (o : Oracle) (w : ASVONVolume) (h : Generate.run v o = .ok w)
    (L k d : Nat) (n : SVONNode) (hL : L + 1 < w.myNumLayers) (hd : d < 6)
    (hn : nodeAt w L k = .ok n) :
    ∃ sets xs, Chain sets ∧ Completed v.myVoxelPower sets ∧ LeafFacts v.myVoxelPower sets o xs ∧
      skeleton w = skeleton (rasterized v.myVoxelPower sets o xs) ∧
      w.myVoxelPower = v.myVoxelPower ∧ L < v.myVoxelPower ∧
      (layerCodes v.myVoxelPower sets L)[k]? = some n.myCode ∧
      BuildNeighbourLinks.climb (rasterized v.myVoxelPower sets o xs) L n.myCode d
        (v.myVoxelPower + 1) L k SVONLink.GetInvalidLink = .ok (n.neighbour d) := by
  obtain ⟨sets, xs, hsets, hcomp, hleaf, _, hskel, hclimb⟩ :=
    run_eq v o w (power_le_of_node v o w (Or.inr h) L k n hn) h
  have hnum : w.myNumLayers = v.myVoxelPower + 1 := by
    rw [numLayers_of_skeleton hskel]; rfl
  have hpow : w.myVoxelPower = v.myVoxelPower := by
    rw [power_of_skeleton hskel]; rfl
  have hLvp : L < v.myVoxelPower := by omega
  obtain ⟨n4, hn4, hc, _, _⟩ := node_of_skeleton hskel hn
  have hk := (nodeAt_rasterized hn4).2.1
  rw [hc] at hk
  exact ⟨sets, xs, hsets.2.1, hcomp, hleaf, hskel, hpow, hLvp, hk, hclimb L k n d hLvp hd hn⟩

/-- In a build that returns, the stored neighbour link of a node below the
root is the invalid link in a direction that leaves the volume. -/
theorem stored_link_outside (v : ASVONVolume) (o : Oracle) (w : ASVONVolume)
    (h : Generate.run v o = .ok w) (L k d : Nat) (n : SVONNode) (hL : L + 1 < w.myNumLayers)
    (hd : d < 6) (hn : nodeAt w L k = .ok n)
    (hout : ¬ inCube (2 ^ (w.myVoxelPower - L)) (neighbourCoord n.myCode d)) :
    n.neighbour d = SVONLink.GetInvalidLink := by
  obtain ⟨sets, xs, _, _, _, hskel, hpow, hLvp, hk, hclimb⟩ := node_context v o w h L k d n hL hd hn
  have hfind : FindLinkInDirection (rasterized v.myVoxelPower sets o xs) L k d
      SVONLink.GetInvalidLink = .ok (true, SVONLink.GetInvalidLink) := by
    rw [FindLinkInDirection_eq _ L k d _ _ _
      (rasterized_layer _ _ _ _ _ (by omega))
      (show _ = some (refNode v.myVoxelPower sets o (v.myVoxelPower + 1) L n.myCode) by
        rw [List.getElem?_map, hk]; rfl)]
    rw [refNode_code, GetNodesPerSide_rasterized _ _ _ _ _ (by omega), ← hpow, if_pos hout]
    rfl
  rw [climb_of_found _ L n.myCode d (v.myVoxelPower + 1) L k _ _ hfind] at hclimb
  simp only [Except.ok.injEq] at hclimb
  exact hclimb.symm

/-- C7. In a build that returns, for a node of a layer `L` below the root and
a direction in which the neighbouring cell has a coordinate that is negative
or at least `NodesPerSide(L) = 2^(voxelPower - L)`, `FindLinkInDirection`
reports success with an invalid link and the stored neighbour link is the
invalid link. -/
theorem boundary_link_invalid (v : ASVONVolume) (o : Oracle) (w : ASVONVolume)
    (h : Generate.run v o = .ok w) (L k d : Nat) (n : SVONNode) (hL : L + 1 < w.myNumLayers)
    (hd : d < 6) (hn : nodeAt w L k = .ok n)
    (hout : ¬ inCube (2 ^ (w.myVoxelPower - L)) (neighbourCoord n.myCode d)) :
    GetNodesPerSide w L = 2 ^ (w.myVoxelPower - L) ∧
    n.neighbour d = SVONLink.GetInvalidLink ∧
    ∀ link, FindLinkInDirection w L k d link = .ok (true, SVONLink.GetInvalidLink) := by
  obtain ⟨sets, xs, _, _, _, hskel, hpow, hLvp, hk, hclimb⟩ := node_context v o w h L k d n hL hd hn
  have hside : GetNodesPerSide w L = 2 ^ (w.myVoxelPower - L) := by
    unfold GetNodesPerSide
    rw [if_pos (by omega)]
  have hfind : ∀ link, FindLinkInDirection (rasterized v.myVoxelPower sets o xs) L k d link =
      .ok (true, SVONLink.GetInvalidLink) := by
    intro link
    rw [FindLinkInDirection_eq _ L k d link _ _
      (rasterized_layer _ _ _ _ _ (by omega))
      (show _ = some (refNode v.myVoxelPower sets o (v.myVoxelPower + 1) L n.myCode) by
        rw [List.getElem?_map, hk]; rfl)]
    rw [refNode_code, GetNodesPerSide_rasterized _ _ _ _ _ (by omega), ← hpow, if_pos hout]
    rfl
  refine ⟨hside, ?_, ?_⟩
  · have := climb_of_found _ L n.myCode d (v.myVoxelPower + 1) L k _ _
      (hfind SVONLink.GetInvalidLink)
    rw [this] at hclimb
    simp only [Except.ok.injEq] at hclimb
    exact hclimb.symm
  · intro link
    rw [FindLinkInDirection_congr hskel]
    exact hfind link

/-- C5. In a build that returns, for a node `n` of a layer `L` below the root
and a direction whose neighbouring cell lies in the volume: when layer `L` has
a node `m` at index `j` with the code of that cell and (for `L = 0`) the leaf
slot of `m` is not completely blocked, the stored neighbour link is valid and
names `(L, j)`; the search does not climb. -/
theorem same_layer_neighbour_linked (v : ASVONVolume) (o : Oracle) (w : ASVONVolume)
    (h : Generate.run v o = .ok w) (L k d j : Nat) (n m : SVONNode)
    (hL : L + 1 < w.myNumLayers) (hd : d < 6) (hn : nodeAt w L k = .ok n)
    (hin : inCube (GetNodesPerSide w L) (neighbourCoord n.myCode d))
    (hm : nodeAt w L j = .ok m) (hcode : m.myCode = neighbourCode n.myCode d)
    (hleaf : L = 0 → ∀ leaf, GetLeafNode w j = .ok leaf → leaf.IsCompletelyBlocked = false) :
    (n.neighbour d).IsValid = true ∧ (n.neighbour d).myLayerIndex = L ∧
      (n.neighbour d).myNodeIndex = j := by
  obtain ⟨sets, xs, _, _, hleaves, hskel, hpow, hLvp, hk, hclimb⟩ :=
    node_context v o w h L k d n hL hd hn
  obtain ⟨m4, hm4, hmc, _, _⟩ := node_of_skeleton hskel hm
  obtain ⟨_, hj, hm4eq⟩ := nodeAt_rasterized hm4
  rw [hmc] at hj hm4eq
  have hside : GetNodesPerSide (rasterized v.myVoxelPower sets o xs) L = GetNodesPerSide w L :=
    GetNodesPerSide_of_power (by rw [hpow]; rfl) L
  have hfound := FindLinkInDirection_found (rasterized v.myVoxelPower sets o xs) L k d
    SVONLink.GetInvalidLink _ (refNode v.myVoxelPower sets o (v.myVoxelPower + 1) L n.myCode)
    (refNode v.myVoxelPower sets o (v.myVoxelPower + 1) L m.myCode) j
    (rasterized_layer _ _ _ _ _ (by omega))
    (by rw [List.getElem?_map, hk]; rfl)
    (by rw [codes_rasterized_layer]; exact pairwise_layerCodes _ _ _) hd
    (by rw [refNode_code, hside]; exact hin)
    (by rw [List.getElem?_map, hj]; rfl)
    (by rw [refNode_code, refNode_code]; exact hcode)
  have hres : foundLink (rasterized v.myVoxelPower sets o xs) L j
      (refNode v.myVoxelPower sets o (v.myVoxelPower + 1) L m.myCode) SVONLink.GetInvalidLink =
      .ok (true, SVONLink.make L j 0) := by
    unfold foundLink
    split
    · rename_i hc
      obtain ⟨rfl, hchildren⟩ := hc
      have hidx := hj
      rw [layerCodes_eq] at hidx
      have hjeq := (filter_range_getElem? _ _ _ _ hidx).2.2
      have hfc : (refNode v.myVoxelPower sets o (v.myVoxelPower + 1) 0 m.myCode).myFirstChild =
          if o.voxel m.myCode then SVONLink.make 0 j 0 else SVONLink.GetInvalidLink := by
        rw [refNode_firstChild_stage]
        simp only [refNode, show ¬ (0 + 1 < 0 ∧ 1 <
          (layerCodes v.myVoxelPower sets 0).length) by omega, if_false, leafLayerNode, ← hjeq]
      have hvox : o.voxel m.myCode = true := by
        by_contra hcon
        unfold SVONNode.HasChildren at hchildren
        rw [hfc] at hchildren
        simp [hcon, SVONLink.IsValid, SVONLink.GetInvalidLink] at hchildren
      rw [hfc, if_pos hvox]
      have hlt := (hleaves j m.myCode hj).1
      have hget : GetLeafNode (rasterized v.myVoxelPower sets o xs) (SVONLink.make 0 j 0).myNodeIndex =
          .ok (leafAt xs j) := by
        unfold GetLeafNode
        rw [index_eq_ok]
        exact get_of_leafAt hlt
      rw [hget]
      simp only [bind_ok]
      have hnb : (leafAt xs j).IsCompletelyBlocked = false := by
        apply hleaf rfl
        unfold GetLeafNode
        rw [index_eq_ok, leaves_of_skeleton hskel]
        exact get_of_leafAt hlt
      rw [hnb]
      rfl
    · rfl
  rw [hres] at hfound
  rw [climb_of_found _ L n.myCode d (v.myVoxelPower + 1) L k _ _ hfound] at hclimb
  simp only [Except.ok.injEq] at hclimb
  rw [← hclimb]
  exact ⟨rfl, rfl, rfl⟩

/-- C6. In a build that returns, a valid stored neighbour link of a node `n`
of a layer `L` below the root names an existing node of a layer `L' ≥ L`, and
the code of that node is the code of the cell next to `n` in that direction
shifted right by `3 (L' - L)` bits: the target is the neighbouring cell or an
ancestor of it. -/
theorem neighbour_link_sound (v : ASVONVolume) (o : Oracle) (w : ASVONVolume)
    (h : Generate.run v o = .ok w) (L k d : Nat) (n : SVONNode) (hL : L + 1 < w.myNumLayers)
    (hd : d < 6) (hn : nodeAt w L k = .ok n) (hvalid : (n.neighbour d).IsValid = true) :
    L ≤ (n.neighbour d).myLayerIndex ∧
    ∃ t, nodeAt w (n.neighbour d).myLayerIndex (n.neighbour d).myNodeIndex = .ok t ∧
      t.myCode = neighbourCode n.myCode d >>> (3 * ((n.neighbour d).myLayerIndex - L)) := by
  obtain ⟨sets, xs, hch, hcomp, _, hskel, hpow, hLvp, hk, hclimb⟩ :=
    node_context v o w h L k d n hL hd hn
  by_cases hin : inCube (2 ^ (w.myVoxelPower - L)) (neighbourCoord n.myCode d)
  · have hinv : neighbourCoord n.myCode d =
        ((((neighbourCoord n.myCode d).1.toNat / 2 ^ 0 : Nat) : Int),
          (((neighbourCoord n.myCode d).2.1.toNat / 2 ^ 0 : Nat) : Int),
          (((neighbourCoord n.myCode d).2.2.toNat / 2 ^ 0 : Nat) : Int)) := by
      unfold inCube at hin
      simp only [Nat.pow_zero, Nat.div_one]
      rw [Int.toNat_of_nonneg hin.1, Int.toNat_of_nonneg hin.2.2.1,
        Int.toNat_of_nonneg hin.2.2.2.2.1]
    rcases climb_sound o xs hch hcomp L d n.myCode _ _ _ hd (v.myVoxelPower + 1) 0 k n.myCode
      (n.neighbour d) (by omega) hk hinv hclimb with hr | ⟨m2, j, _, hm2, hr, hj⟩
    · rw [hr] at hvalid
      simp [SVONLink.IsValid, SVONLink.GetInvalidLink] at hvalid
    · rw [hr]
      simp only [SVONLink.make]
      refine ⟨by omega, ?_⟩
      obtain ⟨t, ht, htc, _, _⟩ := node_of_skeleton hskel.symm
        (@nodeAt_rasterized_of _ _ o xs _ _ _ hm2 hj)
      refine ⟨t, ht, ?_⟩
      rw [htc, refNode_code, Nat.shiftRight_eq_div_pow, show L + m2 - L = m2 by omega,
        Nat.pow_mul]
      rfl
  · have := stored_link_outside v o w h L k d n hL hd hn hin
    rw [this] at hvalid
    simp [SVONLink.IsValid, SVONLink.GetInvalidLink] at hvalid

end NeighbourClaims

/-! ## Leaf neighbours -/

section LeafNeighbours

theorem refNode_firstChild_zero (vp : Nat) (sets : List (List Nat)) (o : Oracle) (L j c : Nat)
    (h : (layerCodes vp sets 0)[j]? = some c) :
    (refNode vp sets o L 0 c).myFirstChild =
      if o.voxel c then SVONLink.make 0 j 0 else SVONLink.GetInvalidLink := by
  have hidx := h
  rw [layerCodes_eq] at hidx
  have hjeq := (filter_range_getElem? _ _ _ _ hidx).2.2
  rw [refNode_firstChild_stage]
  simp only [refNode, show ¬ (0 + 1 < 0 ∧ 1 < (layerCodes vp sets 0).length) by omega,
    if_false, leafLayerNode, ← hjeq]

/-- In a build that returns, a valid first-child link of the layer-0 node at
index `j` names leaf `j`, and that leaf exists. -/
theorem leaf_child_index (v : ASVONVolume) (o : Oracle) (w : ASVONVolume)
    (h : Generate.run v o = .ok w) (j : Nat) (nj : SVONNode) (hn : nodeAt w 0 j = .ok nj)
    (hv : nj.myFirstChild.IsValid = true) :
    nj.myFirstChild.myNodeIndex = j ∧ ∃ leaf, GetLeafNode w j = .ok leaf := by
  obtain ⟨sets, xs, _, _, hleaves, _, hskel, _⟩ :=
    run_eq v o w (power_le_of_node v o w (Or.inr h) 0 j nj hn) h
  obtain ⟨n4, hn4, hc, hfc, _⟩ := node_of_skeleton hskel hn
  obtain ⟨_, hj, hn4eq⟩ := nodeAt_rasterized hn4
  have hfirst := refNode_firstChild_zero v.myVoxelPower sets o (v.myVoxelPower + 1) j _ hj
  rw [← hn4eq, hfc] at hfirst
  constructor
  · rw [hfirst] at hv ⊢
    by_cases hvox : o.voxel n4.myCode = true
    · rw [if_pos hvox]; rfl
    · rw [if_neg hvox] at hv
      simp [SVONLink.IsValid, SVONLink.GetInvalidLink] at hv
  · refine ⟨leafAt xs j, ?_⟩
    unfold GetLeafNode
    rw [index_eq_ok, leaves_of_skeleton hskel]
    exact get_of_leafAt (hleaves j _ hj).1

/-- The shape of one direction of `GetLeafNeighbours`, with the coordinates of
the sub-voxel looked at left abstract. -/
theorem dirStep_shape (v : ASVONVolume) (aLink : SVONLink) (node : SVONNode) (leaf : SVONLeafNode)
    (acc : List SVONLink) (i : Nat) :
    ∃ (sX sY sZ : Int) (sub : Nat), GetLeafNeighbours.dirStep v aLink node leaf acc i =
      if sX ≥ 0 ∧ sX < 4 ∧ sY ≥ 0 ∧ sY < 4 ∧ sZ ≥ 0 ∧ sZ < 4 then
        (if leaf.GetNode (morton3D_64_encode sX.toNat sY.toNat sZ.toNat) then pure acc
         else pure (acc ++ [SVONLink.make 0 aLink.myNodeIndex
           (morton3D_64_encode sX.toNat sY.toNat sZ.toNat)]))
      else
        GetNode v (node.neighbour i) >>= fun neighbourNode =>
        if !neighbourNode.myFirstChild.IsValid then pure (acc ++ [node.neighbour i])
        else
          GetLeafNode v neighbourNode.myFirstChild.myNodeIndex >>= fun leafNode =>
          if leafNode.IsCompletelyBlocked then pure acc
          else if !leafNode.GetNode sub then
            pure (acc ++ [SVONLink.make 0 neighbourNode.myFirstChild.myNodeIndex sub])
          else pure acc :=
  ⟨_, _, _, _, rfl⟩

/-- The links one direction of `GetLeafNeighbours` appends: a link of layer 0
whose node has a valid first child names a clear bit of the leaf of that
node. -/
theorem leafDirStep_unblocked (w : ASVONVolume)
    (hF : ∀ j nj, nodeAt w 0 j = .ok nj → nj.myFirstChild.IsValid = true →
      nj.myFirstChild.myNodeIndex = j)
    (k s : Nat) (n : SVONNode) (leaf : SVONLeafNode) (hn : nodeAt w 0 k = .ok n)
    (hleaf : GetLeafNode w n.myFirstChild.myNodeIndex = .ok leaf)
    (acc out : List SVONLink) (i : Nat)
    (hout : GetLeafNeighbours.dirStep w (SVONLink.make 0 k s) n leaf acc i = .ok out) :
    ∃ added, out = acc ++ added ∧ ∀ e ∈ added, e.myLayerIndex = 0 →
      ∀ nj, nodeAt w 0 e.myNodeIndex = .ok nj → nj.myFirstChild.IsValid = true →
        ∃ lf, GetLeafNode w nj.myFirstChild.myNodeIndex = .ok lf ∧
          lf.GetNode e.mySubnodeIndex = false := by
  obtain ⟨sX, sY, sZ, sub, heq⟩ := dirStep_shape w (SVONLink.make 0 k s) n leaf acc i
  rw [heq] at hout
  split at hout
  · split at hout
    · simp only [pure_eq_ok, Except.ok.injEq] at hout
      exact ⟨[], by simp [hout], by simp⟩
    · rename_i hbit
      simp only [pure_eq_ok, Except.ok.injEq] at hout
      refine ⟨_, hout.symm, ?_⟩
      intro e he _ nj hnj _
      simp only [List.mem_singleton] at he
      subst he
      simp only [SVONLink.make] at hnj ⊢
      rw [hn] at hnj
      simp only [Except.ok.injEq] at hnj
      subst hnj
      exact ⟨leaf, hleaf, by simpa using hbit⟩
  · rw [bind_eq_ok] at hout
    obtain ⟨nb, hnb, hout⟩ := hout
    split at hout
    · rename_i hinv
      simp only [pure_eq_ok, Except.ok.injEq] at hout
      refine ⟨_, hout.symm, ?_⟩
      intro e he hlayer nj hnj hvalid
      simp only [List.mem_singleton] at he
      subst he
      unfold GetNode at hnb
      rw [if_pos (by omega)] at hnb
      rw [hlayer, hnj] at hnb
      simp only [Except.ok.injEq] at hnb
      subst hnb
      rw [hvalid] at hinv
      simp at hinv
    · rw [bind_eq_ok] at hout
      obtain ⟨lf, hlf, hout⟩ := hout
      split at hout
      · simp only [pure_eq_ok, Except.ok.injEq] at hout
        exact ⟨[], by simp [hout], by simp⟩
      · split at hout
        · rename_i hbit
          simp only [pure_eq_ok, Except.ok.injEq] at hout
          refine ⟨_, hout.symm, ?_⟩
          intro e he _ nj hnj hvalid
          simp only [List.mem_singleton] at he
          subst he
          simp only [SVONLink.make] at hnj ⊢
          rw [hF _ nj hnj hvalid]
          exact ⟨lf, hlf, by simpa using hbit⟩
        · simp only [pure_eq_ok, Except.ok.injEq] at hout
          exact ⟨[], by simp [hout], by simp⟩

/-- C8. In a build that returns, for a link `(0, k, s)` to a layer-0 node `k`
(with a valid leaf child or not, and for every `s`): every link `(0, j, t)`
that `GetLeafNeighbours` appends whose node `j` has a valid leaf child names a
sub-voxel that is not blocked, bit `t` of the leaf of node `j` is clear. -/
theorem leaf_neighbours_unblocked (v : ASVONVolume) (o : Oracle) (w : ASVONVolume)
    (h : Generate.run v o = .ok w) (k s : Nat) (n : SVONNode) (hn : nodeAt w 0 k = .ok n)
    (acc out : List SVONLink)
    (hout : GetLeafNeighbours w (SVONLink.make 0 k s) acc = .ok out) :
    ∃ added, out = acc ++ added ∧ ∀ e ∈ added, e.myLayerIndex = 0 →
      ∀ nj, nodeAt w 0 e.myNodeIndex = .ok nj → nj.myFirstChild.IsValid = true →
        ∃ lf, GetLeafNode w nj.myFirstChild.myNodeIndex = .ok lf ∧
          lf.GetNode e.mySubnodeIndex = false := by
  have hF : ∀ j nj, nodeAt w 0 j = .ok nj → nj.myFirstChild.IsValid = true →
      nj.myFirstChild.myNodeIndex = j := fun j nj h1 h2 => (leaf_child_index v o w h j nj h1 h2).1
  unfold GetLeafNeighbours at hout
  rw [bind_eq_ok] at hout
  obtain ⟨n2, hn2, hout⟩ := hout
  have hnode : n2 = n := by
    unfold GetNode at hn2
    simp only [SVONLink.make] at hn2
    rw [if_pos (by omega), hn] at hn2
    simp only [Except.ok.injEq] at hn2
    exact hn2.symm
  subst hnode
  rw [bind_eq_ok] at hout
  obtain ⟨leaf, hleaf, hout⟩ := hout
  have key := foldlM_range_inv (GetLeafNeighbours.dirStep w (SVONLink.make 0 k s) n2 leaf)
    (fun _ cur => ∃ added, cur = acc ++ added ∧ ∀ e ∈ added, e.myLayerIndex = 0 →
      ∀ nj, nodeAt w 0 e.myNodeIndex = .ok nj → nj.myFirstChild.IsValid = true →
        ∃ lf, GetLeafNode w nj.myFirstChild.myNodeIndex = .ok lf ∧
          lf.GetNode e.mySubnodeIndex = false) 6
    (by
      intro i cur cur2 _ hinv hstep
      obtain ⟨a1, rfl, h1⟩ := hinv
      obtain ⟨a2, rfl, h2⟩ := leafDirStep_unblocked w hF k s n2 leaf hn hleaf _ _ i hstep
      refine ⟨a1 ++ a2, by simp, ?_⟩
      intro e he
      rcases List.mem_append.1 he with he | he
      · exact h1 e he
      · exact h2 e he)
    acc out ⟨[], by simp, by simp⟩ hout
  exact key

end LeafNeighbours

/-! ## Concrete builds -/

section Concrete

set_option maxRecDepth 100000 in
theorem sampleBuild_eq : Generate.run sampleVolume sampleOracle = .ok sampleBuild := by
  decide!

set_option maxRecDepth 100000 in
theorem sampleLeafNeighbours_eq :
    GetLeafNeighbours sampleBuild (SVONLink.make 0 0 0) [] = .ok sampleLeafNeighbours := by
  decide!

end Concrete

/-! ## The claims at the concrete builds -/

section ConcreteClaims

set_option maxRecDepth 100000 in
/-- C1 (defect). With voxel power 2 and geometry inside a single first-pass
cell, `FirstPassRasterize` leaves one blocked set; layers 0 and 1 are
rasterized, and for layer 2 `IsAnyMemberBlocked` reads `myBlockedIndices[2]`,
which is out of range: `Generate` does not run to completion. -/
theorem generate_out_of_range :
    Generate faultVolume sampleOracle = .error .outOfRange ∧
    (Generate.prepare faultVolume sampleOracle >>= fun v3 =>
      RasterizeLayer v3 sampleOracle 0 >>= fun w0 =>
      RasterizeLayer w0 sampleOracle 1 >>= fun w1 =>
      pure (w1.myBlockedIndices.length, IsAnyMemberBlocked w1 2 0)) =
      .ok (1, .error .outOfRange) := by
  decide!

set_option maxRecDepth 100000 in
/-- C9 (defect). In the sample build the stored neighbour link of node 0 in
direction 1 (towards negative x) is invalid and sub-voxel 0 leaves the block in
that direction, yet `GetLeafNeighbours` appends the link `(0, 0, 9)` for
it: `GetNode` answers the invalid link with the root, whose first child
names leaf 0. -/
theorem leaf_neighbours_follow_invalid_link :
    Generate.run sampleVolume sampleOracle = .ok sampleBuild ∧
    nodeAt sampleBuild 0 0 = .ok sampleNode0 ∧
    sampleNode0.myFirstChild.IsValid = true ∧
    GetLeafNode sampleBuild sampleNode0.myFirstChild.myNodeIndex = .ok ⟨1⟩ ∧
    ((morton3D_64_decode 0).1 : Int) + (dirs 1).X = -1 ∧
    (sampleNode0.neighbour 1).IsValid = false ∧
    GetNode sampleBuild (sampleNode0.neighbour 1) = .ok sampleRoot ∧
    GetLeafNeighbours.dirStep sampleBuild (SVONLink.make 0 0 0) sampleNode0 ⟨1⟩ [] 1 =
      .ok [SVONLink.make 0 0 9] ∧
    GetLeafNeighbours sampleBuild (SVONLink.make 0 0 0) [] = .ok sampleLeafNeighbours :=
  ⟨sampleBuild_eq, by decide!, by decide!, by decide!, by decide!, by decide!, by decide!,
    by decide!, sampleLeafNeighbours_eq⟩

/-- The claim C2 at the sample build. -/
theorem layers_strictly_ascending_witness :
    (Generate.rasterize sampleVolume sampleOracle = .ok sampleBuild ∨
      Generate.run sampleVolume sampleOracle = .ok sampleBuild) ∧
    ∀ layer ∈ sampleBuild.myData.myLayers, ∀ (a b : Nat) (na nb : SVONNode), a < b →
      layer[a]? = some na → layer[b]? = some nb → na.myCode < nb.myCode :=
  ⟨Or.inr sampleBuild_eq,
    layers_strictly_ascending sampleVolume sampleOracle sampleBuild (Or.inr sampleBuild_eq)⟩

/-- The claim C3 at the root of the sample build. -/
theorem children_contiguous_witness :
    Generate.run sampleVolume sampleOracle = .ok sampleBuild ∧ 0 < 1 ∧
    nodeAt sampleBuild 1 0 = .ok sampleRoot ∧ sampleRoot.myFirstChild.IsValid = true ∧
    sampleRoot.myFirstChild.myLayerIndex = 1 - 1 ∧
    ∀ j, j < 8 → ∃ ch, nodeAt sampleBuild (1 - 1) (sampleRoot.myFirstChild.myNodeIndex + j) = .ok ch ∧
      ch.myCode = (sampleRoot.myCode <<< 3) + j ∧ ch.myParent.IsValid = true ∧
      ch.myParent.myLayerIndex = 1 ∧ ch.myParent.myNodeIndex = 0 :=
  ⟨sampleBuild_eq, by decide, rfl, rfl,
    children_contiguous sampleVolume sampleOracle sampleBuild sampleBuild_eq 1 0 sampleRoot
      (by decide) rfl rfl⟩

/-- The claim C4 at the sample volume. -/
theorem layer_zero_nodes_witness :
    1 ≤ sampleVolume.myVoxelPower ∧ sampleVolume.myVoxelPower ≤ 10 ∧
    ∃ v3 w layer0, Generate.prepare sampleVolume sampleOracle = .ok v3 ∧
      RasterizeLayer v3 sampleOracle 0 = .ok w ∧ w.myData.myLayers[0]? = some layer0 ∧
      (∀ i, (∃ n ∈ layer0, n.myCode = i) ↔
        (i < 8 ^ sampleVolume.myVoxelPower ∧ sampleOracle.firstPass (i >>> 3) = true)) ∧
      layer0.length =
        8 * ((List.range (8 ^ (sampleVolume.myVoxelPower - 1))).filter sampleOracle.firstPass).length :=
  ⟨by decide, by decide, layer_zero_nodes sampleVolume sampleOracle (by decide) (by decide)⟩

/-- The claim C5 at node 0 of the sample build, towards positive x. -/
theorem same_layer_neighbour_linked_witness :
    Generate.run sampleVolume sampleOracle = .ok sampleBuild ∧
    0 + 1 < sampleBuild.myNumLayers ∧ nodeAt sampleBuild 0 0 = .ok sampleNode0 ∧
    inCube (GetNodesPerSide sampleBuild 0) (neighbourCoord sampleNode0.myCode 0) ∧
    nodeAt sampleBuild 0 1 = .ok sampleNode1 ∧
    sampleNode1.myCode = neighbourCode sampleNode0.myCode 0 ∧
    GetLeafNode sampleBuild 1 = .ok ⟨0⟩ ∧
    (sampleNode0.neighbour 0).IsValid = true ∧ (sampleNode0.neighbour 0).myLayerIndex = 0 ∧
      (sampleNode0.neighbour 0).myNodeIndex = 1 :=
  ⟨sampleBuild_eq, by decide, rfl, by decide, rfl, by decide, rfl,
    same_layer_neighbour_linked sampleVolume sampleOracle sampleBuild sampleBuild_eq 0 0 0 1
      sampleNode0 sampleNode1 (by decide) (by decide) rfl (by decide) rfl (by decide)
      (fun _ leaf hl => by
        have h2 : GetLeafNode sampleBuild 1 = .ok ⟨0⟩ := rfl
        rw [h2] at hl
        cases hl
        rfl)⟩

/-- The claim C6 at node 0 of the sample build, towards positive x. -/
theorem neighbour_link_sound_witness :
    Generate.run sampleVolume sampleOracle = .ok sampleBuild ∧
    0 + 1 < sampleBuild.myNumLayers ∧ nodeAt sampleBuild 0 0 = .ok sampleNode0 ∧
    (sampleNode0.neighbour 0).IsValid = true ∧
    0 ≤ (sampleNode0.neighbour 0).myLayerIndex ∧
    ∃ t, nodeAt sampleBuild (sampleNode0.neighbour 0).myLayerIndex
        (sampleNode0.neighbour 0).myNodeIndex = .ok t ∧
      t.myCode = neighbourCode sampleNode0.myCode 0 >>>
        (3 * ((sampleNode0.neighbour 0).myLayerIndex - 0)) :=
  ⟨sampleBuild_eq, by decide, rfl, rfl,
    neighbour_link_sound sampleVolume sampleOracle sampleBuild sampleBuild_eq 0 0 0 sampleNode0
      (by decide) (by decide) rfl rfl⟩

/-- The claim C7 at node 0 of the sample build, towards negative x. -/
theorem boundary_link_invalid_witness :
    Generate.run sampleVolume sampleOracle = .ok sampleBuild ∧
    0 + 1 < sampleBuild.myNumLayers ∧ nodeAt sampleBuild 0 0 = .ok sampleNode0 ∧
    ¬ inCube (2 ^ (sampleBuild.myVoxelPower - 0)) (neighbourCoord sampleNode0.myCode 1) ∧
    GetNodesPerSide sampleBuild 0 = 2 ^ (sampleBuild.myVoxelPower - 0) ∧
    sampleNode0.neighbour 1 = SVONLink.GetInvalidLink ∧
    ∀ link, FindLinkInDirection sampleBuild 0 0 1 link = .ok (true, SVONLink.GetInvalidLink) :=
  ⟨sampleBuild_eq, by decide, rfl, by decide,
    boundary_link_invalid sampleVolume sampleOracle sampleBuild sampleBuild_eq 0 0 1 sampleNode0
      (by decide) (by decide) rfl (by decide)⟩

/-- The claim C8 at sub-voxel 0 of the leaf of node 0 of the sample build. -/
theorem leaf_neighbours_unblocked_witness :
    Generate.run sampleVolume sampleOracle = .ok sampleBuild ∧
    nodeAt sampleBuild 0 0 = .ok sampleNode0 ∧
    GetLeafNeighbours sampleBuild (SVONLink.make 0 0 0) [] = .ok sampleLeafNeighbours ∧
    ∃ added, sampleLeafNeighbours = [] ++ added ∧ ∀ e ∈ added, e.myLayerIndex = 0 →
      ∀ nj, nodeAt sampleBuild 0 e.myNodeIndex = .ok nj → nj.myFirstChild.IsValid = true →
        ∃ lf, GetLeafNode sampleBuild nj.myFirstChild.myNodeIndex = .ok lf ∧
          lf.GetNode e.mySubnodeIndex = false :=
  ⟨sampleBuild_eq, rfl, sampleLeafNeighbours_eq,
    leaf_neighbours_unblocked sampleVolume sampleOracle sampleBuild sampleBuild_eq 0 0 sampleNode0
      rfl [] sampleLeafNeighbours sampleLeafNeighbours_eq⟩

end ConcreteClaims

/-! ## Builds that return -/

section Totality

/-- The loop of a layer above 0 returns when the layer below has at most one
node or the layer index is at most the number of blocked-index sets. -/
theorem RasterizeLayer_succ_total (vp : Nat) (sets : List (List Nat)) (o : Oracle) (k : Nat)
    (hvp : vp ≤ 10) (hk : k + 1 ≤ vp) (w : ASVONVolume) (h : RastInv vp sets o (k + 1) w)
    (hs : 1 < (layerCodes vp sets k).length → k + 1 ≤ sets.length) :
    ∃ w', RasterizeLayer w o (k + 1) = .ok w' := by
  obtain ⟨xs, rfl, _, _, _⟩ := h
  have hne : k + 1 ≠ 0 := by omega
  have hbelow_get : (refLayers vp sets o (k + 1))[k]? =
      some ((layerCodes vp sets k).map (refNode vp sets o (k + 1) k)) := by
    rw [getElem?_refLayers]; simp [show k ≤ vp by omega]
  have hL_get : (refLayers vp sets o (k + 1))[k + 1]? = some [] := by
    rw [getElem?_refLayers]; simp [hk]
  unfold RasterizeLayer
  rw [if_neg hne]
  simp only [Nat.add_sub_cancel, GetLayer, withLeaves_layers, withLayers_layers,
    index_eq_ok.2 hbelow_get, bind_ok, List.length_map]
  have h8 : 8 ^ (vp - k) = 8 * 8 ^ (vp - (k + 1)) := by
    rw [show vp - k = (vp - (k + 1)) + 1 by omega, Nat.pow_succ, Nat.mul_comm]
  by_cases hb : 1 < (layerCodes vp sets k).length
  · rw [if_pos hb, GetNodesInLayer_eq _ _ (by simpa [prepared] using hk)
      (by simp only [withLeaves_power, withLayers_power, prepared]; omega)]
    simp only [withLeaves_power, withLayers_power, prepared]
    have hstart : withLeaves (withLayers (prepared vp sets) (refLayers vp sets o (k + 1))) xs =
        upperState (withLeaves (withLayers (prepared vp sets) (refLayers vp sets o (k + 1))) xs)
          (k + 1) ((layerCodes vp sets k).map (refNode vp sets o (k + 1) k))
          (layerQ vp sets k) (8 ^ (vp - (k + 1))) 0 := by
      unfold upperState
      simp only [withLeaves_layers, withLayers_layers, List.range_zero, List.filter_nil,
        List.map_nil, Nat.add_sub_cancel, withLayers_withLeaves, withLayers_withLayers]
      have hid : ((layerCodes vp sets k).map (refNode vp sets o (k + 1) k)).map
          (parentAfter (k + 1)
            (fun i => blockedQ (withLeaves (withLayers (prepared vp sets)
              (refLayers vp sets o (k + 1))) xs).myBlockedIndices (k + 1) (i >>> 3)) 0) =
          (layerCodes vp sets k).map (refNode vp sets o (k + 1) k) := by
        conv => rhs; rw [← List.map_id ((layerCodes vp sets k).map (refNode vp sets o (k + 1) k))]
        apply List.map_congr_left
        intro x _
        simp [parentAfter]
      rw [hid, set_of_get hL_get, set_of_get hbelow_get]
    have hfold := foldlM_chain (RasterizeLayer.nodeStep (k + 1))
      (upperState (withLeaves (withLayers (prepared vp sets) (refLayers vp sets o (k + 1))) xs)
        (k + 1) ((layerCodes vp sets k).map (refNode vp sets o (k + 1) k))
        (layerQ vp sets k) (8 ^ (vp - (k + 1)))) (8 ^ (vp - (k + 1)))
      (fun n hn => nodeStep_spec _ (k + 1) _ (layerQ vp sets k) _ (by omega)
        (by simp [length_refLayers]; omega) (by simpa [prepared] using hs hb)
        (by
          rw [List.map_map]
          have : ((fun x => x.myCode) ∘ refNode vp sets o (k + 1) k) = id := by
            funext i; simp [refNode_code]
          rw [this, List.map_id, layerCodes_eq, h8]) n hn)
    rw [← hstart] at hfold
    simp only [prepared] at hfold
    rw [hfold]
    exact ⟨_, rfl⟩
  · rw [if_neg hb]
    exact ⟨_, rfl⟩

/-- The rasterization returns when every layer whose loop runs has a
blocked-index set or is the layer just above the sets. -/
theorem rasterize_total (v : ASVONVolume) (o : Oracle) (sets : List (List Nat))
    (hprep : Generate.prepare v o = .ok (prepared v.myVoxelPower sets))
    (hcomp : Completed v.myVoxelPower sets) :
    ∃ w, Generate.rasterize v o = .ok w := by
  by_cases hvp : v.myVoxelPower ≤ 10
  swap
  · obtain ⟨_, _, _, hrast, _⟩ := run_beyond v o (by omega)
    exact ⟨_, hrast⟩
  unfold Generate.rasterize
  rw [hprep]
  simp only [bind_ok]
  have key := foldlM_range_total (fun w i => RasterizeLayer w o i)
    (fun L w => RastInv v.myVoxelPower sets o L w) (v.myVoxelPower + 1) ?_
    (prepared v.myVoxelPower sets) (RastInv_zero _ _ _)
  · obtain ⟨w, hw, _⟩ := key
    exact ⟨w, hw⟩
  · intro i s hi hinv
    cases i with
    | zero =>
      obtain ⟨xs, hxs, _, hx0, _⟩ := hinv
      have hsP : s = prepared v.myVoxelPower sets := by
        rw [hxs, hx0 rfl, refLayers_zero]; rfl
      subst hsP
      cases sets with
      | nil =>
        unfold Generate.prepare at hprep
        simp only at hprep
        rw [bind_eq_ok] at hprep
        obtain ⟨v1, _, hprep⟩ := hprep
        rw [bind_eq_ok] at hprep
        obtain ⟨s, hs, hprep⟩ := hprep
        have hb := congrArg ASVONVolume.myBlockedIndices (Except.ok.inj hprep)
        rw [emplace_layers] at hb
        simp only [withLayers_blocked, addDefaultedLeaves, prepared] at hb
        rw [index_eq_ok, hb] at hs
        simp at hs
      | cons s0 rest =>
        obtain ⟨w1, hw1, hinv1⟩ := RasterizeLayer_zero v.myVoxelPower s0 rest o hvp
        exact ⟨w1, hw1, hinv1⟩
    | succ k =>
      obtain ⟨w', hw'⟩ := RasterizeLayer_succ_total _ _ o k hvp (by omega) s hinv
        (fun hb => hcomp (k + 1) (by omega) (by omega) (by simpa using hb))
      exact ⟨w', hw', RasterizeLayer_succ _ _ o k hvp (by omega) s w' hinv hw'⟩

end Totality

/-! ## The neighbour search returns -/

section SearchTotal

/-- The link stored for a node found in a layer of the rasterized volume: the
leaf read for a layer-0 node exists. -/
theorem foundLink_total {vp : Nat} {sets : List (List Nat)} (o : Oracle) (xs : List SVONLeafNode)
    (hleaf : LeafFacts vp sets o xs) (l j : Nat) (nd : SVONNode) (link : SVONLink)
    (hmem : nd ∈ (layerCodes vp sets l).map (refNode vp sets o (vp + 1) l)) :
    ∃ r, foundLink (rasterized vp sets o xs) l j nd link = .ok (true, r) := by
  unfold foundLink
  split
  · rename_i hc
    obtain ⟨rfl, hchildren⟩ := hc
    obtain ⟨c, hcmem, rfl⟩ := List.mem_map.1 hmem
    obtain ⟨k, hk⟩ := List.mem_iff_getElem?.1 hcmem
    have hfc := refNode_firstChild_zero vp sets o (vp + 1) k c hk
    have hvox : o.voxel c = true := by
      by_contra hcon
      unfold SVONNode.HasChildren at hchildren
      rw [hfc] at hchildren
      simp [hcon, SVONLink.IsValid, SVONLink.GetInvalidLink] at hchildren
    rw [hfc, if_pos hvox]
    have hget : GetLeafNode (rasterized vp sets o xs) (SVONLink.make 0 k 0).myNodeIndex =
        .ok (leafAt xs k) := by
      unfold GetLeafNode
      rw [index_eq_ok]
      exact get_of_leafAt (hleaf k c hk).1
    rw [hget]
    simp only [bind_ok]
    split
    · exact ⟨_, rfl⟩
    · exact ⟨_, rfl⟩
  · exact ⟨_, rfl⟩

/-- `FindLinkInDirection` returns at every position of the rasterized
volume. -/
theorem FindLinkInDirection_total {vp : Nat} {sets : List (List Nat)} (o : Oracle)
    (xs : List SVONLeafNode) (hleaf : LeafFacts vp sets o xs) (l k d a : Nat) (link : SVONLink)
    (hl : l ≤ vp) (hk : (layerCodes vp sets l)[k]? = some a) :
    ∃ r, FindLinkInDirection (rasterized vp sets o xs) l k d link = .ok r := by
  rw [FindLinkInDirection_eq _ l k d link _ _ (rasterized_layer _ _ _ _ _ hl)
    (show _ = some (refNode vp sets o (vp + 1) l a) by rw [List.getElem?_map, hk]; rfl)]
  split
  · exact ⟨_, rfl⟩
  · split
    · rename_i j thisNode hscan
      obtain ⟨m, hm, _, _⟩ := scan_sound _ _ _ _ _ _ hscan
      have hmem : thisNode ∈ (layerCodes vp sets l).map (refNode vp sets o (vp + 1) l) := by
        have h1 := List.getElem?_mem hm
        split at h1
        · exact List.mem_of_mem_drop h1
        · exact List.mem_of_mem_take (List.mem_reverse.1 h1)
      obtain ⟨r, hr⟩ := foundLink_total o xs hleaf l j thisNode link hmem
      exact ⟨_, hr⟩
    · exact ⟨_, rfl⟩

/-- One turn of the climb loop that moves to the parent. -/
theorem climb_step (v : ASVONVolume) (aLayer aCode d fuel sl idx : Nat) (link : SVONLink)
    (r1 : Bool × SVONLink) (cur : SVONNode)
    (hf : FindLinkInDirection v sl idx d link = .ok r1) (h1 : r1.1 = false)
    (h2 : aLayer + 2 < v.myData.myLayers.length) (hcur : nodeAt v sl idx = .ok cur)
    (hp : cur.myParent.IsValid = true) :
    BuildNeighbourLinks.climb v aLayer aCode d (fuel + 1) sl idx link =
      BuildNeighbourLinks.climb v aLayer aCode d fuel cur.myParent.myLayerIndex
        cur.myParent.myNodeIndex r1.2 := by
  conv => lhs; unfold BuildNeighbourLinks.climb
  rw [hf]
  simp only [bind_ok]
  rw [if_pos ⟨h1, h2⟩, hcur]
  simp only [bind_ok]
  rw [if_pos hp]

/-- The climb loop ends when the search succeeds or the layer is the one
below the root. -/
theorem climb_stop (v : ASVONVolume) (aLayer aCode d fuel sl idx : Nat) (link : SVONLink)
    (r1 : Bool × SVONLink)
    (hf : FindLinkInDirection v sl idx d link = .ok r1)
    (h : ¬ (r1.1 = false ∧ aLayer + 2 < v.myData.myLayers.length)) :
    BuildNeighbourLinks.climb v aLayer aCode d fuel sl idx link = .ok r1.2 := by
  unfold BuildNeighbourLinks.climb
  rw [hf]
  simp only [bind_ok]
  rw [if_neg h]
  rfl

/-- The climb on a completed rasterized volume, at a position `m` layers above
the layer `L` it started from, returns with every amount of fuel that is at
least the number of layers left below the root, and the result does not depend
on the fuel: the loop turns at most `vp - (L + m)` times. -/
theorem climb_total {vp : Nat} {sets : List (List Nat)} (o : Oracle) (xs : List SVONLeafNode)
    (hch : Chain sets) (hcomp : Completed vp sets) (hleaf : LeafFacts vp sets o xs)
    (L d c0 : Nat) (hd : d < 6) :
    ∀ (n fuel m idx a : Nat) (link : SVONLink), vp - (L + m) = n → n ≤ fuel → L + m ≤ vp →
      (layerCodes vp sets (L + m))[idx]? = some a →
      ∃ r, BuildNeighbourLinks.climb (rasterized vp sets o xs) L c0 d fuel (L + m) idx link =
          .ok r ∧
        BuildNeighbourLinks.climb (rasterized vp sets o xs) L c0 d n (L + m) idx link = .ok r := by
  intro n
  induction n with
  | zero =>
    intro fuel m idx a link hn _ hm ha
    obtain ⟨r1, hf⟩ := FindLinkInDirection_total o xs hleaf (L + m) idx d a link hm ha
    have hlay := rasterized_layer vp sets o xs (L + m) hm
    have hnode : ((layerCodes vp sets (L + m)).map (refNode vp sets o (vp + 1) (L + m)))[idx]? =
        some (refNode vp sets o (vp + 1) (L + m) a) := by
      rw [List.getElem?_map, ha]; rfl
    have hs : (((layerCodes vp sets (L + m)).map (refNode vp sets o (vp + 1) (L + m))).map
        (·.myCode)).Pairwise (· < ·) := by
      rw [codes_rasterized_layer]; exact pairwise_layerCodes _ _ _
    have hstop : ¬ (r1.1 = false ∧
        L + 2 < (rasterized vp sets o xs).myData.myLayers.length) := by
      rintro ⟨h1, _⟩
      rcases FindLinkInDirection_result _ _ _ _ _ _ _ r1 hlay hnode hs hd hf with
        ⟨_, _, h3, _⟩ | ⟨h4, _⟩
      · have heq : L + m = vp := by omega
        rw [refNode_code, GetNodesPerSide_rasterized _ _ _ _ _ hm, heq, Nat.sub_self] at h3
        have hamem : a ∈ layerCodes vp sets (L + m) := List.getElem?_mem ha
        rw [heq] at hamem
        exact root_not_inCube hamem hd h3
      · rw [h1] at h4
        exact Bool.noConfusion h4
    exact ⟨r1.2, climb_stop _ _ _ _ _ _ _ _ _ hf hstop, climb_stop _ _ _ _ _ _ _ _ _ hf hstop⟩
  | succ n ih =>
    intro fuel m idx a link hn hfuel hm ha
    obtain ⟨fuel, rfl⟩ : ∃ f, fuel = f + 1 := ⟨fuel - 1, by omega⟩
    obtain ⟨r1, hf⟩ := FindLinkInDirection_total o xs hleaf (L + m) idx d a link hm ha
    by_cases hgo : r1.1 = false ∧ L + 2 < (rasterized vp sets o xs).myData.myLayers.length
    · have hlt : L + m < vp := by omega
      have hamem : a ∈ layerCodes vp sets (L + m) := List.getElem?_mem ha
      obtain ⟨hp1, hp2⟩ := parent_rasterized o hch hcomp hlt hamem
      have hcur := @nodeAt_rasterized_of vp sets o xs (L + m) idx a hm ha
      have hvalid : (refNode vp sets o (vp + 1) (L + m) a).myParent.IsValid = true := by
        rw [hp2]; rfl
      rw [climb_step _ _ _ _ fuel _ _ _ r1 _ hf hgo.1 hgo.2 hcur hvalid,
        climb_step _ _ _ _ n _ _ _ r1 _ hf hgo.1 hgo.2 hcur hvalid, hp2]
      simp only [SVONLink.make]
      exact ih fuel (m + 1) _ (a / 8) r1.2 (by omega) (by omega) (by omega) hp1
    · exact ⟨r1.2, climb_stop _ _ _ _ _ _ _ _ _ hf hgo, climb_stop _ _ _ _ _ _ _ _ _ hf hgo⟩

end SearchTotal

/-! ## The neighbour pass returns -/

section LinksTotal

/-- A loop over a list whose body cannot fail under the invariant does not
fail. -/
theorem foldlM_list_total {σ γ : Type} (f : σ → γ → Except Fault σ) (Inv : σ → Prop) :
    ∀ (xs : List γ) (s0 : σ), (∀ x ∈ xs, ∀ s, Inv s → ∃ s', f s x = .ok s' ∧ Inv s') →
      Inv s0 → ∃ s', xs.foldlM f s0 = .ok s' ∧ Inv s' := by
  intro xs
  induction xs with
  | nil => intro s0 _ h0; exact ⟨s0, rfl, h0⟩
  | cons x rest ih =>
    intro s0 hstep h0
    obtain ⟨s1, h1, hinv1⟩ := hstep x (List.mem_cons_self _ _) s0 h0
    obtain ⟨s2, h2, hinv2⟩ := ih s1 (fun y hy => hstep y (List.mem_cons_of_mem _ hy)) hinv1
    exact ⟨s2, by rw [List.foldlM_cons, h1]; exact h2, hinv2⟩

/-- The climb and the write of one direction return on every volume that
differs from the completed rasterized volume in neighbour links only. -/
theorem dirStep_total {vp : Nat} {sets : List (List Nat)} (o : Oracle) (xs : List SVONLeafNode)
    (hch : Chain sets) (hcomp : Completed vp sets) (hleaf : LeafFacts vp sets o xs)
    (L i a d : Nat) (hL : L < vp) (hi : (layerCodes vp sets L)[i]? = some a) (hd : d < 6)
    (w : ASVONVolume) (hskel : skeleton w = skeleton (rasterized vp sets o xs)) :
    ∃ w', BuildNeighbourLinks.dirStep L i w d = .ok w' ∧
      skeleton w' = skeleton (rasterized vp sets o xs) := by
  obtain ⟨n, hn, _, _, _⟩ := node_of_skeleton hskel.symm
    (@nodeAt_rasterized_of vp sets o xs L i a (by omega) hi)
  have hnum : w.myNumLayers = vp + 1 := by
    rw [numLayers_of_skeleton hskel]; rfl
  obtain ⟨r, hr, _⟩ := climb_total o xs hch hcomp hleaf L d n.myCode hd (vp - L) (vp + 1) 0 i a
    (n.neighbour d) rfl (by omega) (by omega) hi
  obtain ⟨lay, hlay, hget⟩ := nodeAt_eq_ok.1 hn
  unfold BuildNeighbourLinks.dirStep
  rw [hn]
  simp only [bind_ok]
  rw [climb_congr hskel, hnum]
  simp only [Nat.add_zero] at hr
  rw [hr]
  simp only [bind_ok]
  have hmod := @modifyNode_of_get w L i
    (fun n => { n with myNeighbours := n.myNeighbours.set d r }) lay n hlay hget
  refine ⟨_, hmod, ?_⟩
  rw [skeleton_modifyNode hmod (fun _ => rfl), hskel]

/-- `BuildNeighbourLinks` returns for every layer below the root on every
volume that differs from the completed rasterized volume in neighbour links
only. -/
theorem BuildNeighbourLinks_total {vp : Nat} {sets : List (List Nat)} (o : Oracle)
    (xs : List SVONLeafNode) (hch : Chain sets) (hcomp : Completed vp sets)
    (hleaf : LeafFacts vp sets o xs) (L : Nat) (hL : L < vp)
    (w : ASVONVolume) (hskel : skeleton w = skeleton (rasterized vp sets o xs)) :
    ∃ w', BuildNeighbourLinks w L = .ok w' ∧
      skeleton w' = skeleton (rasterized vp sets o xs) := by
  obtain ⟨lay, hlay, hcodes⟩ := layer_of_skeleton hskel.symm
    (rasterized_layer vp sets o xs L (by omega))
  rw [codes_rasterized_layer] at hcodes
  have hlen : lay.length = (layerCodes vp sets L).length := by
    have := congrArg List.length hcodes
    simpa using this
  unfold BuildNeighbourLinks
  rw [GetLayer_eq_ok.2 hlay]
  simp only [bind_ok]
  obtain ⟨w', hw', hinv⟩ := foldlM_range_total
    (fun w i => (List.range 6).foldlM (BuildNeighbourLinks.dirStep L i) w)
    (fun _ s => skeleton s = skeleton (rasterized vp sets o xs)) lay.length
    (by
      intro i s hi hs
      have hi2 : i < (layerCodes vp sets L).length := by omega
      obtain ⟨s', hs', hinv'⟩ := foldlM_range_total (BuildNeighbourLinks.dirStep L i)
        (fun _ t => skeleton t = skeleton (rasterized vp sets o xs)) 6
        (fun d t hd ht => dirStep_total o xs hch hcomp hleaf L i _ d hL
          (List.getElem?_eq_getElem hi2) hd t ht) s hs
      exact ⟨s', hs', hinv'⟩)
    w hskel
  exact ⟨w', hw', hinv⟩

/-- The loop of `Generate` over the layers below the root returns on a
completed rasterized volume. -/
theorem links_total {vp : Nat} {sets : List (List Nat)} (o : Oracle)
    (xs : List SVONLeafNode) (hch : Chain sets) (hcomp : Completed vp sets)
    (hleaf : LeafFacts vp sets o xs) :
    ∃ w, (List.range ((rasterized vp sets o xs).myNumLayers - 1)).reverse.foldlM
        (fun w i => BuildNeighbourLinks w i) (rasterized vp sets o xs) = .ok w := by
  obtain ⟨w, hw, _⟩ := foldlM_list_total (fun w i => BuildNeighbourLinks w i)
    (fun s => skeleton s = skeleton (rasterized vp sets o xs))
    (List.range ((rasterized vp sets o xs).myNumLayers - 1)).reverse (rasterized vp sets o xs)
    (by
      intro L hLmem s hs
      have hL : L < vp := by
        have := List.mem_range.1 (List.mem_reverse.1 hLmem)
        simpa [rasterized, prepared] using this
      exact BuildNeighbourLinks_total o xs hch hcomp hleaf L hL s hs)
    rfl
  exact ⟨w, hw⟩

/-- `Generate` returns whenever the rasterization does. -/
theorem run_of_rasterize (v : ASVONVolume) (o : Oracle) (w4 : ASVONVolume)
    (h : Generate.rasterize v o = .ok w4) : ∃ w, Generate.run v o = .ok w := by
  by_cases hvp : v.myVoxelPower ≤ 10
  swap
  · obtain ⟨_, _, _, _, hrun⟩ := run_beyond v o (by omega)
    exact ⟨_, hrun⟩
  obtain ⟨sets, xs, hsets, hcomp, hleaf, rfl⟩ := rasterize_eq v o w4 hvp h
  obtain ⟨w, hw⟩ := links_total o xs hsets.2.1 hcomp hleaf
  refine ⟨w, ?_⟩
  unfold Generate.run
  rw [h]
  exact hw

/-- `Generate` returns when every layer whose loop runs has a blocked-index
set or is the layer just above the sets. -/
theorem run_total (v : ASVONVolume) (o : Oracle) (sets : List (List Nat))
    (hprep : Generate.prepare v o = .ok (prepared v.myVoxelPower sets))
    (hcomp : Completed v.myVoxelPower sets) : ∃ w, Generate.run v o = .ok w := by
  obtain ⟨w4, h4⟩ := rasterize_total v o sets hprep hcomp
  exact run_of_rasterize v o w4 h4

end LinksTotal

/-! ## The chain of blocked-index sets -/

section ChainClaims

/-- In a chain, set `k` holds exactly the codes of the first set shifted right
by `3 k` bits. -/
theorem chain_mem (sets : List (List Nat)) (hch : Chain sets) (S : List Nat)
    (hS : sets[0]? = some S) :
    ∀ (k : Nat) (t : List Nat), sets[k]? = some t →
      ∀ x, x ∈ t ↔ ∃ c ∈ S, c >>> (3 * k) = x := by
  intro k
  induction k with
  | zero =>
    intro t ht x
    rw [hS] at ht
    simp only [Option.some.injEq] at ht
    subst ht
    simp
  | succ k ih =>
    intro t ht x
    have hlt : k < sets.length := by
      have := (List.getElem?_eq_some.1 ht).1
      omega
    have hs : sets[k]? = some sets[k] := List.getElem?_eq_getElem hlt
    rw [(hch k _ _ hs ht).1 x]
    constructor
    · rintro ⟨c, hc, rfl⟩
      obtain ⟨c0, hc0, rfl⟩ := (ih _ hs c).1 hc
      refine ⟨c0, hc0, ?_⟩
      rw [show 3 * (k + 1) = 3 * k + 3 by ring, Nat.shiftRight_add]
    · rintro ⟨c0, hc0, rfl⟩
      refine ⟨c0 >>> (3 * k), (ih _ hs _).2 ⟨c0, hc0, rfl⟩, ?_⟩
      rw [show 3 * (k + 1) = 3 * k + 3 by ring, Nat.shiftRight_add]

/-- C19. For a voxel power of at least 1 and a duplicate-free set `S` of
layer-1 codes below `8^(voxelPower - 1)` in `myBlockedIndices[0]`, the parent
loop of `FirstPassRasterize` returns within `voxelPower - 1` turns (`fuel`
counts the turns allowed): it leaves `m` sets with `1 ≤ m ≤ voxelPower`; set
`k` has no duplicates and holds exactly the codes `c >> 3k` of the codes `c`
of `S`; every set before the last has more than one entry and the last set
has at most one. -/
theorem first_pass_chain (vp nl fuel : Nat) (d : SVONData) (S : List Nat) (hvp : 1 ≤ vp)
    (hnd : S.Nodup) (hS : ∀ c ∈ S, c < 8 ^ (vp - 1)) (hfuel : vp ≤ fuel + 1) :
    ∃ sets, FirstPassRasterize.parents fuel ⟨vp, nl, [S], d⟩ 0 = .ok ⟨vp, nl, sets, d⟩ ∧
      1 ≤ sets.length ∧ sets.length ≤ vp ∧
      (∀ (k : Nat) (t : List Nat), sets[k]? = some t → t.Nodup ∧
        ∀ x, x ∈ t ↔ ∃ c ∈ S, c >>> (3 * k) = x) ∧
      (∀ (k : Nat) (t : List Nat), sets[k]? = some t → k + 1 < sets.length → 1 < t.length) ∧
      (∀ t, sets.getLast? = some t → t.length ≤ 1) := by
  have hch0 : Chain ([] ++ [S]) := by
    intro k s t hs ht
    have := (List.getElem?_eq_some.1 ht).1
    simp at this
  obtain ⟨rest, hfp, hch, hlen, hlast⟩ :=
    parents_spec fuel (vp - 1) vp nl d [] S hch0 hnd hS (by omega)
  simp only [List.nil_append, List.length_nil, List.singleton_append] at hfp hch hlast
  refine ⟨S :: rest, hfp, by simp, by simp; omega, ?_, ?_, hlast⟩
  · intro k t ht
    constructor
    · cases k with
      | zero =>
        simp only [List.getElem?_cons_zero, Option.some.injEq] at ht
        subst ht
        exact hnd
      | succ k =>
        have hlt : k < (S :: rest).length := by
          have := (List.getElem?_eq_some.1 ht).1
          omega
        exact (hch k _ _ (List.getElem?_eq_getElem hlt) ht).2.1
    · exact chain_mem _ hch S (List.getElem?_cons_zero) k t ht
  · intro k t ht hk
    exact (hch k t _ ht (List.getElem?_eq_getElem hk)).2.2

end ChainClaims

/-! ## Morton codes within the supported width, and the leaf masks -/

section CodecClaims

/-- The code of coordinates below `2^n` is below `8^n`. -/
theorem encode_lt : ∀ (n x y z : Nat), x < 2 ^ n → y < 2 ^ n → z < 2 ^ n →
    morton3D_64_encode x y z < 8 ^ n := by
  intro n
  induction n with
  | zero =>
    intro x y z hx hy hz
    have hx0 : x = 0 := by simpa using hx
    have hy0 : y = 0 := by simpa using hy
    have hz0 : z = 0 := by simpa using hz
    subst hx0; subst hy0; subst hz0
    rw [encode_zero]
    simp
  | succ n ih =>
    intro x y z hx hy hz
    rw [Nat.pow_succ] at hx hy hz
    have := ih (x / 2) (y / 2) (z / 2) (by omega) (by omega) (by omega)
    rw [encode_rec, Nat.pow_succ]
    omega

/-- C17. For coordinates of at most 21 bits each, decoding the Morton code of
`(x, y, z)` gives `(x, y, z)` back, and the code fits in 63 bits, so that no
bit of a 64-bit code is lost. -/
theorem morton_roundtrip (x y z : Nat) (hx : x < 2 ^ 21) (hy : y < 2 ^ 21) (hz : z < 2 ^ 21) :
    morton3D_64_decode (morton3D_64_encode x y z) = (x, y, z) ∧
      morton3D_64_encode x y z < 2 ^ 63 := by
  refine ⟨decode_encode x y z, ?_⟩
  have := encode_lt 21 x y z hx hy hz
  have h8 : (8 : Nat) ^ 21 = 2 ^ 63 := by norm_num
  omega

end CodecClaims

/-! ## The empty world -/

section EmptyWorld

theorem firstSet_eq_nil (vp : Nat) (o : Oracle)
    (h : ∀ i, i < 8 ^ (vp - 1) → o.firstPass i = false) : firstSet vp o = [] := by
  rw [List.eq_nil_iff_forall_not_mem]
  intro a ha
  have := firstSet_lt ha
  rw [h a this.1] at this
  exact Bool.noConfusion this.2

/-- A chain whose first set has at most one entry has no further set. -/
theorem chain_single (s : List Nat) (rest : List (List Nat)) (hch : Chain (s :: rest))
    (hs : s.length ≤ 1) : rest = [] := by
  cases rest with
  | nil => rfl
  | cons t rest =>
    have := (hch 0 s t (List.getElem?_cons_zero) (by simp)).2.2
    omega

/-- With no occupied first-pass cell `Generate.prepare` leaves one empty
blocked-index set, empty layers and no leaf. -/
theorem prepare_empty (v : ASVONVolume) (o : Oracle)
    (h : ∀ i, i < 8 ^ (v.myVoxelPower - 1) → o.firstPass i = false) :
    Generate.prepare v o = .ok (prepared v.myVoxelPower [[]]) := by
  obtain ⟨rest, hprep, hch, _, _⟩ := prepare_spec v o
  rw [firstSet_eq_nil _ _ h] at hprep hch
  rw [chain_single [] rest hch (by simp)] at hprep
  exact hprep

/-- Without a blocked code the loop of layer 0 changes nothing. -/
theorem RasterizeLayer_zero_empty (vp : Nat) (o : Oracle) :
    RasterizeLayer (prepared vp [[]]) o 0 = .ok (prepared vp [[]]) := by
  unfold RasterizeLayer
  rw [if_pos rfl]
  have hfold := foldlM_chain (RasterizeLayer.leafStep o)
    (fun _ => ((prepared vp [[]], 0) : ASVONVolume × Nat)) (GetNodesInLayer (prepared vp [[]]) 0).toNat
    (by
      intro n _
      unfold RasterizeLayer.leafStep
      simp [prepared, index])
  rw [hfold]
  rfl

/-- Above an empty layer the loop of a layer does not run. -/
theorem RasterizeLayer_succ_empty (vp : Nat) (o : Oracle) (k : Nat) (hk : k ≤ vp) :
    RasterizeLayer (prepared vp [[]]) o (k + 1) = .ok (prepared vp [[]]) := by
  unfold RasterizeLayer
  rw [if_neg (by omega)]
  have hget : GetLayer (prepared vp [[]]) (k + 1 - 1) = .ok [] := by
    rw [GetLayer_eq_ok]
    simp [prepared, List.getElem?_replicate]
    omega
  rw [hget]
  rfl

/-- In an empty layer `BuildNeighbourLinks` has no node to visit. -/
theorem BuildNeighbourLinks_empty (vp : Nat) (L : Nat) (hL : L ≤ vp) :
    BuildNeighbourLinks (prepared vp [[]]) L = .ok (prepared vp [[]]) := by
  unfold BuildNeighbourLinks
  have hget : GetLayer (prepared vp [[]]) L = .ok [] := by
    rw [GetLayer_eq_ok]
    simp [prepared, List.getElem?_replicate]
    omega
  rw [hget]
  rfl

/-- C14. When the oracle reports no first-pass cell occupied, `Generate`
returns `true`, each of the `voxelPower + 1` layers has no node, and the
leaf array is empty. -/
theorem empty_world_build (v : ASVONVolume) (o : Oracle)
    (h : ∀ i, o.firstPass i = false) :
    ∃ w, Generate v o = .ok (true, w) ∧ w.myNumLayers = v.myVoxelPower + 1 ∧
      w.myData.myLayers = List.replicate (v.myVoxelPower + 1) [] ∧
      w.myData.myLeafNodes = [] := by
  refine ⟨prepared v.myVoxelPower [[]], ?_, rfl, rfl, rfl⟩
  have hprep := prepare_empty v o (fun i _ => h i)
  have hrast : Generate.rasterize v o = .ok (prepared v.myVoxelPower [[]]) := by
    unfold Generate.rasterize
    rw [hprep]
    simp only [bind_ok]
    exact foldlM_chain (fun w i => RasterizeLayer w o i) (fun _ => prepared v.myVoxelPower [[]])
      (prepared v.myVoxelPower [[]]).myNumLayers
      (by
        intro n hn
        cases n with
        | zero => exact RasterizeLayer_zero_empty _ o
        | succ k =>
          exact RasterizeLayer_succ_empty _ o k (by simp [prepared] at hn; omega))
  unfold Generate Generate.run
  rw [hrast]
  simp only [bind_ok]
  obtain ⟨w, hw, hinv⟩ := foldlM_list_total (fun w i => BuildNeighbourLinks w i)
    (fun s => s = prepared v.myVoxelPower [[]])
    (List.range ((prepared v.myVoxelPower [[]]).myNumLayers - 1)).reverse
    (prepared v.myVoxelPower [[]])
    (by
      intro L hL s hs
      subst hs
      have := List.mem_range.1 (List.mem_reverse.1 hL)
      exact ⟨_, BuildNeighbourLinks_empty _ L (by simp [prepared] at this; omega), rfl⟩)
    rfl
  rw [hw, hinv]
  rfl

end EmptyWorld

/-! ## Voxel power 1 -/

section PowerOne

/-- The blocked-index sets of a build with voxel power 1. -/
theorem sets_power_one (o : Oracle) (sets : List (List Nat)) (h : SetsOK 1 o sets) :
    sets = [firstSet 1 o] := by
  obtain ⟨hhead, _, hlen, _⟩ := h
  cases sets with
  | nil => simp at hhead
  | cons s rest =>
    simp only [List.head?_cons, Option.some.injEq] at hhead
    subst hhead
    have : rest.length = 0 := by simp only [List.length_cons] at hlen; omega
    rw [List.length_eq_zero] at this
    rw [this]

theorem layerCodes_power_one (o : Oracle) :
    layerCodes 1 [firstSet 1 o] 0 = if o.firstPass 0 then List.range 8 else [] := by
  have hS : firstSet 1 o = if o.firstPass 0 then [0] else [] := by
    rw [firstSet_eq o (Nat.le_refl 1) (by omega)]
    simp only [Nat.sub_self, Nat.pow_zero]
    by_cases h : o.firstPass 0 = true
    · simp [h, List.range_succ]
    · simp [h, List.range_succ]
  rw [hS]
  by_cases h : o.firstPass 0 = true
  · rw [if_pos h, if_pos h]
    decide
  · rw [if_neg h, if_neg h]
    decide

/-- C13 (as the code behaves). With voxel power 1 `Generate` returns for every
oracle; layer 0 holds the eight nodes with codes 0..7 when the first pass
reports the enclosing layer-1 cell occupied and no node otherwise, and a
layer-0 node has a valid first child exactly when the oracle reports its own
cell occupied. -/
theorem single_cell_build (v : ASVONVolume) (o : Oracle) (hvp : v.myVoxelPower = 1) :
    ∃ w layer0, Generate v o = .ok (true, w) ∧ w.myData.myLayers[0]? = some layer0 ∧
      layer0.map (·.myCode) = (if o.firstPass 0 then List.range 8 else []) ∧
      ∀ n ∈ layer0, n.myFirstChild.IsValid = o.voxel n.myCode := by
  obtain ⟨rest, hprep, hch, hlen, hlast⟩ := prepare_spec v o
  have hcomp : Completed v.myVoxelPower (firstSet v.myVoxelPower o :: rest) := by
    intro l h1 h2 _
    simp only [List.length_cons]
    omega
  obtain ⟨w, hw⟩ := run_total v o _ hprep hcomp
  obtain ⟨sets, xs, hsets, _, _, _, hskel, _⟩ := run_eq v o w (by omega) hw
  rw [hvp] at hsets hskel
  rw [sets_power_one o sets hsets] at hskel
  obtain ⟨lay, hlay, hcodes⟩ := layer_of_skeleton hskel.symm
    (rasterized_layer 1 [firstSet 1 o] o xs 0 (by omega))
  rw [codes_rasterized_layer, layerCodes_power_one] at hcodes
  refine ⟨w, lay, ?_, hlay, hcodes, ?_⟩
  · unfold Generate
    rw [hw]
    rfl
  · intro n hn
    obtain ⟨k, hk⟩ := List.mem_iff_getElem?.1 hn
    have hnode : nodeAt w 0 k = .ok n := nodeAt_eq_ok.2 ⟨lay, hlay, hk⟩
    obtain ⟨n4, hn4, hc, hfc, _⟩ := node_of_skeleton hskel hnode
    obtain ⟨_, hj, hn4eq⟩ := nodeAt_rasterized hn4
    have hfirst := refNode_firstChild_zero 1 [firstSet 1 o] o (1 + 1) k _ hj
    rw [← hn4eq, hfc] at hfirst
    rw [hfirst, ← hc]
    by_cases hvox : o.voxel n4.myCode = true
    · rw [if_pos hvox, hvox]; rfl
    · rw [if_neg hvox]
      simp only [Bool.not_eq_true] at hvox
      rw [hvox]; rfl

end PowerOne

/-! ## The solid world -/

section SolidWorld

theorem two_mem_length {t : List Nat} {a b : Nat} (ha : a ∈ t) (hb : b ∈ t) (hab : a ≠ b) :
    1 < t.length := by
  match t, ha, hb with
  | [], ha, _ => simp at ha
  | [x], ha, hb =>
    simp only [List.mem_singleton] at ha hb
    omega
  | _ :: _ :: _, _, _ => simp

/-- When every first-pass cell is occupied the first pass derives as many sets
as the voxel power. -/
theorem sets_length_solid (vp : Nat) (o : Oracle) (hvp : 1 ≤ vp) (h11 : vp ≤ 11)
    (h1 : ∀ i, o.firstPass i = true) (sets : List (List Nat)) (hsets : SetsOK vp o sets) : sets.length = vp := by
  obtain ⟨hhead, hch, hlen, hlast⟩ := hsets
  have hpos : 0 < sets.length := by
    cases sets with
    | nil => simp at hhead
    | cons s rest => simp
  by_contra hne
  have hlt : sets.length - 1 < vp - 1 := by omega
  have hget : sets[sets.length - 1]? = some sets[sets.length - 1] :=
    List.getElem?_eq_getElem (by omega)
  have h0 : sets[0]? = some (firstSet vp o) := by
    rw [← hhead]
    cases sets with
    | nil => simp at hpos
    | cons s rest => simp
  have hmem := chain_mem sets hch (firstSet vp o) h0 (sets.length - 1) _ hget
  have hzero : 0 ∈ sets[sets.length - 1] :=
    (hmem 0).2 ⟨0, (mem_firstSet hvp h11).2 ⟨by positivity, h1 0⟩, by simp⟩
  have hone : 1 ∈ sets[sets.length - 1] := by
    refine (hmem 1).2 ⟨8 ^ (sets.length - 1), (mem_firstSet hvp h11).2 ⟨?_, h1 _⟩, ?_⟩
    · exact Nat.pow_lt_pow_right (by omega) hlt
    · rw [Nat.shiftRight_eq_div_pow, Nat.pow_mul]
      exact Nat.div_self (by positivity)
  have hlen2 := two_mem_length hzero hone (by omega)
  have := hlast sets[sets.length - 1] (by
    rw [List.getLast?_eq_getElem?]
    exact hget)
  omega

/-- A mask whose bits below 64 are set and whose other bits are clear is the
completely blocked mask. -/
theorem completelyBlocked_of_bits (l : SVONLeafNode)
    (h : ∀ b, l.GetNode b = decide (b < 64)) : l.IsCompletelyBlocked = true := by
  unfold SVONLeafNode.IsCompletelyBlocked
  have : l.myVoxelGrid = 2 ^ 64 - 1 := by
    apply Nat.eq_of_testBit_eq
    intro i
    rw [Nat.testBit_two_pow_sub_one]
    exact h i
  rw [this]
  rfl

/-- When every first-pass cell is occupied, layer 0 holds every code below
`8^vp`. -/
theorem mem_layerCodes_solid {vp : Nat} {o : Oracle} (hvp : 1 ≤ vp) (h11 : vp ≤ 11)
    (h1 : ∀ i, o.firstPass i = true) {sets : List (List Nat)} (hsets : SetsOK vp o sets)
    {c : Nat} (hc : c < 8 ^ vp) : c ∈ layerCodes vp sets 0 := by
  obtain ⟨hhead, _, _, _⟩ := hsets
  cases sets with
  | nil => simp at hhead
  | cons s rest =>
    simp only [List.head?_cons, Option.some.injEq] at hhead
    subst hhead
    rw [mem_layerCodes, layerQ_zero]
    refine ⟨by simpa using hc, ?_⟩
    simp only [decide_eq_true_eq]
    rw [mem_firstSet hvp h11]
    refine ⟨?_, h1 _⟩
    have h8 : 8 ^ vp = 8 * 8 ^ (vp - 1) := by
      rw [show vp = (vp - 1) + 1 by omega, Nat.pow_succ, Nat.mul_comm]
      simp
    rw [h8] at hc
    omega

/-- C15. For a voxel power of at least 1 and an oracle that reports every
query occupied, `Generate` returns `true`; every layer-0 node has a leaf whose
64 bits are all set, and for every layer-0 node and each of the six directions
`FindLinkInDirection` at layer 0 reports success with an invalid link and the
stored neighbour link is the invalid link. Up to voxel power 10 layer 0 holds
every code below `8^voxelPower`; beyond, where the number of layer-0 cells is
outside the `int32` range, it holds no node. -/
theorem solid_world_build (v : ASVONVolume) (o : Oracle) (hvp : 1 ≤ v.myVoxelPower)
    (h1 : ∀ i, o.firstPass i = true) (h2 : ∀ i, o.voxel i = true)
    (h3 : ∀ i s, o.subVoxel i s = true) :
    ∃ w layer0, Generate v o = .ok (true, w) ∧ w.myData.myLayers[0]? = some layer0 ∧
      (v.myVoxelPower ≤ 10 → layer0.map (·.myCode) = List.range (8 ^ v.myVoxelPower)) ∧
      (10 < v.myVoxelPower → layer0 = []) ∧
      ∀ k n, nodeAt w 0 k = .ok n →
        (n.myFirstChild.IsValid = true ∧
          ∃ leaf, GetLeafNode w n.myFirstChild.myNodeIndex = .ok leaf ∧
            leaf.IsCompletelyBlocked = true ∧ ∀ s, s < 64 → leaf.GetNode s = true) ∧
        ∀ d, d < 6 →
          (∀ link, FindLinkInDirection w 0 k d link = .ok (true, SVONLink.GetInvalidLink)) ∧
          n.neighbour d = SVONLink.GetInvalidLink := by
  by_cases h10 : v.myVoxelPower ≤ 10
  swap
  · obtain ⟨sets, _, _, _, hrun⟩ := run_beyond v o (by omega)
    refine ⟨prepared v.myVoxelPower sets, [], ?_, ?_, fun h => absurd h h10, fun _ => rfl,
      fun k n hn => absurd hn (nodeAt_prepared _ _ 0 k n)⟩
    · unfold Generate
      rw [hrun]
      rfl
    · simp [prepared, List.getElem?_replicate]
  have h11 : v.myVoxelPower ≤ 11 := by omega
  obtain ⟨rest, hprep, hch, hlen, hlast⟩ := prepare_spec v o
  have hsets0 : SetsOK v.myVoxelPower o (firstSet v.myVoxelPower o :: rest) :=
    ⟨rfl, hch, by simp only [List.length_cons]; omega, hlast⟩
  have hcomp0 : Completed v.myVoxelPower (firstSet v.myVoxelPower o :: rest) := by
    intro l _ hl _
    rw [sets_length_solid _ o hvp h11 h1 _ hsets0]
    exact hl
  obtain ⟨w, hw⟩ := run_total v o _ hprep hcomp0
  obtain ⟨sets, xs, hsets, hcomp, hleaf, _, hskel, hclimb⟩ := run_eq v o w h10 hw
  obtain ⟨lay, hlay, hcodes⟩ := layer_of_skeleton hskel.symm
    (rasterized_layer v.myVoxelPower sets o xs 0 (by omega))
  have hall : layerCodes v.myVoxelPower sets 0 = List.range (8 ^ v.myVoxelPower) := by
    rw [layerCodes_eq]
    simp only [Nat.sub_zero]
    rw [List.filter_eq_self]
    intro c hc
    exact (mem_layerCodes.1 (mem_layerCodes_solid hvp h11 h1 hsets (List.mem_range.1 hc))).2
  rw [codes_rasterized_layer, hall] at hcodes
  refine ⟨w, lay, ?_, hlay, fun _ => hcodes, fun h => absurd h10 (by omega), ?_⟩
  · unfold Generate
    rw [hw]
    rfl
  intro k n hn
  obtain ⟨n4, hn4, hc, hfc, _⟩ := node_of_skeleton hskel hn
  obtain ⟨_, hk, hn4eq⟩ := nodeAt_rasterized hn4
  rw [hc] at hk hn4eq
  -- the leaf of a layer-0 node of the rasterized volume
  have hnodeleaf : ∀ (j c : Nat), (layerCodes v.myVoxelPower sets 0)[j]? = some c →
      (refNode v.myVoxelPower sets o (v.myVoxelPower + 1) 0 c).myFirstChild =
        SVONLink.make 0 j 0 ∧
      GetLeafNode (rasterized v.myVoxelPower sets o xs) j = .ok (leafAt xs j) ∧
      (leafAt xs j).IsCompletelyBlocked = true ∧ ∀ s, s < 64 → (leafAt xs j).GetNode s = true := by
    intro j c hj
    obtain ⟨hlt, _, hbits⟩ := hleaf j c hj
    refine ⟨?_, ?_, ?_, ?_⟩
    · rw [refNode_firstChild_zero _ _ _ _ j c hj, if_pos (h2 c)]
    · unfold GetLeafNode
      rw [index_eq_ok]
      exact get_of_leafAt hlt
    · apply completelyBlocked_of_bits
      intro b
      rw [hbits b, h2, h3]
      simp
    · intro s hs
      rw [hbits s, h2, h3]
      simp [hs]
  obtain ⟨hf1, hf2, hf3, hf4⟩ := hnodeleaf k n.myCode hk
  constructor
  · rw [← hfc, hn4eq, hf1]
    refine ⟨rfl, leafAt xs k, ?_, hf3, hf4⟩
    simp only [SVONLink.make]
    unfold GetLeafNode at hf2 ⊢
    rw [leaves_of_skeleton hskel]
    exact hf2
  · intro d hd
    have hfind : ∀ link, FindLinkInDirection (rasterized v.myVoxelPower sets o xs) 0 k d link =
        .ok (true, SVONLink.GetInvalidLink) := by
      intro link
      have hlayer := rasterized_layer v.myVoxelPower sets o xs 0 (by omega)
      have hnode : ((layerCodes v.myVoxelPower sets 0).map
          (refNode v.myVoxelPower sets o (v.myVoxelPower + 1) 0))[k]? =
          some (refNode v.myVoxelPower sets o (v.myVoxelPower + 1) 0 n.myCode) := by
        rw [List.getElem?_map, hk]; rfl
      by_cases hin : inCube (GetNodesPerSide (rasterized v.myVoxelPower sets o xs) 0)
          (neighbourCoord n.myCode d)
      · have hin2 := hin
        rw [GetNodesPerSide_rasterized _ _ _ _ _ (by omega)] at hin2
        simp only [Nat.sub_zero] at hin2
        unfold inCube at hin2
        have hcode : neighbourCode n.myCode d < 8 ^ v.myVoxelPower := by
          unfold neighbourCode
          apply encode_lt <;> omega
        have hmem := mem_layerCodes_solid hvp h11 h1 hsets hcode
        obtain ⟨j, hj⟩ := List.mem_iff_getElem?.1 hmem
        obtain ⟨hg1, hg2, hg3, _⟩ := hnodeleaf j _ hj
        rw [FindLinkInDirection_found _ 0 k d link _ _
          (refNode v.myVoxelPower sets o (v.myVoxelPower + 1) 0 (neighbourCode n.myCode d)) j
          hlayer hnode (by rw [codes_rasterized_layer]; exact pairwise_layerCodes _ _ _) hd
          (by rw [refNode_code]; exact hin)
          (by rw [List.getElem?_map, hj]; rfl)
          (by rw [refNode_code, refNode_code])]
        unfold foundLink
        rw [if_pos ⟨rfl, by unfold SVONNode.HasChildren; rw [hg1]; rfl⟩, hg1]
        simp only [SVONLink.make]
        rw [hg2]
        simp only [bind_ok]
        rw [if_pos hg3]
        rfl
      · rw [FindLinkInDirection_eq _ 0 k d link _ _ hlayer hnode, refNode_code, if_pos hin]
        rfl
    refine ⟨?_, ?_⟩
    · intro link
      rw [FindLinkInDirection_congr hskel]
      exact hfind link
    · have h5 := hclimb 0 k n d (by omega) hd hn
      rw [climb_of_found _ 0 n.myCode d (v.myVoxelPower + 1) 0 k _ _
        (hfind SVONLink.GetInvalidLink)] at h5
      simp only [Except.ok.injEq] at h5
      exact h5.symm

end SolidWorld

/-! ## Which cells get a node -/

section Sparsity

theorem contains_getD_lt {sets : List (List Nat)} {l a : Nat}
    (h : (sets.getD l []).contains a = true) : l < sets.length := by
  by_contra hcon
  rw [List.getD_eq_getElem?_getD, List.getElem?_eq_none (by omega)] at h
  simp at h

/-- A code of a blocked-index set comes from an occupied first-pass cell. -/
theorem blocked_origin {vp : Nat} {o : Oracle} {sets : List (List Nat)} (hsets : SetsOK vp o sets)
    {l a : Nat} (h : (sets.getD l []).contains a = true) :
    ∃ c, c < 8 ^ (vp - 1) ∧ o.firstPass c = true ∧ c >>> (3 * l) = a := by
  obtain ⟨hhead, hch, _, _⟩ := hsets
  have hlt := contains_getD_lt h
  have h0 : sets[0]? = some (firstSet vp o) := by
    rw [← hhead]
    cases sets with
    | nil => simp at hlt
    | cons s rest => simp
  have hget : sets[l]? = some (sets.getD l []) := by
    rw [List.getD_eq_getElem?_getD, List.getElem?_eq_getElem hlt]; rfl
  obtain ⟨c, hc, hca⟩ := (chain_mem sets hch _ h0 l _ hget a).1 ((contains_iff_mem _ _).1 h)
  exact ⟨c, (firstSet_lt hc).1, (firstSet_lt hc).2, hca⟩

/-- C12 (as the code behaves). In a build that returns, the parent cell of
every node of every layer `L` is an ancestor-or-self of a first-pass cell that
the oracle reports occupied: the code of the node shifted right by 3 bits
equals `c >> 3 L` for such a cell `c`. The eight children of a cell are
allocated together, so the subtree of the node itself may hold no occupied
cell. -/
theorem node_beside_occupied_ancestor (v : ASVONVolume) (o : Oracle) (w : ASVONVolume)
    (h : Generate.run v o = .ok w) (L k : Nat) (n : SVONNode) (hn : nodeAt w L k = .ok n) :
    ∃ c, c < 8 ^ (v.myVoxelPower - 1) ∧ o.firstPass c = true ∧ n.myCode >>> 3 = c >>> (3 * L) := by
  obtain ⟨sets, xs, hsets, hcomp, _, _, hskel, _⟩ :=
    run_eq v o w (power_le_of_node v o w (Or.inr h) L k n hn) h
  obtain ⟨n4, hn4, hc, _, _⟩ := node_of_skeleton hskel hn
  obtain ⟨hL, hk, _⟩ := nodeAt_rasterized hn4
  rw [hc] at hk
  have hmem := List.getElem?_mem hk
  obtain ⟨hlt, hq⟩ := mem_layerCodes.1 hmem
  unfold layerQ blockedQ at hq
  simp only [Bool.and_eq_true, Bool.or_eq_true, decide_eq_true_eq] at hq
  obtain ⟨hbuilt, hq⟩ := hq
  rcases hq with hq | hq
  · -- the layer just above the blocked-index sets
    have hpos : 0 < sets.length := by
      obtain ⟨hhead, _⟩ := hsets
      cases sets with
      | nil => simp at hhead
      | cons s rest => simp
    obtain ⟨l, rfl⟩ : ∃ l, L = l + 1 := ⟨L - 1, by omega⟩
    have hLvp : l + 1 = v.myVoxelPower := by
      by_contra hne
      have hlt2 : l + 1 < v.myVoxelPower := by omega
      have h8 : 1 < 8 ^ (v.myVoxelPower - (l + 1)) :=
        Nat.one_lt_pow (by omega) (by omega)
      have hm : ∀ i, i < 2 → i ∈ layerCodes v.myVoxelPower sets (l + 1) := by
        intro i hi
        rw [mem_layerCodes]
        refine ⟨by omega, ?_⟩
        unfold layerQ blockedQ
        simp only [Bool.and_eq_true, Bool.or_eq_true, decide_eq_true_eq]
        exact ⟨hbuilt, Or.inl hq⟩
      have := hcomp (l + 2) (by omega) (by omega)
        (two_mem_length (hm 0 (by omega)) (hm 1 (by omega)) (by omega))
      omega
    -- the layer below has a node, whose parent code is in the last set
    have hbelow : 1 < (layerCodes v.myVoxelPower sets l).length := by
      simpa [built] using hbuilt
    have hj : (layerCodes v.myVoxelPower sets l)[0]? =
        some ((layerCodes v.myVoxelPower sets l)[0]) := List.getElem?_eq_getElem (by omega)
    obtain ⟨_, hq2⟩ := mem_layerCodes.1 (List.getElem?_mem hj)
    unfold layerQ blockedQ at hq2
    simp only [Bool.and_eq_true, Bool.or_eq_true, decide_eq_true_eq] at hq2
    rcases hq2.2 with hq3 | hq3
    · omega
    · obtain ⟨c, hc1, hc2, _⟩ := blocked_origin hsets hq3
      refine ⟨c, hc1, hc2, ?_⟩
      rw [← hLvp, Nat.sub_self, Nat.pow_zero] at hlt
      have hn0 : n.myCode = 0 := by omega
      rw [hn0, Nat.shiftRight_eq_div_pow, Nat.shiftRight_eq_div_pow, Nat.pow_mul]
      have hlt3 : c < (2 ^ 3) ^ (l + 1) := by
        have : (8 : Nat) ^ (v.myVoxelPower - 1) ≤ 8 ^ (l + 1) :=
          Nat.pow_le_pow_right (by omega) (by omega)
        have h23 : (2 : Nat) ^ 3 = 8 := by norm_num
        rw [h23]
        omega
      rw [Nat.div_eq_of_lt hlt3]
  · obtain ⟨c, hc1, hc2, hc3⟩ := blocked_origin hsets hq
    exact ⟨c, hc1, hc2, by rw [hc3, shiftRight_three]⟩

end Sparsity

/-! ## The previous contents of the volume -/

section PriorState

theorem map_ok {α β : Type} (f : α → β) (a : α) :
    Except.map f (Except.ok a : Except Fault α) = .ok (f a) := rfl

theorem map_error {α β : Type} (f : α → β) (e : Fault) :
    Except.map f (Except.error e : Except Fault α) = .error e := rfl

/-- A loop whose body commutes with a change of the state commutes with it. -/
theorem foldlM_map_comm {σ γ : Type} (f : σ → γ → Except Fault σ) (T : σ → σ)
    (hf : ∀ s x, f (T s) x = (f s x).map T) :
    ∀ (xs : List γ) (s : σ), xs.foldlM f (T s) = (xs.foldlM f s).map T := by
  intro xs
  induction xs with
  | nil => intro s; rfl
  | cons x rest ih =>
    intro s
    rw [List.foldlM_cons, List.foldlM_cons, hf]
    cases h : f s x with
    | error e => rfl
    | ok s1 =>
      rw [map_ok, bind_ok, bind_ok]
      exact ih s1

theorem blockedAdd_setData (d : SVONData) (w : ASVONVolume) (k c : Nat) :
    blockedAdd (setData d w) k c = (blockedAdd w k c).map (setData d) := by
  unfold blockedAdd index
  simp only [setData]
  cases w.myBlockedIndices[k]? <;> rfl

theorem parents_setData (d : SVONData) :
    ∀ (fuel : Nat) (w : ASVONVolume) (k : Nat),
      FirstPassRasterize.parents fuel (setData d w) k =
        (FirstPassRasterize.parents fuel w k).map (setData d) := by
  intro fuel
  induction fuel with
  | zero =>
    intro w k
    unfold FirstPassRasterize.parents index
    simp only [setData]
    cases w.myBlockedIndices[k]? with
    | none => rfl
    | some cur =>
      simp only [bind_ok]
      split <;> rfl
  | succ fuel ih =>
    intro w k
    unfold FirstPassRasterize.parents index
    simp only [setData]
    cases w.myBlockedIndices[k]? with
    | none => rfl
    | some cur =>
      simp only [bind_ok]
      split
      · have hfold := foldlM_map_comm
          (fun w code => blockedAdd w (k + 1) (code >>> 3)) (setData d)
          (fun s x => blockedAdd_setData d s (k + 1) (x >>> 3)) cur
          { w with myBlockedIndices := w.myBlockedIndices ++ [[]] }
        simp only [setData] at hfold
        erw [hfold]
        cases cur.foldlM (fun w code => blockedAdd w (k + 1) (code >>> 3))
            { w with myBlockedIndices := w.myBlockedIndices ++ [[]] } with
        | error e => rfl
        | ok w1 =>
          rw [map_ok, bind_ok, bind_ok]
          exact ih w1 (k + 1)
      · rfl

/-- `FirstPassRasterize` neither reads nor writes the octree data. -/
theorem FirstPassRasterize_setData (d : SVONData) (w : ASVONVolume) (o : Oracle) :
    FirstPassRasterize (setData d w) o = (FirstPassRasterize w o).map (setData d) := by
  unfold FirstPassRasterize
  have hn : GetNodesInLayer (setData d w) 1 = GetNodesInLayer w 1 := rfl
  rw [hn]
  have hfold := foldlM_map_comm
    (fun w i => if o.firstPass i then blockedAdd w 0 i else pure w) (setData d)
    (fun s x => by
      by_cases h : o.firstPass x = true
      · simp only [h, if_true]; exact blockedAdd_setData d s 0 x
      · simp only [h]; rfl)
    (List.range (GetNodesInLayer w 1).toNat)
    { w with myBlockedIndices := w.myBlockedIndices ++ [[]] }
  simp only [setData] at hfold
  erw [hfold]
  cases (List.range (GetNodesInLayer w 1).toNat).foldlM
      (fun w i => if o.firstPass i then blockedAdd w 0 i else pure w)
      { w with myBlockedIndices := w.myBlockedIndices ++ [[]] } with
  | error e => rfl
  | ok w1 =>
    rw [map_ok, bind_ok, bind_ok]
    exact parents_setData d _ w1 0

/-- `Generate.prepare` depends on the voxel power only. -/
theorem prepare_canonical (v : ASVONVolume) (o : Oracle) :
    Generate.prepare v o = Generate.prepare ⟨v.myVoxelPower, 0, [], ⟨[], []⟩⟩ o := by
  unfold Generate.prepare
  simp only
  have h1 := FirstPassRasterize_setData { v.myData with myLayers := [] }
    ⟨v.myVoxelPower, v.myVoxelPower + 1, [], ⟨[], []⟩⟩ o
  simp only [setData] at h1
  erw [h1]
  cases hfp : FirstPassRasterize ⟨v.myVoxelPower, v.myVoxelPower + 1, [], ⟨[], []⟩⟩ o with
  | error e => rfl
  | ok v1 =>
    have hl : v1.myData.myLayers = [] := by
      have h2 := FirstPassRasterize_setData ⟨[], []⟩
        ⟨v.myVoxelPower, v.myVoxelPower + 1, [], ⟨[], []⟩⟩ o
      simp only [setData] at h2
      erw [hfp] at h2
      have h3 := Except.ok.inj h2
      rw [h3]
      rfl
    rw [map_ok, bind_ok, bind_ok]
    simp only [setData]
    cases index v1.myBlockedIndices 0 with
    | error e => rfl
    | ok s =>
      rw [hl]

theorem generate_congr (v v' : ASVONVolume) (o : Oracle)
    (h : v.myVoxelPower = v'.myVoxelPower) : Generate v o = Generate v' o := by
  unfold Generate Generate.run Generate.rasterize
  rw [prepare_canonical v, prepare_canonical v', h]

/-- C16. `Generate` does not depend on the previous contents of the volume:
two volumes with the same voxel power give, for the same oracle, the same
result (the same layers with all codes and links, the same leaves, the same
blocked-index sets), whatever their layers, leaf arrays, blocked-index sets
and layer counts were before the call; and `Generate` run again on the
volume it has left gives that volume again. -/
theorem generate_independent_of_prior_state (v v' : ASVONVolume) (o : Oracle)
    (h : v.myVoxelPower = v'.myVoxelPower) :
    Generate v o = Generate v' o ∧
      ∀ w, Generate v o = .ok (true, w) → Generate w o = .ok (true, w) := by
  refine ⟨generate_congr v v' o h, ?_⟩
  intro w hw
  have hrun : Generate.run v o = .ok w := by
    unfold Generate at hw
    rw [bind_eq_ok] at hw
    obtain ⟨w1, h1, h2⟩ := hw
    simp only [pure_eq_ok, Except.ok.injEq, Prod.mk.injEq, true_and] at h2
    rw [← h2]
    exact h1
  have hp : w.myVoxelPower = v.myVoxelPower := by
    by_cases h10 : v.myVoxelPower ≤ 10
    · obtain ⟨sets, xs, _, _, _, _, hskel, _⟩ := run_eq v o w h10 hrun
      rw [power_of_skeleton hskel]; rfl
    · obtain ⟨sets, rfl⟩ := eq_prepared_beyond v o w (by omega) (Or.inr hrun)
      rfl
  rw [generate_congr w v o hp]
  exact hw

end PriorState

/-! ## The size of the leaf array -/

section LeafCount

end LeafCount

/-! ## Termination of the neighbour pass -/

section LinksTermination

/-- C20. On every rasterization that returns, the neighbour pass returns. For
a node of a layer `L` below the root and a direction, the climb loop returns
with `voxelPower - L` units of fuel, one unit being spent per turn of the loop,
and with every larger amount it returns the same link: it turns at most
`rootLayer - L` times, and no read of a layer or of a node in it is out of
range. At the root layer `FindLinkInDirection` reports success with an invalid
link for every direction. `BuildNeighbourLinks` returns for every layer below
the root, and so does `Generate`. -/
theorem neighbour_links_terminate (v : ASVONVolume) (o : Oracle) (w4 : ASVONVolume)
    (h : Generate.rasterize v o = .ok w4) :
    (∀ (L k d : Nat) (n : SVONNode) (link : SVONLink), L < v.myVoxelPower → d < 6 →
      nodeAt w4 L k = .ok n →
      ∃ r, BuildNeighbourLinks.climb w4 L n.myCode d (v.myVoxelPower - L) L k link = .ok r ∧
        ∀ fuel, v.myVoxelPower - L ≤ fuel →
          BuildNeighbourLinks.climb w4 L n.myCode d fuel L k link = .ok r) ∧
    (∀ (k d : Nat) (n : SVONNode) (link : SVONLink), d < 6 →
      nodeAt w4 v.myVoxelPower k = .ok n →
      FindLinkInDirection w4 v.myVoxelPower k d link = .ok (true, SVONLink.GetInvalidLink)) ∧
    (∀ L, L < v.myVoxelPower → ∃ w', BuildNeighbourLinks w4 L = .ok w') ∧
    ∃ w, Generate.run v o = .ok w := by
  by_cases h10 : v.myVoxelPower ≤ 10
  swap
  · obtain ⟨sets, rfl⟩ := eq_prepared_beyond v o w4 (by omega) (Or.inl h)
    exact ⟨fun L k d n link _ _ hn => absurd hn (nodeAt_prepared _ _ L k n),
      fun k d n link _ hn => absurd hn (nodeAt_prepared _ _ _ k n),
      fun L hL => ⟨_, BuildNeighbourLinks_prepared _ _ L (by omega)⟩, run_of_rasterize v o _ h⟩
  obtain ⟨sets, xs, hsets, hcomp, hleaf, rfl⟩ := rasterize_eq v o w4 h10 h
  refine ⟨?_, ?_, ?_, run_of_rasterize v o _ h⟩
  · intro L k d n link hL hd hn
    obtain ⟨_, hk, _⟩ := nodeAt_rasterized hn
    obtain ⟨r, _, hr⟩ := climb_total o xs hsets.2.1 hcomp hleaf L d n.myCode hd
      (v.myVoxelPower - L) (v.myVoxelPower - L) 0 k n.myCode link rfl (Nat.le_refl _) (by omega) hk
    refine ⟨r, hr, ?_⟩
    intro fuel hfuel
    obtain ⟨r', h1, h2⟩ := climb_total o xs hsets.2.1 hcomp hleaf L d n.myCode hd
      (v.myVoxelPower - L) fuel 0 k n.myCode link rfl hfuel (by omega) hk
    simp only [Nat.add_zero] at hr h1 h2
    rw [hr] at h2
    rw [h1, ← Except.ok.inj h2]
  · intro k d n link hd hn
    obtain ⟨_, hk, _⟩ := nodeAt_rasterized hn
    rw [FindLinkInDirection_eq _ _ k d link _ _
      (rasterized_layer _ _ _ _ _ (Nat.le_refl _))
      (show _ = some (refNode v.myVoxelPower sets o (v.myVoxelPower + 1) v.myVoxelPower n.myCode) by
        rw [List.getElem?_map, hk]; rfl)]
    rw [refNode_code, GetNodesPerSide_rasterized _ _ _ _ _ (Nat.le_refl _), Nat.sub_self,
      Nat.pow_zero, if_pos (root_not_inCube (List.getElem?_mem hk) hd)]
    rfl
  · intro L hL
    obtain ⟨w', hw', _⟩ := BuildNeighbourLinks_total o xs hsets.2.1 hcomp hleaf L hL _ rfl
    exact ⟨w', hw'⟩

end LinksTermination

/-! ## Further concrete builds -/

section Concrete2

set_option maxRecDepth 100000 in
theorem sampleRasterized_eq :
    Generate.rasterize sampleVolume sampleOracle = .ok sampleRasterized := by
  decide!

theorem sampleGenerate_eq : Generate sampleVolume sampleOracle = .ok (true, sampleBuild) := by
  unfold Generate
  rw [sampleBuild_eq]
  rfl

theorem filter_zero_range (n : Nat) : (List.range (n + 1)).filter (fun i => i == 0) = [0] := by
  induction n with
  | zero => rfl
  | succ n ih =>
    rw [List.range_succ, List.filter_append, ih]
    simp

/-- With the sample oracle and voxel power 11 the first pass visits the `8^10`
layer-1 cells and records cell 0; `Generate.prepare` leaves the single
blocked-index set `{0}`. -/
theorem deepPrepare_eq :
    Generate.prepare deepVolume sampleOracle = .ok (prepared 11 [[0]]) := by
  obtain ⟨rest, hprep, hch, _, _⟩ := prepare_spec deepVolume sampleOracle
  have hS : firstSet deepVolume.myVoxelPower sampleOracle = [0] := by
    rw [firstSet_eq sampleOracle (by decide) (by decide)]
    have h8 : 8 ^ (deepVolume.myVoxelPower - 1) = (8 ^ 10 - 1) + 1 := by decide
    rw [h8]
    exact filter_zero_range _
  rw [hS] at hprep hch
  rw [chain_single [0] rest hch (by simp)] at hprep
  exact hprep

end Concrete2

/-! ## The further claims at the concrete builds -/

section ConcreteClaims2

/-- C4 (counterexample). With voxel power 11 the number of layer-0 cells,
`8^11`, is outside the `int32` range: `GetNodesInLayer(0)` is `-2^31`, the loop
of `RasterizeLayer(0)` does not run and layer 0 stays empty, although the first
pass found the layer-1 cell 0 occupied: the code 0 is below `8^11` and its
parent cell is occupied, but layer 0 has no node with code 0. -/
theorem layer_zero_empty_beyond_int32 :
    1 ≤ deepVolume.myVoxelPower ∧ GetNodesInLayer deepVolume 0 = -2147483648 ∧
    ∃ v3 w, Generate.prepare deepVolume sampleOracle = .ok v3 ∧
      v3.myBlockedIndices = [[0]] ∧ RasterizeLayer v3 sampleOracle 0 = .ok w ∧
      w.myData.myLayers[0]? = some [] ∧
      ¬ ((∃ n ∈ ([] : List SVONNode), n.myCode = 0) ↔
        (0 < 8 ^ deepVolume.myVoxelPower ∧ sampleOracle.firstPass (0 >>> 3) = true)) := by
  refine ⟨by decide, by decide, prepared 11 [[0]], prepared 11 [[0]], deepPrepare_eq, rfl,
    RasterizeLayer_beyond 11 [[0]] sampleOracle 0 (by decide) (by decide), by decide, ?_⟩
  intro h
  obtain ⟨n, hn, _⟩ := h.2 ⟨by positivity, rfl⟩
  exact List.not_mem_nil n hn

set_option maxRecDepth 100000 in
/-- C12 (counterexample). With voxel power 2 and the first-pass cells 0 and 1
occupied the build returns and layer 1 has a node with code 2 at index 2,
which is no ancestor-or-self of an occupied first-pass cell: no occupied cell
`c` has `c >> 3 (1 - 1) = 2`. -/
theorem sibling_node_without_occupied_cell :
    (Generate.run pairVolume pairOracle >>= fun w => nodeAt w 1 2 >>= fun n => pure n.myCode) =
      .ok 2 ∧
    ∀ c, c < 8 → pairOracle.firstPass c = true → c >>> (3 * (1 - 1)) ≠ 2 := by
  decide!

/-- The amended claim C12 at the root of the sample build. -/
theorem node_beside_occupied_ancestor_witness :
    Generate.run sampleVolume sampleOracle = .ok sampleBuild ∧
    nodeAt sampleBuild 1 0 = .ok sampleRoot ∧
    ∃ c, c < 8 ^ (sampleVolume.myVoxelPower - 1) ∧ sampleOracle.firstPass c = true ∧
      sampleRoot.myCode >>> 3 = c >>> (3 * 1) :=
  ⟨sampleBuild_eq, rfl,
    node_beside_occupied_ancestor sampleVolume sampleOracle sampleBuild sampleBuild_eq 1 0
      sampleRoot rfl⟩

/-- C13 (counterexample). With voxel power 1 and exactly the corner cell 0 of
the 8 layer-0 cells occupied, `Generate` allocates 8 layer-0 nodes, not one. -/
theorem single_cell_eight_nodes :
    sampleVolume.myVoxelPower = 1 ∧
    (∀ i, i < 8 → (sampleOracle.voxel i = true ↔ i = 0)) ∧
    Generate sampleVolume sampleOracle = .ok (true, sampleBuild) ∧
    ∃ layer0, sampleBuild.myData.myLayers[0]? = some layer0 ∧ layer0.length = 8 ∧
      layer0.length ≠ 1 :=
  ⟨rfl, by decide, sampleGenerate_eq, _, rfl, by decide, by decide⟩

/-- The amended claim C13 at the sample volume. -/
theorem single_cell_build_witness :
    sampleVolume.myVoxelPower = 1 ∧
    ∃ w layer0, Generate sampleVolume sampleOracle = .ok (true, w) ∧
      w.myData.myLayers[0]? = some layer0 ∧
      layer0.map (·.myCode) = (if sampleOracle.firstPass 0 then List.range 8 else []) ∧
      ∀ n ∈ layer0, n.myFirstChild.IsValid = sampleOracle.voxel n.myCode :=
  ⟨rfl, single_cell_build sampleVolume sampleOracle rfl⟩

/-- The claim C14 at the sample volume with nothing occupied. -/
theorem empty_world_build_witness :
    (∀ i, emptyOracle.firstPass i = false) ∧
    ∃ w, Generate sampleVolume emptyOracle = .ok (true, w) ∧
      w.myNumLayers = sampleVolume.myVoxelPower + 1 ∧
      w.myData.myLayers = List.replicate (sampleVolume.myVoxelPower + 1) [] ∧
      w.myData.myLeafNodes = [] :=
  ⟨fun _ => rfl, empty_world_build sampleVolume emptyOracle (fun _ => rfl)⟩

/-- The claim C15 at the sample volume with everything occupied. -/
theorem solid_world_build_witness :
    1 ≤ sampleVolume.myVoxelPower ∧ (∀ i, solidOracle.firstPass i = true) ∧
    (∀ i, solidOracle.voxel i = true) ∧ (∀ i s, solidOracle.subVoxel i s = true) ∧
    ∃ w layer0, Generate sampleVolume solidOracle = .ok (true, w) ∧
      w.myData.myLayers[0]? = some layer0 ∧
      (sampleVolume.myVoxelPower ≤ 10 →
        layer0.map (·.myCode) = List.range (8 ^ sampleVolume.myVoxelPower)) ∧
      (10 < sampleVolume.myVoxelPower → layer0 = []) ∧
      ∀ k n, nodeAt w 0 k = .ok n →
        (n.myFirstChild.IsValid = true ∧
          ∃ leaf, GetLeafNode w n.myFirstChild.myNodeIndex = .ok leaf ∧
            leaf.IsCompletelyBlocked = true ∧ ∀ s, s < 64 → leaf.GetNode s = true) ∧
        ∀ d, d < 6 →
          (∀ link, FindLinkInDirection w 0 k d link = .ok (true, SVONLink.GetInvalidLink)) ∧
          n.neighbour d = SVONLink.GetInvalidLink :=
  ⟨by decide, fun _ => rfl, fun _ => rfl, fun _ _ => rfl,
    solid_world_build sampleVolume solidOracle (by decide) (fun _ => rfl) (fun _ => rfl)
      (fun _ _ => rfl)⟩

/-- The claim C16 for the sample volume before and after a build. -/
theorem generate_independent_of_prior_state_witness :
    sampleVolume.myVoxelPower = sampleBuild.myVoxelPower ∧
    Generate sampleVolume sampleOracle = Generate sampleBuild sampleOracle ∧
    ∀ w, Generate sampleVolume sampleOracle = .ok (true, w) →
      Generate w sampleOracle = .ok (true, w) :=
  ⟨rfl, generate_independent_of_prior_state sampleVolume sampleBuild sampleOracle rfl⟩

/-- The claim C17 at the coordinates `(1, 2, 3)`. -/
theorem morton_roundtrip_witness :
    1 < 2 ^ 21 ∧ 2 < 2 ^ 21 ∧ 3 < 2 ^ 21 ∧
    morton3D_64_decode (morton3D_64_encode 1 2 3) = (1, 2, 3) ∧
      morton3D_64_encode 1 2 3 < 2 ^ 63 :=
  ⟨by decide, by decide, by decide, morton_roundtrip 1 2 3 (by decide) (by decide) (by decide)⟩

/-- The claim C19 at voxel power 3 with the set `{0, 1, 9}`: the parent loop
turns twice and leaves the sets `{0, 1, 9}`, `{0, 1}`, `{0}`; one unit of fuel
is not enough. -/
theorem first_pass_chain_witness :
    1 ≤ 3 ∧ [0, 1, 9].Nodup ∧ (∀ c ∈ [0, 1, 9], c < 8 ^ (3 - 1)) ∧ 3 ≤ 2 + 1 ∧
    FirstPassRasterize.parents 1 ⟨3, 4, [[0, 1, 9]], ⟨[], []⟩⟩ 0 = .error .outOfFuel ∧
    FirstPassRasterize.parents 2 ⟨3, 4, [[0, 1, 9]], ⟨[], []⟩⟩ 0 =
      .ok ⟨3, 4, [[0, 1, 9], [0, 1], [0]], ⟨[], []⟩⟩ ∧
    ∃ sets, FirstPassRasterize.parents 2 ⟨3, 4, [[0, 1, 9]], ⟨[], []⟩⟩ 0 =
        .ok ⟨3, 4, sets, ⟨[], []⟩⟩ ∧
      1 ≤ sets.length ∧ sets.length ≤ 3 ∧
      (∀ (k : Nat) (t : List Nat), sets[k]? = some t → t.Nodup ∧
        ∀ x, x ∈ t ↔ ∃ c ∈ [0, 1, 9], c >>> (3 * k) = x) ∧
      (∀ (k : Nat) (t : List Nat), sets[k]? = some t → k + 1 < sets.length → 1 < t.length) ∧
      (∀ t, sets.getLast? = some t → t.length ≤ 1) :=
  ⟨by decide, by decide, by decide, by decide, by decide!, by decide!,
    first_pass_chain 3 4 2 ⟨[], []⟩ [0, 1, 9] (by decide) (by decide) (by decide) (by decide)⟩

end ConcreteClaims2

/-! ## Parent links -/

section ParentLinks

/-- C21. In a build that returns, every node of a layer `L` below the root has
a valid parent link to layer `L + 1`, and the node it names has the code of
the node shifted right by 3 bits. Whenever `FindLinkInDirection` reports
failure at a node, so that the climb loop runs its body there, the parent link
of that node is valid: the lookup by code for a missing parent link is never
reached. -/
theorem parent_links_valid (v : ASVONVolume) (o : Oracle) (w : ASVONVolume)
    (h : Generate.run v o = .ok w) :
    (∀ (L k : Nat) (n : SVONNode), L + 1 < w.myNumLayers → nodeAt w L k = .ok n →
      n.myParent.IsValid = true ∧ n.myParent.myLayerIndex = L + 1 ∧
      ∃ p, nodeAt w (L + 1) n.myParent.myNodeIndex = .ok p ∧ p.myCode = n.myCode >>> 3) ∧
    (∀ (sl idx d : Nat) (link r : SVONLink) (cur : SVONNode), d < 6 →
      FindLinkInDirection w sl idx d link = .ok (false, r) → nodeAt w sl idx = .ok cur →
      cur.myParent.IsValid = true) := by
  by_cases h10 : v.myVoxelPower ≤ 10
  swap
  · obtain ⟨sets, rfl⟩ := eq_prepared_beyond v o w (by omega) (Or.inr h)
    exact ⟨fun L k n _ hn => absurd hn (nodeAt_prepared _ _ L k n),
      fun sl idx d link r cur _ _ hcur => absurd hcur (nodeAt_prepared _ _ sl idx cur)⟩
  obtain ⟨sets, xs, hsets, hcomp, _, _, hskel, _⟩ := run_eq v o w h10 h
  have hnum : w.myNumLayers = v.myVoxelPower + 1 := by
    rw [numLayers_of_skeleton hskel]; rfl
  have hfirst : ∀ (L k : Nat) (n : SVONNode), L < v.myVoxelPower → nodeAt w L k = .ok n →
      n.myParent.IsValid = true ∧ n.myParent.myLayerIndex = L + 1 ∧
      ∃ p, nodeAt w (L + 1) n.myParent.myNodeIndex = .ok p ∧ p.myCode = n.myCode >>> 3 := by
    intro L k n hL hn
    obtain ⟨n4, hn4, hc, _, hpar⟩ := node_of_skeleton hskel hn
    obtain ⟨_, hk, hn4eq⟩ := nodeAt_rasterized hn4
    obtain ⟨hp1, hp2⟩ := parent_rasterized o hsets.2.1 hcomp hL (List.getElem?_mem hk)
    rw [← hn4eq, hpar] at hp2
    obtain ⟨p, hp, hpc, _, _⟩ := node_of_skeleton hskel.symm
      (@nodeAt_rasterized_of _ _ o xs _ _ _ (show L + 1 ≤ v.myVoxelPower by omega) hp1)
    rw [hp2]
    refine ⟨rfl, rfl, p, hp, ?_⟩
    rw [hpc, refNode_code, hc, shiftRight_three]
  refine ⟨fun L k n hL hn => hfirst L k n (by omega) hn, ?_⟩
  intro sl idx d link r cur hd hfind hcur
  obtain ⟨n4, hn4, _, _, _⟩ := node_of_skeleton hskel hcur
  obtain ⟨hsl, hk, _⟩ := nodeAt_rasterized hn4
  by_cases hroot : sl = v.myVoxelPower
  · exfalso
    subst hroot
    rw [FindLinkInDirection_congr hskel, FindLinkInDirection_eq _ _ idx d link _ _
      (rasterized_layer _ _ _ _ _ (Nat.le_refl _))
      (show _ = some (refNode v.myVoxelPower sets o (v.myVoxelPower + 1) v.myVoxelPower
        n4.myCode) by rw [List.getElem?_map, hk]; rfl),
      refNode_code, GetNodesPerSide_rasterized _ _ _ _ _ (Nat.le_refl _), Nat.sub_self,
      Nat.pow_zero, if_pos (root_not_inCube (List.getElem?_mem hk) hd)] at hfind
    simp at hfind
  · exact (hfirst sl idx cur (by omega) hcur).1

end ParentLinks

/-! ## Links to a coarser layer -/

section Coarser

/-- The climb on a completed rasterized volume, as `climb_sound`, and in
addition: when the link it returns names a layer above the one the search was
at, the layer just below the one named has no node with the code of the
neighbouring cell at that resolution. -/
theorem climb_coarser {vp : Nat} {sets : List (List Nat)} (o : Oracle) (xs : List SVONLeafNode)
    (hch : Chain sets) (hcomp : Completed vp sets) (L d c0 qx qy qz : Nat) (hd : d < 6) :
    ∀ (fuel m idx a : Nat) (r : SVONLink), L + m ≤ vp →
      (layerCodes vp sets (L + m))[idx]? = some a →
      neighbourCoord a d = (((qx / 2 ^ m : Nat) : Int), ((qy / 2 ^ m : Nat) : Int),
        ((qz / 2 ^ m : Nat) : Int)) →
      BuildNeighbourLinks.climb (rasterized vp sets o xs) L c0 d fuel (L + m) idx
        SVONLink.GetInvalidLink = .ok r →
      r = SVONLink.GetInvalidLink ∨
        ∃ m' j, m ≤ m' ∧ L + m' ≤ vp ∧ r = SVONLink.make (L + m') j 0 ∧
          (layerCodes vp sets (L + m'))[j]? = some (morton3D_64_encode qx qy qz / 8 ^ m') ∧
          (m < m' → morton3D_64_encode qx qy qz / 8 ^ (m' - 1) ∉
            layerCodes vp sets (L + (m' - 1))) := by
  intro fuel
  induction fuel with
  | zero =>
    intro m idx a r hm ha hinv h
    unfold BuildNeighbourLinks.climb at h
    rw [bind_eq_ok] at h
    obtain ⟨r1, hf, h⟩ := h
    have hlay := rasterized_layer vp sets o xs (L + m) hm
    have hn : ((layerCodes vp sets (L + m)).map (refNode vp sets o (vp + 1) (L + m)))[idx]? =
        some (refNode vp sets o (vp + 1) (L + m) a) := by
      rw [List.getElem?_map, ha]; rfl
    have hs : (((layerCodes vp sets (L + m)).map (refNode vp sets o (vp + 1) (L + m))).map
        (·.myCode)).Pairwise (· < ·) := by
      rw [codes_rasterized_layer]; exact pairwise_layerCodes _ _ _
    rcases FindLinkInDirection_result _ _ _ _ _ _ _ r1 hlay hn hs hd hf with
      ⟨h1, h2, _, _⟩ | ⟨h1, h2⟩
    · split at h
      · exact Except.noConfusion h
      · simp only [pure_eq_ok, Except.ok.injEq] at h
        left; rw [← h, h2]
    · rw [if_neg (by simp [h1])] at h
      simp only [pure_eq_ok, Except.ok.injEq] at h
      subst h
      rcases h2 with h2 | ⟨_, j, nd, hj, hc, h2⟩
      · exact Or.inl h2
      · right
        refine ⟨m, j, Nat.le_refl _, hm, ?_, ?_, fun hlt => absurd hlt (Nat.lt_irrefl _)⟩
        · rw [h2]; rfl
        · rw [getElem?_rasterized_layer hj, hc, refNode_code, neighbourCode_of_coord hinv,
            encode_div_pow]
  | succ fuel ih =>
    intro m idx a r hm ha hinv h
    unfold BuildNeighbourLinks.climb at h
    rw [bind_eq_ok] at h
    obtain ⟨r1, hf, h⟩ := h
    have hlay := rasterized_layer vp sets o xs (L + m) hm
    have hn : ((layerCodes vp sets (L + m)).map (refNode vp sets o (vp + 1) (L + m)))[idx]? =
        some (refNode vp sets o (vp + 1) (L + m) a) := by
      rw [List.getElem?_map, ha]; rfl
    have hs : (((layerCodes vp sets (L + m)).map (refNode vp sets o (vp + 1) (L + m))).map
        (·.myCode)).Pairwise (· < ·) := by
      rw [codes_rasterized_layer]; exact pairwise_layerCodes _ _ _
    rcases FindLinkInDirection_result _ _ _ _ _ _ _ r1 hlay hn hs hd hf with
      ⟨h1, h2, h3, h4⟩ | ⟨h1, h2⟩
    · split at h
      · -- the search moves to the parent
        rw [refNode_code] at h3 h4
        have hamem : a ∈ layerCodes vp sets (L + m) := List.getElem?_mem ha
        have hlt : L + m < vp := by
          by_contra hcon
          have heq : L + m = vp := by omega
          rw [GetNodesPerSide_rasterized _ _ _ _ _ hm, heq, Nat.sub_self] at h3
          rw [heq] at hamem
          exact root_not_inCube hamem hd h3
        obtain ⟨hp1, hp2⟩ := parent_rasterized o hch hcomp hlt hamem
        simp only at h
        rw [nodeAt_rasterized_of hm ha] at h
        simp only [bind_ok, hp2] at h
        rw [if_pos (by rfl)] at h
        simp only [SVONLink.make] at h
        rw [h2] at h
        -- the neighbouring cell is not a sibling
        have hns : neighbourCode a d / 8 ≠ a / 8 := by
          intro heq
          have hmem := siblings_layerCodes hlt hamem heq
          obtain ⟨j, hj⟩ := List.mem_iff_getElem?.1 hmem
          have : ((layerCodes vp sets (L + m)).map (refNode vp sets o (vp + 1) (L + m)))[j]? =
              some (refNode vp sets o (vp + 1) (L + m) (neighbourCode a d)) := by
            rw [List.getElem?_map, hj]; rfl
          exact h4 _ (List.getElem?_mem this) (refNode_code _ _ _ _ _ _)
        rw [neighbourCode_of_coord hinv, encode_div_eight] at hns
        have hdec := encode_decode a
        have ha8 : a / 8 = morton3D_64_encode ((morton3D_64_decode a).1 / 2)
            ((morton3D_64_decode a).2.1 / 2) ((morton3D_64_decode a).2.2 / 2) := by
          conv => lhs; rw [← hdec]
          rw [encode_div_eight]
        have hinv2 : neighbourCoord (a / 8) d =
            (((qx / 2 ^ (m + 1) : Nat) : Int), ((qy / 2 ^ (m + 1) : Nat) : Int),
              ((qz / 2 ^ (m + 1) : Nat) : Int)) := by
          unfold neighbourCoord at hinv ⊢
          rw [decode_div_eight]
          simp only [Prod.mk.injEq] at hinv ⊢
          rw [Nat.pow_succ, ← Nat.div_div_eq_div_mul, ← Nat.div_div_eq_div_mul,
            ← Nat.div_div_eq_div_mul]
          rw [ha8] at hns
          generalize (morton3D_64_decode a).1 = x at hinv hns ⊢
          generalize (morton3D_64_decode a).2.1 = y at hinv hns ⊢
          generalize (morton3D_64_decode a).2.2 = z at hinv hns ⊢
          generalize qx / 2 ^ m = Qx at hinv hns ⊢
          generalize qy / 2 ^ m = Qy at hinv hns ⊢
          generalize qz / 2 ^ m = Qz at hinv hns ⊢
          have hne : ¬ (Qx / 2 = x / 2 ∧ Qy / 2 = y / 2 ∧ Qz / 2 = z / 2) := by
            rintro ⟨e1, e2, e3⟩
            rw [e1, e2, e3] at hns
            exact hns rfl
          have hdir : d = 0 ∨ d = 1 ∨ d = 2 ∨ d = 3 ∨ d = 4 ∨ d = 5 := by omega
          rcases hdir with rfl | rfl | rfl | rfl | rfl | rfl <;>
            simp only [dirs] at hinv ⊢ <;> omega
        have habsent : morton3D_64_encode qx qy qz / 8 ^ m ∉ layerCodes vp sets (L + m) := by
          intro hmem
          obtain ⟨j, hj⟩ := List.mem_iff_getElem?.1 hmem
          have hnd : ((layerCodes vp sets (L + m)).map (refNode vp sets o (vp + 1) (L + m)))[j]? =
              some (refNode vp sets o (vp + 1) (L + m) (morton3D_64_encode qx qy qz / 8 ^ m)) := by
            rw [List.getElem?_map, hj]; rfl
          apply h4 _ (List.getElem?_mem hnd)
          rw [refNode_code, neighbourCode_of_coord hinv, encode_div_pow]
        rcases ih (m + 1) _ (a / 8) r (by omega) hp1 hinv2 h with
          h5 | ⟨m', j, h5, h6, h7, h8, h9⟩
        · exact Or.inl h5
        · refine Or.inr ⟨m', j, by omega, h6, h7, h8, fun _ => ?_⟩
          by_cases hnext : m' = m + 1
          · subst hnext
            simpa using habsent
          · exact h9 (by omega)
      · simp only [pure_eq_ok, Except.ok.injEq] at h
        left; rw [← h, h2]
    · rw [if_neg (by simp [h1])] at h
      simp only [pure_eq_ok, Except.ok.injEq] at h
      subst h
      rcases h2 with h2 | ⟨_, j, nd, hj, hc, h2⟩
      · exact Or.inl h2
      · right
        refine ⟨m, j, Nat.le_refl _, hm, ?_, ?_, fun hlt => absurd hlt (Nat.lt_irrefl _)⟩
        · rw [h2]; rfl
        · rw [getElem?_rasterized_layer hj, hc, refNode_code, neighbourCode_of_coord hinv,
            encode_div_pow]

/-- A node of a layer above 0 has an invalid first-child link when the layer
below has no node with a given code whose parent is the node. -/
theorem refNode_no_children (vp : Nat) (sets : List (List Nat)) (o : Oracle) (S k c : Nat)
    (hc : c < 8 ^ (vp - k)) (habs : c ∉ layerCodes vp sets k) :
    (refNode vp sets o S (k + 1) (c / 8)).myFirstChild = SVONLink.GetInvalidLink := by
  rw [refNode_firstChild_stage]
  have hq : layerQ vp sets k (c / 8) = false := by
    by_contra hcon
    simp only [Bool.not_eq_false] at hcon
    exact habs (mem_layerCodes.2 ⟨hc, hcon⟩)
  simp only [refNode, show ¬ (k + 1 + 1 < 0 ∧ 1 < (layerCodes vp sets (k + 1)).length) by omega,
    if_false, upperLayerNode, hq]
  simp

/-- In a build that returns, a valid neighbour link stored by a node of a
layer `L` below the root names an existing node; when the link names a layer
above `L` that node has no children (its first-child link is invalid), so that
a valid link to a node with children is a link within layer `L`. -/
theorem coarser_neighbour_has_no_children (v : ASVONVolume) (o : Oracle) (w : ASVONVolume)
    (h : Generate.run v o = .ok w) (L k d : Nat) (n : SVONNode) (hL : L + 1 < w.myNumLayers)
    (hd : d < 6) (hn : nodeAt w L k = .ok n) (hvalid : (n.neighbour d).IsValid = true) :
    ∃ t, nodeAt w (n.neighbour d).myLayerIndex (n.neighbour d).myNodeIndex = .ok t ∧
      (L < (n.neighbour d).myLayerIndex → t.myFirstChild.IsValid = false) ∧
      (t.myFirstChild.IsValid = true → (n.neighbour d).myLayerIndex = L) := by
  obtain ⟨sets, xs, hch, hcomp, _, hskel, hpow, hLvp, hk, hclimb⟩ :=
    node_context v o w h L k d n hL hd hn
  by_cases hin : inCube (2 ^ (w.myVoxelPower - L)) (neighbourCoord n.myCode d)
  · have hin2 := hin
    unfold inCube at hin2
    have hinv : neighbourCoord n.myCode d =
        ((((neighbourCoord n.myCode d).1.toNat / 2 ^ 0 : Nat) : Int),
          (((neighbourCoord n.myCode d).2.1.toNat / 2 ^ 0 : Nat) : Int),
          (((neighbourCoord n.myCode d).2.2.toNat / 2 ^ 0 : Nat) : Int)) := by
      simp only [Nat.pow_zero, Nat.div_one]
      rw [Int.toNat_of_nonneg hin2.1, Int.toNat_of_nonneg hin2.2.2.1,
        Int.toNat_of_nonneg hin2.2.2.2.2.1]
    have hbound : morton3D_64_encode (neighbourCoord n.myCode d).1.toNat
        (neighbourCoord n.myCode d).2.1.toNat (neighbourCoord n.myCode d).2.2.toNat <
        8 ^ (v.myVoxelPower - L) := by
      rw [← hpow]
      apply encode_lt <;> omega
    rcases climb_coarser o xs hch hcomp L d n.myCode _ _ _ hd (v.myVoxelPower + 1) 0 k n.myCode
      (n.neighbour d) (by omega) hk hinv hclimb with hr | ⟨m2, j, _, hm2, hr, hj, habs⟩
    · rw [hr] at hvalid
      simp [SVONLink.IsValid, SVONLink.GetInvalidLink] at hvalid
    · rw [hr]
      simp only [SVONLink.make]
      obtain ⟨t, ht, _, hfc, _⟩ := node_of_skeleton hskel.symm
        (@nodeAt_rasterized_of _ _ o xs _ _ _ hm2 hj)
      refine ⟨t, ht, ?_⟩
      cases m2 with
      | zero => exact ⟨fun hlt => absurd hlt (Nat.lt_irrefl _), fun _ => rfl⟩
      | succ m3 =>
        have habs2 := habs (by omega)
        simp only [Nat.add_sub_cancel] at habs2
        have hdiv : morton3D_64_encode (neighbourCoord n.myCode d).1.toNat
            (neighbourCoord n.myCode d).2.1.toNat (neighbourCoord n.myCode d).2.2.toNat /
              8 ^ (m3 + 1) =
            morton3D_64_encode (neighbourCoord n.myCode d).1.toNat
              (neighbourCoord n.myCode d).2.1.toNat (neighbourCoord n.myCode d).2.2.toNat /
                8 ^ m3 / 8 := by
          rw [Nat.pow_succ, Nat.div_div_eq_div_mul]
        have hlt : morton3D_64_encode (neighbourCoord n.myCode d).1.toNat
            (neighbourCoord n.myCode d).2.1.toNat (neighbourCoord n.myCode d).2.2.toNat /
              8 ^ m3 < 8 ^ (v.myVoxelPower - (L + m3)) := by
          rw [Nat.div_lt_iff_lt_mul (by positivity), ← Nat.pow_add,
            show v.myVoxelPower - (L + m3) + m3 = v.myVoxelPower - L by omega]
          exact hbound
        have hnone : t.myFirstChild = SVONLink.GetInvalidLink := by
          rw [hfc, hdiv, show L + (m3 + 1) = (L + m3) + 1 by omega,
            refNode_no_children _ _ _ _ _ _ hlt habs2]
        rw [hnone]
        exact ⟨fun _ => rfl, fun hv => by
          simp [SVONLink.IsValid, SVONLink.GetInvalidLink] at hv⟩
  · have := stored_link_outside v o w h L k d n hL hd hn hin
    rw [this] at hvalid
    simp [SVONLink.IsValid, SVONLink.GetInvalidLink] at hvalid

end Coarser

/-! ## A build with links to a coarser layer -/

section Concrete3

set_option maxRecDepth 100000 in
theorem pairBuild_eq : Generate.run pairVolume pairOracle = .ok pairBuild := by
  decide!

set_option maxRecDepth 100000 in
theorem pairRasterized_eq : Generate.rasterize pairVolume pairOracle = .ok pairRasterized := by
  decide!

set_option maxRecDepth 100000 in
theorem cornerBuild_eq : Generate.run pairVolume cornerOracle = .ok cornerBuild := by
  decide!

end Concrete3

/-! ## The last claims at the concrete builds -/

section ConcreteClaims3

/-- The claim C21 at the sample build. -/
theorem parent_links_valid_witness :
    Generate.run sampleVolume sampleOracle = .ok sampleBuild ∧
    (∀ (L k : Nat) (n : SVONNode), L + 1 < sampleBuild.myNumLayers →
      nodeAt sampleBuild L k = .ok n →
      n.myParent.IsValid = true ∧ n.myParent.myLayerIndex = L + 1 ∧
      ∃ p, nodeAt sampleBuild (L + 1) n.myParent.myNodeIndex = .ok p ∧
        p.myCode = n.myCode >>> 3) ∧
    (∀ (sl idx d : Nat) (link r : SVONLink) (cur : SVONNode), d < 6 →
      FindLinkInDirection sampleBuild sl idx d link = .ok (false, r) →
      nodeAt sampleBuild sl idx = .ok cur → cur.myParent.IsValid = true) :=
  ⟨sampleBuild_eq, parent_links_valid sampleVolume sampleOracle sampleBuild sampleBuild_eq⟩

set_option maxRecDepth 100000 in
/-- The invariant of the stored links at node 2 of layer 0 of the build of
`pairVolume`, whose link in direction 2 names node 2 of layer 1. -/
theorem coarser_neighbour_has_no_children_witness :
    Generate.run pairVolume pairOracle = .ok pairBuild ∧
    0 + 1 < pairBuild.myNumLayers ∧ nodeAt pairBuild 0 2 = .ok pairNode2 ∧
    (pairNode2.neighbour 2).IsValid = true ∧ 0 < (pairNode2.neighbour 2).myLayerIndex ∧
    ∃ t, nodeAt pairBuild (pairNode2.neighbour 2).myLayerIndex
        (pairNode2.neighbour 2).myNodeIndex = .ok t ∧
      (0 < (pairNode2.neighbour 2).myLayerIndex → t.myFirstChild.IsValid = false) ∧
      (t.myFirstChild.IsValid = true → (pairNode2.neighbour 2).myLayerIndex = 0) :=
  ⟨pairBuild_eq, by decide, by decide!, by decide, by decide,
    coarser_neighbour_has_no_children pairVolume pairOracle pairBuild pairBuild_eq 0 2 2
      pairNode2 (by decide) (by decide) (by decide!) (by decide)⟩

set_option maxRecDepth 100000 in
/-- The claim C20 at the rasterized build of `pairVolume` with `pairOracle`.
For node 2 of layer 0 and direction 2 the neighbour cell lies in an unoccupied
first-pass cell: the climb loop turns once, so that it runs out of fuel with
no unit and returns the link to node 2 of layer 1 with one unit. -/
theorem neighbour_links_terminate_witness :
    Generate.rasterize pairVolume pairOracle = .ok pairRasterized ∧
    nodeAt pairRasterized 0 2 = .ok { pairNode2 with
      myNeighbours := List.replicate 6 SVONLink.GetInvalidLink } ∧
    BuildNeighbourLinks.climb pairRasterized 0 2 2 0 0 2 SVONLink.GetInvalidLink =
      .error .outOfFuel ∧
    BuildNeighbourLinks.climb pairRasterized 0 2 2 1 0 2 SVONLink.GetInvalidLink =
      .ok (SVONLink.make 1 2 0) ∧
    (∀ (L k d : Nat) (n : SVONNode) (link : SVONLink), L < pairVolume.myVoxelPower → d < 6 →
      nodeAt pairRasterized L k = .ok n →
      ∃ r, BuildNeighbourLinks.climb pairRasterized L n.myCode d
          (pairVolume.myVoxelPower - L) L k link = .ok r ∧
        ∀ fuel, pairVolume.myVoxelPower - L ≤ fuel →
          BuildNeighbourLinks.climb pairRasterized L n.myCode d fuel L k link = .ok r) ∧
    (∀ (k d : Nat) (n : SVONNode) (link : SVONLink), d < 6 →
      nodeAt pairRasterized pairVolume.myVoxelPower k = .ok n →
      FindLinkInDirection pairRasterized pairVolume.myVoxelPower k d link =
        .ok (true, SVONLink.GetInvalidLink)) ∧
    (∀ L, L < pairVolume.myVoxelPower → ∃ w', BuildNeighbourLinks pairRasterized L = .ok w') ∧
    ∃ w, Generate.run pairVolume pairOracle = .ok w :=
  ⟨pairRasterized_eq, by decide!, by decide!, by decide!,
    neighbour_links_terminate pairVolume pairOracle pairRasterized pairRasterized_eq⟩

set_option maxRecDepth 100000 in
/-- C22 (defect). In the build of `pairVolume` with `cornerOracle`, node 0 of
layer 0 stores an invalid neighbour link in direction 1, and sub-voxel 0 of
its leaf leaves the block in that direction. `GetLeafNeighbours` does not test
the link: `GetNode` answers it with the root, a node of layer 2 with children,
whose first child names node 0 of layer 1; the node index of that link is read
as a leaf index and the link `(0, 0, 9)` is appended. The lookup on a
neighbour's first child is applied to a node that is no same-layer
neighbour. -/
theorem leaf_lookup_on_root_child :
    Generate.run pairVolume cornerOracle = .ok cornerBuild ∧
    nodeAt cornerBuild 0 0 = .ok cornerNode0 ∧
    GetLeafNode cornerBuild cornerNode0.myFirstChild.myNodeIndex = .ok ⟨1⟩ ∧
    ((morton3D_64_decode 0).1 : Int) + (dirs 1).X = -1 ∧
    (cornerNode0.neighbour 1).IsValid = false ∧
    GetNode cornerBuild (cornerNode0.neighbour 1) = .ok cornerRoot ∧
    nodeAt cornerBuild 2 0 = .ok cornerRoot ∧
    cornerRoot.myFirstChild.IsValid = true ∧ cornerRoot.myFirstChild.myLayerIndex = 1 ∧
    GetLeafNode cornerBuild cornerRoot.myFirstChild.myNodeIndex = .ok ⟨1⟩ ∧
    GetLeafNeighbours.dirStep cornerBuild (SVONLink.make 0 0 0) cornerNode0 ⟨1⟩ [] 1 =
      .ok [SVONLink.make 0 0 9] ∧
    GetLeafNeighbours cornerBuild (SVONLink.make 0 0 0) [] =
      .ok [SVONLink.make 0 0 1, SVONLink.make 0 0 9, SVONLink.make 0 0 2, SVONLink.make 0 0 18,
        SVONLink.make 0 0 4, SVONLink.make 0 0 36] :=
  ⟨cornerBuild_eq, by decide!, by decide!, by decide!, by decide!, by decide!, by decide!,
    by decide!, by decide!, by decide!, by decide!, by decide!⟩

end ConcreteClaims3

end UESVON
